import Mathlib

/-!
# Teasy calendar heat-maps: a shallow embedding

Lean model of the two calendar aggregators of the repository,
`loadCalendarData` (static/js/day-plot-calendar.js) and
`formatCalendarData` / `calculateCalendarLayout`
(static/js/day-plot-component.tsx), together with the parts of the
JavaScript runtime they rely on: `Date` (ECMAScript day arithmetic, with the
host time zone taken to be UTC), `toISOString`, `Array.prototype.sort` on
strings, and plain objects used as string-keyed maps.

A `Date` value is represented by its day number, the count of days since
1970-01-01 (`Day(t)` in ECMAScript); every `Date` the code builds is at
midnight UTC and every operation it uses works on whole days.
-/

namespace Teasy

/-! ## ECMAScript date arithmetic -/

/-- Day number of 1 January of year `y` (ECMAScript `DayFromYear`). -/
def dayFromYear (y : Int) : Int :=
  365 * (y - 1970) + (y - 1969) / 4 - (y - 1901) / 100 + (y - 1601) / 400

/-- Leap years of the proleptic Gregorian calendar (ECMAScript `InLeapYear`). -/
def inLeapYear (y : Int) : Bool :=
  (y % 4 == 0 && y % 100 != 0) || y % 400 == 0

/-- Year containing day `z` (ECMAScript `YearFromTime`), computed by splitting
the days since 0001-01-01 into 400-year, 100-year, 4-year and 1-year blocks. -/
def yearFromDay (z : Int) : Int :=
  let n := z + 719162
  let doe := n % 146097
  let c := min (doe / 36524) 3
  let doc := doe - 36524 * c
  let yr := min (doc % 1461 / 365) 3
  400 * (n / 146097) + 100 * c + 4 * (doc / 1461) + yr + 1

/-- Zero-based day within its year (ECMAScript `DayWithinYear`). -/
def dayWithinYear (z : Int) : Int := z - dayFromYear (yearFromDay z)

/-- Number of days of the year before month `m` (0 = January). -/
def monthStart (leap : Bool) (m : Nat) : Int :=
  let l : Int := if leap then 1 else 0
  match m with
  | 0 => 0
  | 1 => 31
  | 2 => 59 + l
  | 3 => 90 + l
  | 4 => 120 + l
  | 5 => 151 + l
  | 6 => 181 + l
  | 7 => 212 + l
  | 8 => 243 + l
  | 9 => 273 + l
  | 10 => 304 + l
  | 11 => 334 + l
  | _ => 365 + l

/-- Zero-based month of a day within the year (ECMAScript `MonthFromTime`). -/
def monthOfYearDay (leap : Bool) (dwy : Int) : Nat :=
  if dwy < monthStart leap 1 then 0
  else if dwy < monthStart leap 2 then 1
  else if dwy < monthStart leap 3 then 2
  else if dwy < monthStart leap 4 then 3
  else if dwy < monthStart leap 5 then 4
  else if dwy < monthStart leap 6 then 5
  else if dwy < monthStart leap 7 then 6
  else if dwy < monthStart leap 8 then 7
  else if dwy < monthStart leap 9 then 8
  else if dwy < monthStart leap 10 then 9
  else if dwy < monthStart leap 11 then 10
  else 11

/-- Zero-based month of day `z`: `Date.prototype.getMonth` in UTC. -/
def getMonth (z : Int) : Nat :=
  monthOfYearDay (inLeapYear (yearFromDay z)) (dayWithinYear z)

/-- Day of the month (1-based) of day `z`: `Date.prototype.getDate` in UTC. -/
def getDate (z : Int) : Int :=
  dayWithinYear z - monthStart (inLeapYear (yearFromDay z)) (getMonth z) + 1

/-- Day of the week of day `z`, 0 = Sunday .. 6 = Saturday
(`Date.prototype.getDay`, ECMAScript `WeekDay`). -/
def getDay (z : Int) : Int := (z + 4) % 7

/-- Number of days of month `m` (0 = January) in a leap or common year. -/
def daysInMonth (leap : Bool) (m : Nat) : Int :=
  monthStart leap (m + 1) - monthStart leap m

/-- Day number of the calendar date `y`-`m+1`-`d` (ECMAScript `MakeDay` for an
in-range month and day). -/
def makeDay (y : Int) (m : Nat) (d : Int) : Int :=
  dayFromYear y + monthStart (inLeapYear y) m + d - 1

/-! ## ISO date strings -/

/-- Decimal digit character of `n % 10`. -/
def digitChar (n : Nat) : Char :=
  match n % 10 with
  | 0 => '0'
  | 1 => '1'
  | 2 => '2'
  | 3 => '3'
  | 4 => '4'
  | 5 => '5'
  | 6 => '6'
  | 7 => '7'
  | 8 => '8'
  | _ => '9'

/-- Value of a decimal digit character, `none` for any other character. -/
def digitVal (c : Char) : Option Nat :=
  if c = '0' then some 0
  else if c = '1' then some 1
  else if c = '2' then some 2
  else if c = '3' then some 3
  else if c = '4' then some 4
  else if c = '5' then some 5
  else if c = '6' then some 6
  else if c = '7' then some 7
  else if c = '8' then some 8
  else if c = '9' then some 9
  else none

/-- Two-digit zero-padded decimal of `n`. -/
def pad2 (n : Nat) : List Char := [digitChar (n / 10), digitChar n]

/-- Four-digit zero-padded decimal of `n`. -/
def pad4 (n : Nat) : List Char :=
  [digitChar (n / 1000), digitChar (n / 100), digitChar (n / 10), digitChar n]

/-- Six-digit zero-padded decimal of `n`. -/
def pad6 (n : Nat) : List Char :=
  [digitChar (n / 100000), digitChar (n / 10000), digitChar (n / 1000),
   digitChar (n / 100), digitChar (n / 10), digitChar n]

/-- Year field of `toISOString`: four digits for 0..9999, otherwise a sign and
six digits (ECMAScript expanded years). -/
def isoYear (y : Int) : List Char :=
  if 0 ≤ y ∧ y ≤ 9999 then pad4 y.toNat
  else if 0 ≤ y then '+' :: pad6 y.toNat
  else '-' :: pad6 (-y).toNat

/-- Characters of `toISOString().split('T')[0]` for the date with day number `z`. -/
def isoDateChars (z : Int) : List Char :=
  isoYear (yearFromDay z) ++ '-' :: pad2 (getMonth z + 1) ++ '-' :: pad2 (getDate z).toNat

/-- The string `date.toISOString().split('T')[0]` for the date with day number `z`. -/
def toISODate (z : Int) : String := String.mk (isoDateChars z)

/-- Value of a two-digit decimal. -/
def num2 (a b : Char) : Option Nat := do
  let x ← digitVal a
  let y ← digitVal b
  pure (10 * x + y)

/-- Value of a four-digit decimal. -/
def num4 (a b c d : Char) : Option Nat := do
  let x ← num2 a b
  let y ← num2 c d
  pure (100 * x + y)

/-- Value of a six-digit decimal. -/
def num6 (a b c d e f : Char) : Option Nat := do
  let x ← num4 a b c d
  let y ← num2 e f
  pure (100 * x + y)

/-- Day number of a year / month (1-based) / day triple, `none` unless it
names a real calendar date. -/
def civilDay (y : Int) (m d : Nat) : Option Int :=
  if 1 ≤ m ∧ m ≤ 12 ∧ 1 ≤ d ∧ (d : Int) ≤ daysInMonth (inLeapYear y) (m - 1)
  then some (makeDay y (m - 1) d) else none

/-- Parser of the date-only forms of the ECMAScript date-time string format:
`YYYY-MM-DD` and the expanded-year forms `+YYYYYY-MM-DD` / `-YYYYYY-MM-DD`
(`-000000` is not a year).  The result is the day number; `none` stands for an
Invalid Date.  Strings outside these forms, whose parsing ECMAScript leaves to
the host, are treated as invalid. -/
def parseChars : List Char → Option Int
  | [a, b, c, d, s1, e, f, s2, g, h] =>
    if s1 = '-' ∧ s2 = '-' then do
      let y ← num4 a b c d
      let m ← num2 e f
      let dd ← num2 g h
      civilDay y m dd
    else none
  | [sg, a, b, c, d, e, f, s1, g, h, s2, i, j] =>
    if s1 = '-' ∧ s2 = '-' ∧ (sg = '+' ∨ sg = '-') then do
      let y ← num6 a b c d e f
      let m ← num2 g h
      let dd ← num2 i j
      if sg = '-' ∧ y = 0 then none
      else civilDay (if sg = '-' then -(y : Int) else y) m dd
    else none
  | _ => none

/-- The call `new Date(s)` for a date string: the day number, or `none` for an Invalid Date. -/
def newDate (s : String) : Option Int := parseChars s.data

/-- A valid ISO `YYYY-MM-DD` date string: ten characters naming a calendar
date of the years 0000..9999. -/
def isISODate (s : String) : Bool := s.length == 10 && (newDate s).isSome

/-! ## String order used by `Array.prototype.sort()` -/

/-- Lexicographic comparison of two character sequences by character code. -/
def ltChars : List Char → List Char → Bool
  | [], [] => false
  | [], _ :: _ => true
  | _ :: _, [] => false
  | a :: as, b :: bs => if a < b then true else if b < a then false else ltChars as bs

/-- Strict order of the default `sort()` comparator on strings. -/
def jsStrLt (a b : String) : Bool := ltChars a.data b.data

/-- Non-strict order of the default `sort()` comparator on strings. -/
def jsStrLe (a b : String) : Bool := !jsStrLt b a

/-- The call `arr.sort()` on an array of strings (ascending, by character code). -/
def jsSort (l : List String) : List String :=
  List.insertionSort (fun a b => jsStrLe a b = true) l

/-! ## Plain objects as string-keyed maps -/

/-- A plain JavaScript object holding values of one type: its own properties
in creation order.  Keys are taken not to name members of `Object.prototype`. -/
abbrev JsObj (α : Type) := List (String × α)

/-- Property read `o[k]`; `none` stands for `undefined`. -/
def JsObj.get {α : Type} (o : JsObj α) (k : String) : Option α :=
  match o with
  | [] => none
  | (k', v) :: rest => if k' = k then some v else JsObj.get rest k

/-- Property write `o[k] = v`: an existing property keeps its position, a new
one is created last. -/
def JsObj.set {α : Type} (o : JsObj α) (k : String) (v : α) : JsObj α :=
  match o with
  | [] => [(k, v)]
  | (k', v') :: rest => if k' = k then (k', v) :: rest else (k', v') :: JsObj.set rest k v

/-- Value of a string of decimal digits, most significant first. -/
def digitsVal : List Char → Nat → Option Nat
  | [], acc => some acc
  | c :: cs, acc => (digitVal c).bind fun d => digitsVal cs (10 * acc + d)

/-- The array index named by a property key: a canonical decimal numeral
below 2^32 - 1. -/
def arrayIndex (k : String) : Option Nat :=
  match k.data with
  | [] => none
  | c :: cs =>
    if c = '0' ∧ cs ≠ [] then none
    else (digitsVal (c :: cs) 0).bind fun n => if n < 4294967295 then some n else none

/-- Own properties in enumeration order (`Object.entries`): array-index keys
in ascending numeric order, then the other keys in creation order. -/
def JsObj.entries {α : Type} (o : JsObj α) : List (String × α) :=
  let idx := o.filterMap fun kv => (arrayIndex kv.1).map fun n => (n, kv)
  (List.insertionSort (fun a b => a.1 ≤ b.1) idx).map (fun p => p.2)
    ++ o.filter fun kv => (arrayIndex kv.1).isNone

/-- Own keys in enumeration order (`Object.keys`). -/
def JsObj.keys {α : Type} (o : JsObj α) : List String := (JsObj.entries o).map (fun kv => kv.1)

/-- Own values in enumeration order (`Object.values`). -/
def JsObj.values {α : Type} (o : JsObj α) : List α := (JsObj.entries o).map (fun kv => kv.2)

/-! ## `loadCalendarData` (static/js/day-plot-calendar.js) -/

/-- An entry of the response array `ages`: a JSON number or a JSON string. -/
inductive JsAge where
  | num (n : Int)
  | str (s : String)
deriving DecidableEq, Repr

/-- The filter object built from the form controls and posted to the server. -/
structure Filters where
  brand : String
  payment_method : String
  gender : String
  age_range : String
  article : String
  date_start : Option String
  date_end : Option String
deriving DecidableEq, Repr

/-- The JSON answer of `/api/calendar_data`: parallel arrays indexed by
record.  `none` stands for a missing field, or for a `null` / missing entry. -/
structure Response where
  success : Bool
  error : Option String
  dates : Option (List String)
  values : List (Option Int)
  paymentInfo : Option (List (Option String))
  magasins : Option (List (Option String))
  genders : Option (List (Option String))
  ages : Option (List (Option JsAge))
deriving DecidableEq, Repr

/-- The per-record object pushed to a bucket's `details`. -/
structure Detail where
  paymentInfo : Option String
  magasin : Option String
  gender : Option String
  age : Option JsAge
  value : Int
deriving DecidableEq, Repr

/-- An element of `calendarData`: one record of the response. -/
structure CalItem where
  date : String
  value : Int
  paymentInfo : Option String
  magasin : Option String
  gender : Option String
  age : Option JsAge
deriving DecidableEq, Repr

/-- A value of `dateMap`: the aggregate of one date. -/
structure Bucket where
  date : String
  value : Int
  details : List Detail
deriving DecidableEq, Repr

/-- A cell of a week row. -/
structure Cell where
  value : Int
  details : List Detail
  date : Option String
deriving DecidableEq, Repr

/-- The arrays handed to the chart. -/
structure Chart where
  z : List (List Int)
  text : List (List String)
  x : List String
  y : List String
deriving DecidableEq, Repr

/-- What one run of `loadCalendarData` shows: an error message, the
no-data message, or a chart. -/
inductive Outcome where
  | error (msg : String)
  | noData
  | chart (c : Chart)
deriving DecidableEq, Repr

/-- Entry `i` of an optional parallel array: `data.f ? data.f[index] : null`. -/
def fieldAt {α : Type} (f : Option (List (Option α))) (i : Nat) : Option α :=
  match f with
  | none => none
  | some l => (l.get? i).join

/-- The array `calendarData`: `data.dates.map((date, index) => ...)`, a missing
value counting as 0. -/
def calendarData (data : Response) (dates : List String) : List CalItem :=
  dates.enum.map fun p =>
    { date := p.2
      value := ((data.values.get? p.1).join).getD 0
      paymentInfo := fieldAt data.paymentInfo p.1
      magasin := fieldAt data.magasins p.1
      gender := fieldAt data.genders p.1
      age := fieldAt data.ages p.1 }

/-- The detail object pushed for a record. -/
def detailOf (item : CalItem) : Detail :=
  { paymentInfo := item.paymentInfo, magasin := item.magasin, gender := item.gender,
    age := item.age, value := item.value }

/-- One step of `calendarData.forEach`: create the bucket of the date or add
to its value, then push the detail. -/
def addItem (dateMap : JsObj Bucket) (item : CalItem) : JsObj Bucket :=
  match dateMap.get item.date with
  | none => dateMap.set item.date
      { date := item.date, value := item.value, details := [detailOf item] }
  | some b => dateMap.set item.date
      { date := b.date, value := b.value + item.value, details := b.details ++ [detailOf item] }

/-- The object `dateMap` after the aggregation loop. -/
def buildDateMap (items : List CalItem) : JsObj Bucket := items.foldl addItem []

/-- The call `d.setDate(n)`: day `n` of the month of `d`, counted on from the
first of that month (ECMAScript `MakeDay`). -/
def setDate (z n : Int) : Int := z - getDate z + n

/-- A fresh week row: `Array(7).fill(null).map(() => (value: 0, details: [], date: null))`. -/
def emptyWeek : List Cell := List.replicate 7 { value := 0, details := [], date := none }

/-- The Monday found for a date: `setDate(getDate() - dayOfWeek + (dayOfWeek === 0 ? -6 : 1))`. -/
def mondayOf (date : Int) : Int :=
  let dayOfWeek := getDay date
  setDate date (getDate date - dayOfWeek + (if dayOfWeek = 0 then -6 else 1))

/-- Column of a date: `dayOfWeek === 0 ? 6 : dayOfWeek - 1`. -/
def dayIndexOf (date : Int) : Nat :=
  let dayOfWeek := getDay date
  if dayOfWeek = 0 then 6 else (dayOfWeek - 1).toNat

/-- One step of `Object.values(dateMap).forEach`: place a bucket in its week
row.  On an Invalid Date `toISOString` throws a `RangeError`. -/
def placeBucket (weeks : JsObj (List Cell)) (item : Bucket) : Except String (JsObj (List Cell)) :=
  match newDate item.date with
  | none => .error "Invalid time value"
  | some date =>
    let weekKey := toISODate (mondayOf date)
    let weeks1 := if (weeks.get weekKey).isNone then weeks.set weekKey emptyWeek else weeks
    let row := (weeks1.get weekKey).getD []
    .ok (weeks1.set weekKey
      (row.set (dayIndexOf date)
        { value := item.value, details := item.details, date := some item.date }))

/-- The object `weeks` after all buckets are placed, or the exception thrown on the way. -/
def buildWeeks (buckets : List Bucket) : Except String (JsObj (List Cell)) :=
  buckets.foldlM placeBucket []

/-- Truthiness of an optional string: `null`, `undefined` and the empty string are falsy. -/
def truthyStr (s : Option String) : Option String :=
  match s with
  | some t => if t = "" then none else some t
  | none => none

/-- Truthiness of an age entry: `null`, `0` and the empty string are falsy. -/
def truthyAge (a : Option JsAge) : Option JsAge :=
  match a with
  | some (.num n) => if n = 0 then none else some (.num n)
  | some (.str s) => if s = "" then none else some (.str s)
  | none => none

/-- The conversion `Number(age)`: `none` stands for `NaN`.  A string converts
when it is a decimal integer with an optional sign; the empty string is 0. -/
def jsNumber (a : JsAge) : Option Int :=
  match a with
  | .num n => some n
  | .str s =>
    match s.data with
    | [] => some 0
    | '-' :: c :: cs => (digitsVal (c :: cs) 0).map fun n => -(n : Int)
    | '+' :: c :: cs => (digitsVal (c :: cs) 0).map fun n => (n : Int)
    | cs => (digitsVal cs 0).map fun n => (n : Int)

/-- The comparison `age < k`, false on `NaN`. -/
def numLt (age : Option Int) (k : Int) : Bool :=
  match age with
  | some a => decide (a < k)
  | none => false

/-- The comparison `age <= k`, false on `NaN`. -/
def numLe (age : Option Int) (k : Int) : Bool :=
  match age with
  | some a => decide (a ≤ k)
  | none => false

/-- The age bracket label chosen by the `if` chain of the tooltip. -/
def ageGroup (age : Option Int) : String :=
  if numLt age 19 then "0-18 ans"
  else if numLe age 25 then "19-25 ans"
  else if numLe age 35 then "26-35 ans"
  else if numLe age 50 then "36-50 ans"
  else "51+ ans"

/-- The update `summary[k] = (summary[k] || 0) + v`. -/
def bump (summary : JsObj Int) (k : String) (v : Int) : JsObj Int :=
  summary.set k ((summary.get k).getD 0 + v)

/-- The four summaries built by `day.details.forEach`. -/
structure Summaries where
  payment : JsObj Int
  store : JsObj Int
  gender : JsObj Int
  age : JsObj Int
deriving DecidableEq, Repr

/-- One step of `day.details.forEach`: count the detail under each field it carries. -/
def summarize (s : Summaries) (detail : Detail) : Summaries :=
  { payment := match truthyStr detail.paymentInfo with
      | some k => bump s.payment k detail.value
      | none => s.payment
    store := match truthyStr detail.magasin with
      | some k => bump s.store k detail.value
      | none => s.store
    gender := match truthyStr detail.gender with
      | some k => bump s.gender k detail.value
      | none => s.gender
    age := match truthyAge detail.age with
      | some a => bump s.age (ageGroup (jsNumber a)) detail.value
      | none => s.age }

/-- Decimal text of a count, as a template literal prints it. -/
def showNum (n : Int) : String := toString n

/-- The lines of one breakdown: `- key: count achat(s)<br>` for each entry. -/
def breakdownLines (o : JsObj Int) : String :=
  (JsObj.entries o).foldl
    (fun acc kv => acc ++ "- " ++ kv.1 ++ ": " ++ showNum kv.2 ++ " achat(s)<br>") ""

/-- Header of the payment-method breakdown. -/
def paymentHeader : String := "<br><b>Moyens de paiement</b>:<br>"

/-- Header of the store breakdown. -/
def storeHeader : String := "<br><b>Magasins</b>:<br>"

/-- Header of the gender breakdown. -/
def genderHeader : String := "<br><b>Répartition par genre</b>:<br>"

/-- Header of the age breakdown. -/
def ageHeader : String := "<br><b>Répartition par âge</b>:<br>"

/-- A breakdown section, present when the summary has a key and `shown` holds. -/
def breakdown (header : String) (o : JsObj Int) (shown : Bool) : String :=
  if 0 < (JsObj.keys o).length ∧ shown = true then header ++ breakdownLines o else ""

/-- The hover text of one cell (the callback of `week.map` in `text`). -/
def tooltip (filters : Filters) (day : Cell) : String :=
  match truthyStr day.date with
  | none => "Pas de données"
  | some date =>
    if day.details.length = 0 then "Date: " ++ date ++ "<br>Pas d\x27achats"
    else
      let s := day.details.foldl summarize { payment := [], store := [], gender := [], age := [] }
      "<b>Date</b>: " ++ date ++ "<br><b>Total</b>: " ++ showNum day.value ++ " achat(s)<br>"
        ++ breakdown paymentHeader s.payment true
        ++ breakdown storeHeader s.store (filters.brand == "all")
        ++ breakdown genderHeader s.gender (filters.gender == "all")
        ++ breakdown ageHeader s.age (filters.age_range == "all")

/-- The weekday labels `days`, also passed to the chart as `x`. -/
def days : List String := ["Dim", "Lun", "Mar", "Mer", "Jeu", "Ven", "Sam"]

/-- The label of a week row: `Semaine du (getDate)/(getMonth + 1)`. -/
def weekLabel (week : String) : String :=
  match newDate week with
  | some date => "Semaine du " ++ showNum (getDate date) ++ "/" ++ showNum (getMonth date + 1)
  | none => "Semaine du NaN/NaN"

/-- The sorted week keys: `Object.keys(weeks).sort()`. -/
def weekKeysOf (weeks : JsObj (List Cell)) : List String := jsSort (JsObj.keys weeks)

/-- The rows in key order: `weekKeys.map(key => weeks[key])`. -/
def sortedWeeksOf (weeks : JsObj (List Cell)) : List (List Cell) :=
  (weekKeysOf weeks).map fun key => (weeks.get key).getD []

/-- The arrays computed from `weeks`: `z`, `text`, `x` and `y`. -/
def chartOf (filters : Filters) (weeks : JsObj (List Cell)) : Chart :=
  { z := (sortedWeeksOf weeks).map fun week => week.map fun day => day.value
    text := (sortedWeeksOf weeks).map fun week => week.map (tooltip filters)
    x := days
    y := (weekKeysOf weeks).map weekLabel }

/-- The message of the error thrown when the server reports a failure. -/
def failureMessage (error : Option String) : String :=
  match truthyStr error with
  | some e => e
  | none => "Erreur lors du chargement des données"

/-- The array `Object.values(dateMap)` of a response. -/
def dateBuckets (data : Response) (dates : List String) : List Bucket :=
  JsObj.values (buildDateMap (calendarData data dates))

/-- The grid part of `loadCalendarData`, from the response dates to the chart
arrays, or the message of the exception thrown on the way. -/
def buildCalendar (filters : Filters) (data : Response) (dates : List String) :
    Except String Chart :=
  match buildWeeks (dateBuckets data dates) with
  | .error e => .error e
  | .ok weeks => .ok (chartOf filters weeks)

/-- One run of `loadCalendarData` on the filters read from the form and the
parsed server response. -/
def loadCalendarData (filters : Filters) (data : Response) : Outcome :=
  if data.success = false then .error (failureMessage data.error)
  else
    match data.dates with
    | none => .noData
    | some [] => .noData
    | some (d :: ds) =>
      match buildCalendar filters data (d :: ds) with
      | .error e => .error e
      | .ok c => .chart c

/-! ## `DayPlotCalendar` (static/js/day-plot-component.tsx) -/

/-- A purchase record of the component. -/
structure Purchase where
  date_achat : String
  magasin : String
deriving DecidableEq, Repr

/-- The list `filteredData` of `formatCalendarData`. -/
def filteredData (rawData : List Purchase) (brandFilter : String) : List Purchase :=
  if brandFilter = "all" then rawData
  else rawData.filter fun item => item.magasin = brandFilter

/-- One step of lodash `groupBy` on the key `date_achat`. -/
def groupStep (o : JsObj (List Purchase)) (item : Purchase) : JsObj (List Purchase) :=
  match o.get item.date_achat with
  | some items => o.set item.date_achat (items ++ [item])
  | none => o.set item.date_achat [item]

/-- The call `_.groupBy(filteredData, 'date_achat')`. -/
def groupByDate (l : List Purchase) : JsObj (List Purchase) := l.foldl groupStep []

/-- The function `formatCalendarData`: the dates present and the number of
records of each; `none` stands for `null`. -/
def formatCalendarData (rawData : Option (List Purchase)) (brandFilter : String) :
    Option (List String × List Int) :=
  match rawData with
  | none => none
  | some [] => none
  | some (r :: rs) =>
    let entries := JsObj.entries (groupByDate (filteredData (r :: rs) brandFilter))
    some (entries.map (fun e => e.1), entries.map (fun e => (e.2.length : Int)))

/-- The object `dateValueMap`: `dates.forEach((date, index) => dateValueMap[date] = counts[index])`.
A missing count is stored as 0, which is what the later read `|| 0` makes of it. -/
def dateValueMapOf (dates : List String) (counts : List Int) : JsObj Int :=
  dates.enum.foldl (fun m p => m.set p.2 (counts.getD p.1 0)) []

/-- The weekday labels of the component. -/
def weekdays : List String := ["Dim", "Lun", "Mar", "Mer", "Jeu", "Ven", "Sam"]

/-- The inner `for` loop: `n` more cells from `currentDate`, each with its
`dateStr` and value; also returns `currentDate` after the loop. -/
def fillRow (m : JsObj Int) : Nat → Int → List (String × Int) × Int
  | 0, currentDate => ([], currentDate)
  | n + 1, currentDate =>
    let dateStr := toISODate currentDate
    let value := (m.get dateStr).getD 0
    let rest := fillRow m n (setDate currentDate (getDate currentDate + 1))
    ((dateStr, value) :: rest.1, rest.2)

/-- The `while (currentDate <= lastDay)` loop, run for at most `fuel` rows;
`none` when the loop is still running after that many. -/
def layoutLoop (m : JsObj Int) : Nat → Int → Int → Option (List (List (String × Int)))
  | 0, currentDate, lastDay => if currentDate ≤ lastDay then none else some []
  | fuel + 1, currentDate, lastDay =>
    if currentDate ≤ lastDay then
      let row := fillRow m 7 currentDate
      (layoutLoop m fuel row.2 lastDay).map fun rows => row.1 :: rows
    else some []

/-- The result of `calculateCalendarLayout`; `cells` keeps, beside each value
of `z`, the `dateStr` it was looked up with. -/
structure Layout where
  cells : List (List (String × Int))
  x : List String
  y : List String
deriving DecidableEq, Repr

/-- The matrix `z` of a layout. -/
def Layout.z (l : Layout) : List (List Int) := l.cells.map fun row => row.map fun c => c.2

/-- The Sunday on or before the first date: `firstDay.setDate(firstDay.getDate() - firstDay.getDay())`. -/
def firstDayOf (startDate : Int) : Int :=
  setDate startDate (getDate startDate - getDay startDate)

/-- The Saturday on or after the last date: `lastDay.setDate(lastDay.getDate() + (6 - lastDay.getDay()))`. -/
def lastDayOf (endDate : Int) : Int :=
  setDate endDate (getDate endDate + (6 - getDay endDate))

/-- The function `calculateCalendarLayout`, its `while` loop run for at most
`fuel` rows; `none` when the loop has not ended by then.  With an Invalid Date
at either end the loop condition is false from the start. -/
def calculateCalendarLayout (fuel : Nat) (dates : Option (List String)) (counts : List Int) :
    Option Layout :=
  match dates with
  | none => some { cells := [], x := [], y := [] }
  | some [] => some { cells := [], x := [], y := [] }
  | some (d :: ds) =>
    let dateValueMap := dateValueMapOf (d :: ds) counts
    let sortedDates := jsSort (d :: ds)
    match newDate (sortedDates.headD ""), newDate (sortedDates.getLastD "") with
    | some startDate, some endDate =>
      (layoutLoop dateValueMap fuel (firstDayOf startDate) (lastDayOf endDate)).map fun rows =>
        { cells := rows
          x := weekdays
          y := (List.range rows.length).map fun weekIndex => "Semaine " ++ showNum (weekIndex + 1) }
    | _, _ => some { cells := [], x := weekdays, y := [] }

/-- The grid drawn by the component for the records `data` and the selected brand:
`calendarData ? calculateCalendarLayout(calendarData.dates, calendarData.counts) : empty`. -/
def componentLayout (fuel : Nat) (data : Option (List Purchase)) (selectedBrand : String) :
    Option Layout :=
  match formatCalendarData data selectedBrand with
  | none => some { cells := [], x := [], y := [] }
  | some dc => calculateCalendarLayout fuel (some dc.1) dc.2

/-! ## Vocabulary of the statements -/

/-- The bucket a date must have after the aggregation loop. -/
def bucketOf (items : List CalItem) (d : String) : Bucket :=
  { date := d
    value := ((items.filter fun i => i.date = d).map fun i => i.value).sum
    details := (items.filter fun i => i.date = d).map detailOf }

/-- The empty cell of a fresh week row. -/
def emptyCell : Cell := { value := 0, details := [], date := none }

/-- The cell written for a bucket. -/
def cellOf (b : Bucket) : Cell := { value := b.value, details := b.details, date := some b.date }

/-- The week key and column a bucket is written to, `none` on an Invalid Date. -/
def posOf (b : Bucket) : Option (String × Nat) :=
  (newDate b.date).map fun n => (toISODate (mondayOf n), dayIndexOf n)

/-- The cell of week `k`, column `i`; a week without a row reads as an empty row. -/
def cellAt (weeks : JsObj (List Cell)) (k : String) (i : Nat) : Cell :=
  ((weeks.get k).getD emptyWeek).getD i emptyCell

/-- Sum of the values of a row. -/
def rowSum (row : List Cell) : Int := (row.map fun c => c.value).sum

/-- Sum of the values of all cells of `weeks`. -/
def gridSum (weeks : JsObj (List Cell)) : Int := (weeks.map fun kv => rowSum kv.2).sum

/-- Sum of `f` over the values of an object. -/
def objSum {α : Type} (f : α → Int) (o : JsObj α) : Int := (o.map fun kv => f kv.2).sum

/-- Sum of all entries of a matrix. -/
def matrixSum (z : List (List Int)) : Int := (z.map List.sum).sum

/-- The week key and column a date string is written to, `none` on an Invalid Date. -/
def datePos (d : String) : Option (String × Nat) :=
  (newDate d).map fun n => (toISODate (mondayOf n), dayIndexOf n)

/-- The date range test `date >= date_start` and `date <= date_end` on date
strings, each bound applying only when it is set. -/
def inRequestedRange (filters : Filters) (d : String) : Bool :=
  (match filters.date_start with
    | some s => jsStrLe s d
    | none => true) &&
  (match filters.date_end with
    | some e => jsStrLe d e
    | none => true)

/-- The cells of the grid that starts on day `first` and has `k` rows. -/
def gridCells (m : JsObj Int) (first : Int) (k : Nat) : List (List (String × Int)) :=
  (List.range k).map fun r : Nat => (List.range 7).map fun c : Nat =>
    (toISODate (first + 7 * r + c), (m.get (toISODate (first + 7 * r + c))).getD 0)

/-! ## Worked inputs -/

/-- The filter object of a form left untouched: every select on `all`, no dates. -/
def noFilters : Filters :=
  { brand := "all", payment_method := "all", gender := "all", age_range := "all",
    article := "all", date_start := none, date_end := none }

/-- A successful response carrying the given dates with one purchase each and no other field. -/
def plainResponse (dates : List String) : Response :=
  { success := true, error := none, dates := some dates,
    values := dates.map fun _ => some 1,
    paymentInfo := none, magasins := none, genders := none, ages := none }

/-- The filter object of a form asking for February 2024 only. -/
def februaryFilters : Filters :=
  { brand := "all", payment_method := "all", gender := "all", age_range := "all",
    article := "all", date_start := some "2024-02-01", date_end := some "2024-02-29" }

/-! ## Messages and the network boundary -/

/-- The text shown when a successful response carries no date. -/
def noDataMessage : String := "Aucune donnée disponible pour cette sélection"

/-- The text an outcome puts in the error box (`errorMessage.textContent`), if any. -/
def Outcome.message : Outcome → Option String
  | .error msg => some msg
  | .noData => some noDataMessage
  | .chart _ => none

/-- What `await fetch(...)` and `await response.json()` deliver: the parsed
response, or the message of the error the promise rejected with. -/
inductive Fetched where
  | rejected (message : String)
  | resolved (data : Response)
deriving DecidableEq, Repr

/-- The text chosen by the `catch` block of `loadCalendarData`:
`error.message || 'Une erreur s'est produite lors du chargement des données.'`. -/
def catchMessage (message : String) : String :=
  if message = "" then "Une erreur s\x27est produite lors du chargement des données."
  else message

/-- The function `loadCalendarData` with its network call: a rejected fetch
goes to the `catch` block, like every error thrown later. -/
def loadCalendarDataFetched (filters : Filters) (r : Fetched) : Outcome :=
  match r with
  | .rejected message => .error (catchMessage message)
  | .resolved data =>
    match loadCalendarData filters data with
    | .error message => .error (catchMessage message)
    | .noData => .noData
    | .chart c => .chart c

/-- The filter object of a form with the payment method pinned to `CB`. -/
def cardFilters : Filters :=
  { brand := "all", payment_method := "CB", gender := "all", age_range := "all",
    article := "all", date_start := none, date_end := none }

/-- A response with one purchase on Monday 2024-01-01, paid by `CB`. -/
def cardResponse : Response :=
  { success := true, error := none, dates := some ["2024-01-01"], values := [some 1],
    paymentInfo := some [some "CB"], magasins := none, genders := none, ages := none }

/-- A response with one purchase on Monday 2024-01-01 by a customer of the given age. -/
def agedResponse (age : Int) : Response :=
  { success := true, error := none, dates := some ["2024-01-01"], values := [some 1],
    paymentInfo := none, magasins := none, genders := none, ages := some [some (.num age)] }

/-! ## `ProfessionalDashboard` (static/js/dashboard.js) -/

/-- A field value of a dashboard record: a string or a number. -/
inductive JsVal where
  | str (s : String)
  | num (n : Int)
deriving DecidableEq, Repr

/-- A dashboard record: an object with string and number fields. -/
abbrev Item := JsObj JsVal

/-- The memo `filteredData`: the records that pass every selected filter,
`value === 'all' || item[key] === value`; the values of `selectedFilters` are
the strings chosen in the selects. -/
def ProfessionalDashboard.filteredData (data : List Item) (selectedFilters : JsObj String) :
    List Item :=
  data.filter fun item =>
    (JsObj.entries selectedFilters).all fun kv =>
      kv.2 = "all" || item.get kv.1 = some (.str kv.2)

/-- A numeric field of a record, as the mock records of the dashboard carry it;
`none` when the field is missing or holds a string, where the sum is not
followed further. -/
def numField (item : Item) (key : String) : Option Int :=
  match item.get key with
  | some (.num n) => some n
  | _ => none

/-- The reduction `list.reduce((sum, item) => sum + item[key], 0)` over numeric fields. -/
def sumField (list : List Item) (key : String) : Option Int :=
  list.foldl (fun sum item => sum.bind fun s => (numField item key).map fun v => s + v) (some 0)

/-- The result of a division of the host: an exact quotient, or `NaN`. -/
inductive JsNum where
  | nan
  | val (q : ℚ)
deriving DecidableEq

/-- The value `averageProfit` of `QuickStats`: the sum of `profit` divided by
`filteredData.length`.  With an empty list the sum is 0 and `0 / 0` is `NaN`. -/
def QuickStats.averageProfit (filteredData : List Item) : Option JsNum :=
  (sumField filteredData "profit").map fun (s : Int) =>
    if filteredData.length = 0 then .nan else .val ((s : ℚ) / (filteredData.length : ℚ))

/-! ## Sortable tables (static/js/main.js) -/

/-- The click handler installed by `setupSortableTable`, on the list of the
`data-sort-direction` attributes of the headers: the flag `ascending` passed to
`sortTable`, and the attributes after the click. -/
def clickHeader (attrs : List (Option String)) (header : Nat) : Bool × List (Option String) :=
  let ascending := decide (attrs.getD header none = some "asc")
  let removed := attrs.map fun _ => (none : Option String)
  let newDirection := if removed.getD header none = some "asc" then "desc" else "asc"
  (ascending, removed.set header (some newDirection))

/-- The comparator of `sortTable` on two rows, given as the trimmed texts of
their cells: negative, zero or positive.  `parseFloat` (with `none` for `NaN`)
and `localeCompare` are those of the host. -/
def compareRows {ν : Type} [LinearOrder ν] (parseFloat : String → Option ν)
    (localeCompare : String → String → Int) (column : Nat) (ascending : Bool)
    (a b : List String) : Int :=
  let cellA := (a.get? column).getD ""
  let cellB := (b.get? column).getD ""
  match parseFloat cellA, parseFloat cellB with
  | some numA, some numB =>
    if ascending then (if numA < numB then -1 else if numA = numB then 0 else 1)
    else (if numB < numA then -1 else if numB = numA then 0 else 1)
  | _, _ => if ascending then localeCompare cellA cellB else localeCompare cellB cellA

/-- The function `sortTable`: the rows of the body after the call.  `sort` is
stable; when two rows or more are compared and one of them has no cell in the
column, the comparator throws and the body is left as it was. -/
def sortTable {ν : Type} [LinearOrder ν] (parseFloat : String → Option ν)
    (localeCompare : String → String → Int) (rows : List (List String)) (column : Nat)
    (ascending : Bool) : List (List String) :=
  if 2 ≤ rows.length ∧ ∃ row ∈ rows, row.length ≤ column then rows
  else List.insertionSort
    (fun a b => compareRows parseFloat localeCompare column ascending a b ≤ 0) rows

/-! ## Select lists (static/js/day-plot-calendar.js) -/

/-- A `select` element: its options as (value, text) pairs and its selected value. -/
structure SelectEl where
  options : List (String × String)
  value : String
deriving DecidableEq, Repr

/-- The function `updateSelectOptions` on an existing element.  Once the list
is emptied and the default option appended, that first option is the selected
one until `value` is assigned. -/
def updateSelectOptions (selectElement : SelectEl) (options : List (Option String))
    (defaultValue defaultText : String) : SelectEl :=
  let currentValue := selectElement.value
  let newOptions := (defaultValue, defaultText) ::
    options.filterMap fun option => (truthyStr option).map fun v => (v, v)
  if currentValue ≠ defaultValue then
    if newOptions.any (fun option => option.1 = currentValue) then
      { options := newOptions, value := currentValue }
    else { options := newOptions, value := defaultValue }
  else { options := newOptions, value := defaultValue }

/-! ## Cluster offers (static/js/cluster_offers.js) -/

/-- The call `s.split(sep)` for a one-character separator, on character lists. -/
def splitChars (sep : Char) : List Char → List (List Char)
  | [] => [[]]
  | c :: cs =>
    if c = sep then [] :: splitChars sep cs
    else
      match splitChars sep cs with
      | seg :: rest => (c :: seg) :: rest
      | [] => [[c]]

/-- The expression `this.id.split('-').pop()` of the change handlers. -/
def clusterIdOf (id : String) : String :=
  String.mk ((splitChars '-' id.data).getLastD [])

/-- The element id `offer-type-<c>` of a cluster. -/
def offerTypeId (c : String) : String := "offer-type-" ++ c

/-- The element id `action-type-<c>` of a cluster. -/
def actionTypeId (c : String) : String := "action-type-" ++ c

/-! ## `loadCalendarData` on a host away from UTC

`new Date('YYYY-MM-DD')` is midnight UTC of that day and `toISOString` prints
UTC, while `getDay`, `getDate`, `getMonth` and `setDate` work on the local time
of the host.  Here a `Date` is an instant, in minutes since 1970-01-01T00:00Z,
and the host's local time is UTC plus a fixed offset of `tz` minutes
(`-300` for UTC-5); changes of the offset during the year are not modelled. -/

/-- Minutes in a day. -/
def minutesPerDay : Int := 1440

/-- The instant `new Date(s)` of a date string parsed to the day `d`. -/
def Zoned.instantOf (d : Int) : Int := d * minutesPerDay

/-- The local day number of an instant: `Day(LocalTime(t))`. -/
def Zoned.localDay (tz t : Int) : Int := (t + tz) / minutesPerDay

/-- The UTC day number of an instant, whose ISO text is `toISOString().split('T')[0]`. -/
def Zoned.utcDay (t : Int) : Int := t / minutesPerDay

/-- The call `d.setDate(n)`: the local day of the month is set, the local
time within the day is kept, and the result is taken back to UTC. -/
def Zoned.setDate (tz t n : Int) : Int :=
  Teasy.setDate (Zoned.localDay tz t) n * minutesPerDay + (t + tz) % minutesPerDay - tz

/-- The Monday found for a date: `setDate(getDate() - dayOfWeek + (dayOfWeek === 0 ? -6 : 1))`. -/
def Zoned.mondayOf (tz date : Int) : Int :=
  let dayOfWeek := getDay (Zoned.localDay tz date)
  Zoned.setDate tz date
    (getDate (Zoned.localDay tz date) - dayOfWeek + (if dayOfWeek = 0 then -6 else 1))

/-- Column of a date: `dayOfWeek === 0 ? 6 : dayOfWeek - 1`. -/
def Zoned.dayIndexOf (tz date : Int) : Nat :=
  let dayOfWeek := getDay (Zoned.localDay tz date)
  if dayOfWeek = 0 then 6 else (dayOfWeek - 1).toNat

/-- One step of `Object.values(dateMap).forEach` on the host. -/
def Zoned.placeBucket (tz : Int) (weeks : JsObj (List Cell)) (item : Bucket) :
    Except String (JsObj (List Cell)) :=
  match newDate item.date with
  | none => .error "Invalid time value"
  | some d =>
    let date := Zoned.instantOf d
    let weekKey := toISODate (Zoned.utcDay (Zoned.mondayOf tz date))
    let weeks1 := if (weeks.get weekKey).isNone then weeks.set weekKey emptyWeek else weeks
    let row := (weeks1.get weekKey).getD []
    .ok (weeks1.set weekKey
      (row.set (Zoned.dayIndexOf tz date)
        { value := item.value, details := item.details, date := some item.date }))

/-- The object `weeks` after all buckets are placed, on the host. -/
def Zoned.buildWeeks (tz : Int) (buckets : List Bucket) : Except String (JsObj (List Cell)) :=
  buckets.foldlM (Zoned.placeBucket tz) []

/-- The label of a week row on the host: `Semaine du (getDate)/(getMonth + 1)`. -/
def Zoned.weekLabel (tz : Int) (week : String) : String :=
  match newDate week with
  | some d =>
    "Semaine du " ++ showNum (getDate (Zoned.localDay tz (Zoned.instantOf d))) ++ "/"
      ++ showNum (getMonth (Zoned.localDay tz (Zoned.instantOf d)) + 1)
  | none => "Semaine du NaN/NaN"

/-- The arrays computed from `weeks` on the host. -/
def Zoned.chartOf (tz : Int) (filters : Filters) (weeks : JsObj (List Cell)) : Chart :=
  { z := (sortedWeeksOf weeks).map fun week => week.map fun day => day.value
    text := (sortedWeeksOf weeks).map fun week => week.map (tooltip filters)
    x := days
    y := (weekKeysOf weeks).map (Zoned.weekLabel tz) }

/-- The grid part of `loadCalendarData` on the host. -/
def Zoned.buildCalendar (tz : Int) (filters : Filters) (data : Response) (dates : List String) :
    Except String Chart :=
  match Zoned.buildWeeks tz (dateBuckets data dates) with
  | .error e => .error e
  | .ok weeks => .ok (Zoned.chartOf tz filters weeks)

/-- One run of `loadCalendarData` on a host whose local time is UTC plus `tz` minutes. -/
def Zoned.loadCalendarData (tz : Int) (filters : Filters) (data : Response) : Outcome :=
  if data.success = false then .error (failureMessage data.error)
  else
    match data.dates with
    | none => .noData
    | some [] => .noData
    | some (d :: ds) =>
      match Zoned.buildCalendar tz filters data (d :: ds) with
      | .error e => .error e
      | .ok c => .chart c

/-! # Theorems -/

/-! ## Calendar arithmetic -/

/-- The block decomposition behind `yearFromDay`: the day splits into whole
400-, 100-, 4- and 1-year blocks plus a remainder inside the year. -/
theorem yearFromDay_blocks (z : Int) :
    ∃ e c q yr r : Int, 0 ≤ c ∧ c ≤ 3 ∧ 0 ≤ q ∧ q ≤ 24 ∧ 0 ≤ yr ∧ yr ≤ 3 ∧ 0 ≤ r ∧
      (r < 365 ∨ (r = 365 ∧ yr = 3 ∧ (q < 24 ∨ c = 3))) ∧
      yearFromDay z = 400 * e + 100 * c + 4 * q + yr + 1 ∧
      z + 719162 = 146097 * e + 36524 * c + 1461 * q + 365 * yr + r := by
  refine ⟨(z + 719162) / 146097, min ((z + 719162) % 146097 / 36524) 3,
    ((z + 719162) % 146097 - 36524 * min ((z + 719162) % 146097 / 36524) 3) / 1461,
    min (((z + 719162) % 146097 - 36524 * min ((z + 719162) % 146097 / 36524) 3) % 1461 / 365) 3,
    ((z + 719162) % 146097 - 36524 * min ((z + 719162) % 146097 / 36524) 3) % 1461
      - 365 * min (((z + 719162) % 146097 - 36524 * min ((z + 719162) % 146097 / 36524) 3) % 1461 / 365) 3,
    ?_, ?_, ?_, ?_, ?_, ?_, ?_, ?_, ?_, ?_⟩
  all_goals first
    | rfl
    | omega

theorem dayFromYear_blocks (e c q yr : Int) (hc0 : 0 ≤ c) (hc : c ≤ 3) (hq0 : 0 ≤ q) (hq : q ≤ 24)
    (hy0 : 0 ≤ yr) (hy : yr ≤ 3) :
    dayFromYear (400 * e + 100 * c + 4 * q + yr + 1)
      = 146097 * e + 36524 * c + 1461 * q + 365 * yr - 719162 := by
  unfold dayFromYear
  have h4 : (400 * e + 100 * c + 4 * q + yr + 1 - 1969) / 4 = 100 * e + 25 * c + q - 492 := by omega
  have h100 : (400 * e + 100 * c + 4 * q + yr + 1 - 1901) / 100 = 4 * e + c - 19 := by omega
  have h400 : (400 * e + 100 * c + 4 * q + yr + 1 - 1601) / 400 = e - 4 := by omega
  rw [h4, h100, h400]
  omega

theorem dayFromYear_succ (y : Int) :
    dayFromYear (y + 1) = dayFromYear y + (if inLeapYear y = true then 366 else 365) := by
  unfold dayFromYear inLeapYear
  split_ifs with h <;> simp at h <;> omega

theorem inLeapYear_blocks (e c q yr : Int) (hc0 : 0 ≤ c) (hc : c ≤ 3) (hq0 : 0 ≤ q) (hq : q ≤ 24)
    (hy0 : 0 ≤ yr) (hy : yr ≤ 3) :
    inLeapYear (400 * e + 100 * c + 4 * q + yr + 1) = true ↔ (yr = 3 ∧ (q < 24 ∨ c = 3)) := by
  unfold inLeapYear
  simp
  omega

theorem dayWithinYear_nonneg (z : Int) : 0 ≤ dayWithinYear z := by
  obtain ⟨e, c, q, yr, r, hc0, hc, hq0, hq, hy0, hy, hr0, hr, hY, hz⟩ := yearFromDay_blocks z
  unfold dayWithinYear
  rw [hY, dayFromYear_blocks e c q yr hc0 hc hq0 hq hy0 hy]
  omega

theorem dayWithinYear_lt (z : Int) :
    dayWithinYear z < (if inLeapYear (yearFromDay z) = true then 366 else 365) := by
  obtain ⟨e, c, q, yr, r, hc0, hc, hq0, hq, hy0, hy, hr0, hr, hY, hz⟩ := yearFromDay_blocks z
  unfold dayWithinYear
  have hl := inLeapYear_blocks e c q yr hc0 hc hq0 hq hy0 hy
  rw [hY, dayFromYear_blocks e c q yr hc0 hc hq0 hq hy0 hy]
  split_ifs with h
  · omega
  · rw [hl] at h
    omega

theorem dayFromYear_lt_succ (y : Int) : dayFromYear y < dayFromYear (y + 1) := by
  rw [dayFromYear_succ]; split_ifs <;> omega

theorem dayFromYear_mono_nat (y : Int) (k : Nat) : dayFromYear y ≤ dayFromYear (y + k) := by
  induction k with
  | zero => simp
  | succ n ih =>
    have h := dayFromYear_lt_succ (y + n)
    have e : y + ((n + 1 : Nat) : Int) = y + n + 1 := by push_cast; ring
    rw [e]; omega

theorem dayFromYear_mono {a b : Int} (h : a ≤ b) : dayFromYear a ≤ dayFromYear b := by
  have := dayFromYear_mono_nat a (b - a).toNat
  have e : a + ((b - a).toNat : Int) = b := by omega
  rwa [e] at this

/-- The year of a day is the only year whose span contains it. -/
theorem yearFromDay_unique (z y : Int) (h1 : dayFromYear y ≤ z) (h2 : z < dayFromYear (y + 1)) :
    yearFromDay z = y := by
  have a1 : dayFromYear (yearFromDay z) ≤ z := by
    have := dayWithinYear_nonneg z; unfold dayWithinYear at this; omega
  have a2 : z < dayFromYear (yearFromDay z + 1) := by
    have := dayWithinYear_lt z; unfold dayWithinYear at this
    rw [dayFromYear_succ]; split_ifs at * <;> omega
  by_contra hne
  rcases lt_or_gt_of_ne hne with h | h
  · have := dayFromYear_mono (show yearFromDay z + 1 ≤ y by omega); omega
  · have := dayFromYear_mono (show y + 1 ≤ yearFromDay z by omega); omega

theorem yearFromDay_mono {a b : Int} (h : a ≤ b) : yearFromDay a ≤ yearFromDay b := by
  by_contra hlt
  have a1 : dayFromYear (yearFromDay a) ≤ a := by
    have := dayWithinYear_nonneg a; unfold dayWithinYear at this; omega
  have b2 : b < dayFromYear (yearFromDay b + 1) := by
    have := dayWithinYear_lt b; unfold dayWithinYear at this
    rw [dayFromYear_succ]; split_ifs at * <;> omega
  have := dayFromYear_mono (show yearFromDay b + 1 ≤ yearFromDay a by omega)
  omega

theorem monthStart_false_0 : monthStart false 0 = 0 := rfl
theorem monthStart_false_1 : monthStart false 1 = 31 := rfl
theorem monthStart_false_2 : monthStart false 2 = 59 := rfl
theorem monthStart_false_3 : monthStart false 3 = 90 := rfl
theorem monthStart_false_4 : monthStart false 4 = 120 := rfl
theorem monthStart_false_5 : monthStart false 5 = 151 := rfl
theorem monthStart_false_6 : monthStart false 6 = 181 := rfl
theorem monthStart_false_7 : monthStart false 7 = 212 := rfl
theorem monthStart_false_8 : monthStart false 8 = 243 := rfl
theorem monthStart_false_9 : monthStart false 9 = 273 := rfl
theorem monthStart_false_10 : monthStart false 10 = 304 := rfl
theorem monthStart_false_11 : monthStart false 11 = 334 := rfl
theorem monthStart_false_12 : monthStart false 12 = 365 := rfl
theorem monthStart_true_0 : monthStart true 0 = 0 := rfl
theorem monthStart_true_1 : monthStart true 1 = 31 := rfl
theorem monthStart_true_2 : monthStart true 2 = 60 := rfl
theorem monthStart_true_3 : monthStart true 3 = 91 := rfl
theorem monthStart_true_4 : monthStart true 4 = 121 := rfl
theorem monthStart_true_5 : monthStart true 5 = 152 := rfl
theorem monthStart_true_6 : monthStart true 6 = 182 := rfl
theorem monthStart_true_7 : monthStart true 7 = 213 := rfl
theorem monthStart_true_8 : monthStart true 8 = 244 := rfl
theorem monthStart_true_9 : monthStart true 9 = 274 := rfl
theorem monthStart_true_10 : monthStart true 10 = 305 := rfl
theorem monthStart_true_11 : monthStart true 11 = 335 := rfl
theorem monthStart_true_12 : monthStart true 12 = 366 := rfl

/-- The month table, case by case. -/
theorem monthOfYearDay_cases (leap : Bool) (w : Int) :
    (w < monthStart leap 1 ∧ monthOfYearDay leap w = 0) ∨
      ((monthStart leap 1 ≤ w ∧ w < monthStart leap 2) ∧ monthOfYearDay leap w = 1) ∨
      ((monthStart leap 2 ≤ w ∧ w < monthStart leap 3) ∧ monthOfYearDay leap w = 2) ∨
      ((monthStart leap 3 ≤ w ∧ w < monthStart leap 4) ∧ monthOfYearDay leap w = 3) ∨
      ((monthStart leap 4 ≤ w ∧ w < monthStart leap 5) ∧ monthOfYearDay leap w = 4) ∨
      ((monthStart leap 5 ≤ w ∧ w < monthStart leap 6) ∧ monthOfYearDay leap w = 5) ∨
      ((monthStart leap 6 ≤ w ∧ w < monthStart leap 7) ∧ monthOfYearDay leap w = 6) ∨
      ((monthStart leap 7 ≤ w ∧ w < monthStart leap 8) ∧ monthOfYearDay leap w = 7) ∨
      ((monthStart leap 8 ≤ w ∧ w < monthStart leap 9) ∧ monthOfYearDay leap w = 8) ∨
      ((monthStart leap 9 ≤ w ∧ w < monthStart leap 10) ∧ monthOfYearDay leap w = 9) ∨
      ((monthStart leap 10 ≤ w ∧ w < monthStart leap 11) ∧ monthOfYearDay leap w = 10) ∨
      (monthStart leap 11 ≤ w ∧ monthOfYearDay leap w = 11) := by
  unfold monthOfYearDay
  by_cases h1 : w < monthStart leap 1
  · exact Or.inl ⟨h1, if_pos h1⟩
  rw [if_neg h1]
  by_cases h2 : w < monthStart leap 2
  · exact Or.inr (Or.inl ⟨⟨by omega, h2⟩, if_pos h2⟩)
  rw [if_neg h2]
  by_cases h3 : w < monthStart leap 3
  · exact Or.inr (Or.inr (Or.inl ⟨⟨by omega, h3⟩, if_pos h3⟩))
  rw [if_neg h3]
  by_cases h4 : w < monthStart leap 4
  · exact Or.inr (Or.inr (Or.inr (Or.inl ⟨⟨by omega, h4⟩, if_pos h4⟩)))
  rw [if_neg h4]
  by_cases h5 : w < monthStart leap 5
  · exact Or.inr (Or.inr (Or.inr (Or.inr (Or.inl ⟨⟨by omega, h5⟩, if_pos h5⟩))))
  rw [if_neg h5]
  by_cases h6 : w < monthStart leap 6
  · exact Or.inr (Or.inr (Or.inr (Or.inr (Or.inr (Or.inl ⟨⟨by omega, h6⟩, if_pos h6⟩)))))
  rw [if_neg h6]
  by_cases h7 : w < monthStart leap 7
  · exact Or.inr (Or.inr (Or.inr (Or.inr (Or.inr (Or.inr (Or.inl ⟨⟨by omega, h7⟩, if_pos h7⟩))))))
  rw [if_neg h7]
  by_cases h8 : w < monthStart leap 8
  · exact Or.inr (Or.inr (Or.inr (Or.inr (Or.inr (Or.inr (Or.inr (Or.inl ⟨⟨by omega, h8⟩, if_pos h8⟩)))))))
  rw [if_neg h8]
  by_cases h9 : w < monthStart leap 9
  · exact Or.inr (Or.inr (Or.inr (Or.inr (Or.inr (Or.inr (Or.inr (Or.inr (Or.inl ⟨⟨by omega, h9⟩, if_pos h9⟩))))))))
  rw [if_neg h9]
  by_cases h10 : w < monthStart leap 10
  · exact Or.inr (Or.inr (Or.inr (Or.inr (Or.inr (Or.inr (Or.inr (Or.inr (Or.inr (Or.inl ⟨⟨by omega, h10⟩, if_pos h10⟩)))))))))
  rw [if_neg h10]
  by_cases h11 : w < monthStart leap 11
  · exact Or.inr (Or.inr (Or.inr (Or.inr (Or.inr (Or.inr (Or.inr (Or.inr (Or.inr (Or.inr (Or.inl ⟨⟨by omega, h11⟩, if_pos h11⟩))))))))))
  rw [if_neg h11]
  exact Or.inr (Or.inr (Or.inr (Or.inr (Or.inr (Or.inr (Or.inr (Or.inr (Or.inr (Or.inr (Or.inr (⟨by omega, rfl⟩)))))))))))

theorem getMonth_lt (z : Int) : getMonth z < 12 := by
  unfold getMonth
  rcases monthOfYearDay_cases (inLeapYear (yearFromDay z)) (dayWithinYear z) with
    ⟨p, pm⟩ | ⟨p, pm⟩ | ⟨p, pm⟩ | ⟨p, pm⟩ | ⟨p, pm⟩ | ⟨p, pm⟩ | ⟨p, pm⟩ | ⟨p, pm⟩ | ⟨p, pm⟩ | ⟨p, pm⟩ | ⟨p, pm⟩ | ⟨p, pm⟩ <;> omega

/-- The day of the month lies inside its month. -/
theorem getDate_bounds (z : Int) :
    1 ≤ getDate z ∧ getDate z ≤ daysInMonth (inLeapYear (yearFromDay z)) (getMonth z) := by
  have h0 := dayWithinYear_nonneg z
  have h1 := dayWithinYear_lt z
  unfold getDate daysInMonth getMonth
  generalize inLeapYear (yearFromDay z) = leap at *
  generalize dayWithinYear z = w at *
  rcases monthOfYearDay_cases leap w with
    ⟨p, pm⟩ | ⟨p, pm⟩ | ⟨p, pm⟩ | ⟨p, pm⟩ | ⟨p, pm⟩ | ⟨p, pm⟩ | ⟨p, pm⟩ | ⟨p, pm⟩ | ⟨p, pm⟩ | ⟨p, pm⟩ | ⟨p, pm⟩ | ⟨p, pm⟩ <;>
  · rw [pm]
    cases leap <;> simp only [monthStart_false_0, monthStart_false_1, monthStart_false_2, monthStart_false_3, monthStart_false_4, monthStart_false_5, monthStart_false_6, monthStart_false_7, monthStart_false_8, monthStart_false_9, monthStart_false_10, monthStart_false_11, monthStart_false_12, monthStart_true_0, monthStart_true_1, monthStart_true_2, monthStart_true_3, monthStart_true_4, monthStart_true_5, monthStart_true_6, monthStart_true_7, monthStart_true_8, monthStart_true_9, monthStart_true_10, monthStart_true_11, monthStart_true_12, Nat.reduceAdd] at p ⊢ <;> simp at h1 <;> omega

theorem makeDay_getDate (z : Int) : makeDay (yearFromDay z) (getMonth z) (getDate z) = z := by
  unfold makeDay getDate dayWithinYear
  omega

theorem month_cases (m : Nat) (hm : m < 12) :
    m = 0 ∨ m = 1 ∨ m = 2 ∨ m = 3 ∨ m = 4 ∨ m = 5 ∨ m = 6 ∨ m = 7 ∨ m = 8 ∨ m = 9 ∨
      m = 10 ∨ m = 11 := by omega

theorem monthOfYearDay_monthStart (leap : Bool) (m : Nat) (d : Int) (hm : m < 12)
    (h1 : 1 ≤ d) (h2 : d ≤ daysInMonth leap m) :
    monthOfYearDay leap (monthStart leap m + d - 1) = m := by
  unfold daysInMonth at h2
  generalize hw : monthStart leap m + d - 1 = w
  rcases monthOfYearDay_cases leap w with
    ⟨p, pm⟩ | ⟨p, pm⟩ | ⟨p, pm⟩ | ⟨p, pm⟩ | ⟨p, pm⟩ | ⟨p, pm⟩ | ⟨p, pm⟩ | ⟨p, pm⟩ | ⟨p, pm⟩ | ⟨p, pm⟩ | ⟨p, pm⟩ | ⟨p, pm⟩ <;>
  · rw [pm]
    cases leap <;> rcases month_cases m hm with e | e | e | e | e | e | e | e | e | e | e | e <;>
      subst e <;> simp only [monthStart_false_0, monthStart_false_1, monthStart_false_2, monthStart_false_3, monthStart_false_4, monthStart_false_5, monthStart_false_6, monthStart_false_7, monthStart_false_8, monthStart_false_9, monthStart_false_10, monthStart_false_11, monthStart_false_12, monthStart_true_0, monthStart_true_1, monthStart_true_2, monthStart_true_3, monthStart_true_4, monthStart_true_5, monthStart_true_6, monthStart_true_7, monthStart_true_8, monthStart_true_9, monthStart_true_10, monthStart_true_11, monthStart_true_12, Nat.reduceAdd] at p h2 hw ⊢ <;> omega

theorem daysInMonth_le (leap : Bool) (m : Nat) (hm : m < 12) :
    monthStart leap m + daysInMonth leap m ≤ (if leap = true then 366 else 365) := by
  unfold daysInMonth
  cases leap <;> rcases month_cases m hm with h | h | h | h | h | h | h | h | h | h | h | h <;>
    subst h <;> simp only [monthStart_false_0, monthStart_false_1, monthStart_false_2, monthStart_false_3, monthStart_false_4, monthStart_false_5, monthStart_false_6, monthStart_false_7, monthStart_false_8, monthStart_false_9, monthStart_false_10, monthStart_false_11, monthStart_false_12, monthStart_true_0, monthStart_true_1, monthStart_true_2, monthStart_true_3, monthStart_true_4, monthStart_true_5, monthStart_true_6, monthStart_true_7, monthStart_true_8, monthStart_true_9, monthStart_true_10, monthStart_true_11, monthStart_true_12, Nat.reduceAdd] <;> simp

theorem monthStart_nonneg (leap : Bool) (m : Nat) (hm : m < 12) : 0 ≤ monthStart leap m := by
  cases leap <;> rcases month_cases m hm with h | h | h | h | h | h | h | h | h | h | h | h <;>
    subst h <;> simp only [monthStart_false_0, monthStart_false_1, monthStart_false_2, monthStart_false_3, monthStart_false_4, monthStart_false_5, monthStart_false_6, monthStart_false_7, monthStart_false_8, monthStart_false_9, monthStart_false_10, monthStart_false_11, monthStart_false_12, monthStart_true_0, monthStart_true_1, monthStart_true_2, monthStart_true_3, monthStart_true_4, monthStart_true_5, monthStart_true_6, monthStart_true_7, monthStart_true_8, monthStart_true_9, monthStart_true_10, monthStart_true_11, monthStart_true_12] <;> omega

/-- Reading back a calendar date from its day number. -/
theorem civil_of_makeDay (y : Int) (m : Nat) (d : Int) (hm : m < 12) (h1 : 1 ≤ d)
    (h2 : d ≤ daysInMonth (inLeapYear y) m) :
    yearFromDay (makeDay y m d) = y ∧ getMonth (makeDay y m d) = m ∧ getDate (makeDay y m d) = d := by
  have hs := monthStart_nonneg (inLeapYear y) m hm
  have hle := daysInMonth_le (inLeapYear y) m hm
  have hy : yearFromDay (makeDay y m d) = y := by
    apply yearFromDay_unique
    · unfold makeDay; omega
    · rw [dayFromYear_succ]; unfold makeDay; split_ifs at * <;> omega
  have hmo : getMonth (makeDay y m d) = m := by
    unfold getMonth dayWithinYear
    rw [hy]
    have e : makeDay y m d - dayFromYear y = monthStart (inLeapYear y) m + d - 1 := by
      unfold makeDay; omega
    rw [e]
    exact monthOfYearDay_monthStart _ m d hm h1 h2
  refine ⟨hy, hmo, ?_⟩
  unfold getDate dayWithinYear
  rw [hmo, hy]
  unfold makeDay
  omega

theorem setDate_add (z k : Int) : setDate z (getDate z + k) = z + k := by
  unfold setDate; omega

theorem getDay_bounds (z : Int) : 0 ≤ getDay z ∧ getDay z ≤ 6 := by
  unfold getDay; omega

theorem mondayOf_eq (z : Int) : mondayOf z = z - (z + 3) % 7 := by
  unfold mondayOf
  simp only []
  have : getDate z - getDay z + (if getDay z = 0 then -6 else 1)
      = getDate z + (- getDay z + (if getDay z = 0 then -6 else 1)) := by omega
  rw [this, setDate_add]
  unfold getDay
  split_ifs <;> omega

theorem dayIndexOf_eq (z : Int) : (dayIndexOf z : Int) = (z + 3) % 7 := by
  unfold dayIndexOf getDay
  simp only []
  split_ifs <;> omega

theorem dayIndexOf_lt (z : Int) : dayIndexOf z < 7 := by
  have := dayIndexOf_eq z
  omega

theorem firstDayOf_eq (z : Int) : firstDayOf z = z - (z + 4) % 7 := by
  unfold firstDayOf
  have : getDate z - getDay z = getDate z + (- getDay z) := by omega
  rw [this, setDate_add]
  unfold getDay; omega

theorem lastDayOf_eq (z : Int) : lastDayOf z = z + (6 - (z + 4) % 7) := by
  unfold lastDayOf
  rw [setDate_add]
  unfold getDay; omega

/-! ## ISO date strings: formatting and parsing -/

theorem digitVal_digitChar (n : Nat) : digitVal (digitChar n) = some (n % 10) := by
  unfold digitChar
  have h := Nat.mod_lt n (show 10 > 0 by decide)
  generalize n % 10 = k at *
  interval_cases k <;> rfl

theorem digitChar_of_digitVal (c : Char) (d : Nat) (h : digitVal c = some d) :
    d < 10 ∧ digitChar d = c := by
  unfold digitVal at h
  split_ifs at h with h0 h1 h2 h3 h4 h5 h6 h7 h8 h9 <;> simp at h <;> subst h <;>
    first
      | (subst h0; exact ⟨by decide, rfl⟩)
      | (subst h1; exact ⟨by decide, rfl⟩)
      | (subst h2; exact ⟨by decide, rfl⟩)
      | (subst h3; exact ⟨by decide, rfl⟩)
      | (subst h4; exact ⟨by decide, rfl⟩)
      | (subst h5; exact ⟨by decide, rfl⟩)
      | (subst h6; exact ⟨by decide, rfl⟩)
      | (subst h7; exact ⟨by decide, rfl⟩)
      | (subst h8; exact ⟨by decide, rfl⟩)
      | (subst h9; exact ⟨by decide, rfl⟩)

theorem digitChar_mod (n : Nat) : digitChar (n % 10) = digitChar n := by
  unfold digitChar; simp

theorem num2_pad (n : Nat) (h : n < 100) : num2 (digitChar (n / 10)) (digitChar n) = some n := by
  simp only [num2, digitVal_digitChar, Option.bind_eq_bind, Option.some_bind, Option.pure_def]
  congr 1; omega

theorem num4_pad (n : Nat) (h : n < 10000) :
    num4 (digitChar (n / 1000)) (digitChar (n / 100)) (digitChar (n / 10)) (digitChar n) = some n := by
  simp only [num4, num2, digitVal_digitChar, Option.bind_eq_bind, Option.some_bind, Option.pure_def]
  congr 1; omega

theorem num6_pad (n : Nat) (h : n < 1000000) :
    num6 (digitChar (n / 100000)) (digitChar (n / 10000)) (digitChar (n / 1000))
      (digitChar (n / 100)) (digitChar (n / 10)) (digitChar n) = some n := by
  simp only [num6, num4, num2, digitVal_digitChar, Option.bind_eq_bind, Option.some_bind,
    Option.pure_def]
  congr 1; omega

theorem pad2_of_num2 (a b : Char) (n : Nat) (h : num2 a b = some n) :
    n < 100 ∧ pad2 n = [a, b] := by
  unfold num2 at h
  cases ha : digitVal a with
  | none => simp [ha] at h
  | some x =>
    cases hb : digitVal b with
    | none => simp [ha, hb] at h
    | some y =>
      simp [ha, hb] at h
      obtain ⟨hx, ex⟩ := digitChar_of_digitVal a x ha
      obtain ⟨hy, ey⟩ := digitChar_of_digitVal b y hb
      subst h
      refine ⟨by omega, ?_⟩
      unfold pad2
      rw [← ex, ← ey, ← digitChar_mod (10 * x + y)]
      have e1 : (10 * x + y) / 10 = x := by omega
      have e2 : (10 * x + y) % 10 = y := by omega
      rw [e1, e2]

theorem pad4_of_num4 (a b c d : Char) (n : Nat) (h : num4 a b c d = some n) :
    n < 10000 ∧ pad4 n = [a, b, c, d] := by
  unfold num4 at h
  cases hx : num2 a b with
  | none => simp [hx] at h
  | some x =>
    cases hy : num2 c d with
    | none => simp [hx, hy] at h
    | some y =>
      simp [hx, hy] at h
      obtain ⟨bx, ex⟩ := pad2_of_num2 a b x hx
      obtain ⟨hby, ey⟩ := pad2_of_num2 c d y hy
      subst h
      refine ⟨by omega, ?_⟩
      unfold pad2 at ex ey
      unfold pad4
      have e1 : (100 * x + y) / 1000 = x / 10 := by omega
      have e2 : (100 * x + y) / 100 = x := by omega
      have e3 : (100 * x + y) / 10 = 10 * x + y / 10 := by omega
      rw [e1, e2, e3, ← digitChar_mod (10 * x + y / 10), ← digitChar_mod (100 * x + y)]
      have e4 : (10 * x + y / 10) % 10 = (y / 10) % 10 := by omega
      have e5 : (100 * x + y) % 10 = y % 10 := by omega
      rw [e4, e5, digitChar_mod, digitChar_mod]
      simp only [List.cons.injEq, and_true] at ex ey ⊢
      exact ⟨ex.1, ex.2, ey.1, ey.2⟩

/-- Parsing what `toISOString` printed gives the date back. -/
theorem parseChars_isoDateChars (z : Int) (hlo : -999999 ≤ yearFromDay z)
    (hhi : yearFromDay z ≤ 999999) : parseChars (isoDateChars z) = some z := by
  have hm := getMonth_lt z
  obtain ⟨hd1, hd2⟩ := getDate_bounds z
  have hdim : daysInMonth (inLeapYear (yearFromDay z)) (getMonth z) ≤ 31 := by
    generalize inLeapYear (yearFromDay z) = leap
    unfold daysInMonth
    cases leap <;> rcases month_cases _ hm with e | e | e | e | e | e | e | e | e | e | e | e <;>
      rw [e] <;> simp only [monthStart_false_0, monthStart_false_1, monthStart_false_2, monthStart_false_3, monthStart_false_4, monthStart_false_5, monthStart_false_6, monthStart_false_7, monthStart_false_8, monthStart_false_9, monthStart_false_10, monthStart_false_11, monthStart_false_12, monthStart_true_0, monthStart_true_1, monthStart_true_2, monthStart_true_3, monthStart_true_4, monthStart_true_5, monthStart_true_6, monthStart_true_7, monthStart_true_8, monthStart_true_9, monthStart_true_10, monthStart_true_11, monthStart_true_12, Nat.reduceAdd] <;> omega
  have hcivil : civilDay (yearFromDay z) (getMonth z + 1) (getDate z).toNat = some z := by
    unfold civilDay
    have e : ((getDate z).toNat : Int) = getDate z := by omega
    rw [if_pos ⟨by omega, by omega, by omega, by
      simp only [Nat.add_sub_cancel]; rw [e]; exact hd2⟩]
    simp only [Nat.add_sub_cancel]
    rw [e, makeDay_getDate]
  have n2m := num2_pad (getMonth z + 1) (by omega)
  have n2d := num2_pad (getDate z).toNat (by omega)
  unfold isoDateChars isoYear
  by_cases h1 : 0 ≤ yearFromDay z ∧ yearFromDay z ≤ 9999
  · rw [if_pos h1]
    have n4 := num4_pad (yearFromDay z).toNat (by omega)
    have ey : ((yearFromDay z).toNat : Int) = yearFromDay z := by omega
    simp only [pad4, pad2, List.cons_append, List.nil_append, parseChars, and_self, if_true, n4, n2m,
      n2d, Option.bind_eq_bind, Option.some_bind, ey, hcivil]
  · rw [if_neg h1]
    by_cases h2 : 0 ≤ yearFromDay z
    · rw [if_pos h2]
      have n6 := num6_pad (yearFromDay z).toNat (by omega)
      have ey : ((yearFromDay z).toNat : Int) = yearFromDay z := by omega
      simp [pad6, pad2, parseChars, n6, n2m, n2d, ey, hcivil]
    · rw [if_neg h2]
      have n6 := num6_pad (-yearFromDay z).toNat (by omega)
      have ey : -((-yearFromDay z).toNat : Int) = yearFromDay z := by omega
      have ne0 : (-yearFromDay z).toNat ≠ 0 := by omega
      have emax : max (-yearFromDay z) 0 = -yearFromDay z := max_eq_left (by omega)
      simp [pad6, pad2, parseChars, n6, n2m, n2d, emax, hcivil, ne0]

theorem newDate_toISODate (z : Int) (hlo : -999999 ≤ yearFromDay z)
    (hhi : yearFromDay z ≤ 999999) : newDate (toISODate z) = some z := by
  unfold newDate toISODate
  exact parseChars_isoDateChars z hlo hhi

/-- A ten-character date string is the ISO text of the day it parses to. -/
theorem toISODate_of_newDate (s : String) (z : Int) (hlen : s.length = 10)
    (h : newDate s = some z) : toISODate z = s ∧ 0 ≤ yearFromDay z ∧ yearFromDay z ≤ 9999 := by
  obtain ⟨cs⟩ := s
  unfold newDate at h
  simp only [String.length] at hlen
  simp only at h
  match cs, hlen, h with
  | [a, b, c, d, s1, e, f, s2, g, i], _, h =>
    simp only [parseChars] at h
    split_ifs at h with hs
    obtain ⟨rfl, rfl⟩ := hs
    cases hy : num4 a b c d with
    | none => simp [hy] at h
    | some y =>
      cases hmo : num2 e f with
      | none => simp [hy, hmo] at h
      | some m =>
        cases hdd : num2 g i with
        | none => simp [hy, hmo, hdd] at h
        | some dd =>
          simp only [hy, hmo, hdd, Option.bind_eq_bind, Option.some_bind] at h
          unfold civilDay at h
          split_ifs at h with hv
          obtain ⟨v1, v2, v3, v4⟩ := hv
          simp only [Option.some.injEq] at h
          obtain ⟨hy1, hy2⟩ := pad4_of_num4 a b c d y hy
          obtain ⟨hm1, hm2⟩ := pad2_of_num2 e f m hmo
          obtain ⟨hd1, hd2⟩ := pad2_of_num2 g i dd hdd
          obtain ⟨c1, c2, c3⟩ := civil_of_makeDay (y : Int) (m - 1) dd (by omega) (by omega) v4
          rw [h] at c1 c2 c3
          refine ⟨?_, by omega, by omega⟩
          unfold toISODate isoDateChars isoYear
          rw [c1, c2, c3, if_pos ⟨by omega, by omega⟩]
          have e1 : m - 1 + 1 = m := by omega
          simp only [Int.toNat_ofNat, e1, hy2, hm2, hd2, List.cons_append, List.nil_append]

theorem isISODate_iff (s : String) :
    isISODate s = true ↔ s.length = 10 ∧ ∃ z, newDate s = some z := by
  unfold isISODate
  simp [Option.isSome_iff_exists]

/-! ## The string order and `sort()` -/

theorem ltChars_irrefl (a : List Char) : ltChars a a = false := by
  induction a with
  | nil => rfl
  | cons x xs ih => simp [ltChars, ih]

theorem ltChars_cons_lt {a b : Char} (h : a < b) (as bs : List Char) :
    ltChars (a :: as) (b :: bs) = true := by
  simp [ltChars, h]

theorem ltChars_cons_eq (a : Char) (as bs : List Char) :
    ltChars (a :: as) (a :: bs) = ltChars as bs := by
  simp [ltChars]

theorem ltChars_append (p as bs : List Char) : ltChars (p ++ as) (p ++ bs) = ltChars as bs := by
  induction p with
  | nil => rfl
  | cons x xs ih => simp [ltChars_cons_eq, ih]

theorem ltChars_trans (a b c : List Char) (h1 : ltChars a b = true) (h2 : ltChars b c = true) :
    ltChars a c = true := by
  induction a generalizing b c with
  | nil =>
    cases c with
    | nil => cases b <;> simp [ltChars] at h1 h2
    | cons z zs => rfl
  | cons x xs ih =>
    cases b with
    | nil => simp [ltChars] at h1
    | cons y ys =>
      cases c with
      | nil => simp [ltChars] at h2
      | cons z zs =>
        simp only [ltChars] at h1 h2 ⊢
        rcases lt_trichotomy x y with hxy | hxy | hxy
        · rcases lt_trichotomy y z with hyz | hyz | hyz
          · simp [lt_trans hxy hyz]
          · subst hyz; simp [hxy]
          · simp [hyz, not_lt_of_gt hyz] at h2
        · subst hxy
          rcases lt_trichotomy x z with hyz | hyz | hyz
          · simp [hyz]
          · subst hyz
            simp only [lt_self_iff_false, if_false] at h1 h2 ⊢
            exact ih _ _ h1 h2
          · simp [hyz, not_lt_of_gt hyz] at h2
        · simp [hxy, not_lt_of_gt hxy] at h1

theorem ltChars_total (a b : List Char) : ltChars a b = true ∨ a = b ∨ ltChars b a = true := by
  induction a generalizing b with
  | nil => cases b <;> simp [ltChars]
  | cons x xs ih =>
    cases b with
    | nil => simp [ltChars]
    | cons y ys =>
      simp only [ltChars]
      rcases lt_trichotomy x y with hxy | hxy | hxy
      · simp [hxy]
      · subst hxy
        simp only [lt_self_iff_false, if_false, List.cons.injEq, true_and]
        exact ih ys
      · simp [hxy]

theorem ltChars_asymm (a b : List Char) (h : ltChars a b = true) : ltChars b a = false := by
  cases hb : ltChars b a with
  | false => rfl
  | true =>
    have := ltChars_trans a b a h hb
    rw [ltChars_irrefl] at this
    exact absurd this (by decide)

theorem jsStrLe_total (a b : String) : jsStrLe a b = true ∨ jsStrLe b a = true := by
  unfold jsStrLe jsStrLt
  cases h : ltChars b.data a.data with
  | false => simp
  | true => simp [ltChars_asymm _ _ h]

theorem jsStrLe_trans (a b c : String) (h1 : jsStrLe a b = true) (h2 : jsStrLe b c = true) :
    jsStrLe a c = true := by
  unfold jsStrLe jsStrLt at *
  simp only [Bool.not_eq_true', ] at *
  cases h : ltChars c.data a.data with
  | false => rfl
  | true =>
    rcases ltChars_total a.data b.data with hab | hab | hab
    · have := ltChars_trans _ _ _ h hab
      rw [h2] at this; exact absurd this (by decide)
    · rw [hab] at h; rw [h2] at h; exact absurd h (by decide)
    · rw [h1] at hab; exact absurd hab (by decide)

theorem jsStrLe_antisymm (a b : String) (h1 : jsStrLe a b = true) (h2 : jsStrLe b a = true) :
    a = b := by
  unfold jsStrLe jsStrLt at *
  simp only [Bool.not_eq_true'] at *
  rcases ltChars_total a.data b.data with hab | hab | hab
  · rw [h2] at hab; exact absurd hab (by decide)
  · obtain ⟨x⟩ := a; obtain ⟨y⟩ := b; simp at hab; rw [hab]
  · rw [h1] at hab; exact absurd hab (by decide)

instance jsStrLe_isTotal : IsTotal String (fun a b => jsStrLe a b = true) := ⟨jsStrLe_total⟩

instance jsStrLe_isTrans : IsTrans String (fun a b => jsStrLe a b = true) := ⟨jsStrLe_trans⟩

theorem jsSort_sorted (l : List String) :
    (jsSort l).Pairwise (fun a b => jsStrLe a b = true) :=
  List.sorted_insertionSort _ l

theorem jsSort_perm (l : List String) : (jsSort l).Perm l :=
  List.perm_insertionSort _ l

theorem mem_jsSort (l : List String) (s : String) : s ∈ jsSort l ↔ s ∈ l :=
  (jsSort_perm l).mem_iff

theorem jsSort_length (l : List String) : (jsSort l).length = l.length :=
  (jsSort_perm l).length_eq

/-- A sorted list without repetition is strictly ascending. -/
theorem jsSort_strict (l : List String) (h : l.Nodup) :
    (jsSort l).Pairwise (fun a b => jsStrLt a b = true) := by
  have hs := jsSort_sorted l
  have hn : (jsSort l).Nodup := (jsSort_perm l).nodup_iff.mpr h
  have := hs.and hn
  refine this.imp ?_
  intro a b hab
  obtain ⟨hle, hne⟩ := hab
  cases hlt : jsStrLt a b with
  | true => rfl
  | false =>
    have : jsStrLe b a = true := by unfold jsStrLe; simp [hlt]
    exact absurd (jsStrLe_antisymm a b hle this) hne

/-- The first element of a sorted array is below every element. -/
theorem jsSort_head_le (l : List String) (s : String) (hs : s ∈ l) (dflt : String) :
    jsStrLe ((jsSort l).headD dflt) s = true := by
  have hsort := jsSort_sorted l
  have hmem : s ∈ jsSort l := (mem_jsSort l s).mpr hs
  cases h : jsSort l with
  | nil => rw [h] at hmem; simp at hmem
  | cons x xs =>
    rw [h] at hsort hmem
    simp only [List.headD_cons]
    rcases List.mem_cons.mp hmem with e | e
    · subst e
      rcases jsStrLe_total s s with t | t <;> exact t
    · exact (List.pairwise_cons.mp hsort).1 s e

theorem pairwise_le_getLast (l : List String) (hp : l.Pairwise (fun a b => jsStrLe a b = true))
    (s : String) (hs : s ∈ l) (dflt : String) : jsStrLe s (l.getLastD dflt) = true := by
  induction l generalizing dflt s with
  | nil => simp at hs
  | cons x xs ih =>
    obtain ⟨hx, hxs⟩ := List.pairwise_cons.mp hp
    cases xs with
    | nil =>
      simp at hs; subst hs
      simp only [List.getLastD_cons, List.getLastD_nil]
      rcases jsStrLe_total s s with t | t <;> exact t
    | cons y ys =>
      simp only [List.getLastD_cons] at ih ⊢
      rcases List.mem_cons.mp hs with e | e
      · subst e
        have hy := ih hxs y (List.mem_cons_self _ _) s
        exact jsStrLe_trans _ _ _ (hx y (List.mem_cons_self _ _)) hy
      · exact ih hxs s e y

/-- The last element of a sorted array is above every element. -/
theorem jsSort_le_getLast (l : List String) (s : String) (hs : s ∈ l) (dflt : String) :
    jsStrLe s ((jsSort l).getLastD dflt) = true :=
  pairwise_le_getLast _ (jsSort_sorted l) s ((mem_jsSort l s).mpr hs) dflt

theorem headD_mem (l : List String) (h : l ≠ []) (dflt : String) : l.headD dflt ∈ l := by
  cases l with
  | nil => exact absurd rfl h
  | cons x xs => simp

theorem getLastD_mem (l : List String) (h : l ≠ []) (dflt : String) : l.getLastD dflt ∈ l := by
  cases l with
  | nil => exact absurd rfl h
  | cons x xs =>
    simp only [List.getLastD_cons]
    induction xs generalizing x with
    | nil => simp
    | cons y ys ih =>
      simp only [List.getLastD_cons]
      exact List.mem_cons_of_mem _ (ih y (by simp))

/-! ## ISO text order is chronological order -/

theorem digitChar_lt (x y : Nat) (h : x % 10 < y % 10) : digitChar x < digitChar y := by
  unfold digitChar
  have hx := Nat.mod_lt x (show 10 > 0 by decide)
  have hy := Nat.mod_lt y (show 10 > 0 by decide)
  generalize x % 10 = a at *
  generalize y % 10 = b at *
  interval_cases a <;> interval_cases b <;> first | (exact absurd h (by decide)) | decide

theorem digitChar_congr (x y : Nat) (h : x % 10 = y % 10) : digitChar x = digitChar y := by
  unfold digitChar; rw [h]

theorem minus_lt_digitChar (x : Nat) : '-' < digitChar x := by
  unfold digitChar
  have hx := Nat.mod_lt x (show 10 > 0 by decide)
  generalize x % 10 = a at *
  interval_cases a <;> decide

/-- Comparing two strings that start with a digit. -/
theorem ltChars_digit (x y : Nat) (r1 r2 : List Char) :
    ltChars (digitChar x :: r1) (digitChar y :: r2)
      = if x % 10 < y % 10 then true else if y % 10 < x % 10 then false else ltChars r1 r2 := by
  rcases Nat.lt_trichotomy (x % 10) (y % 10) with h | h | h
  · rw [if_pos h]; exact ltChars_cons_lt (digitChar_lt x y h) _ _
  · rw [if_neg (by omega), if_neg (by omega), digitChar_congr x y h, ltChars_cons_eq]
  · rw [if_neg (by omega), if_pos h]
    have := digitChar_lt y x h
    simp [ltChars, this, not_lt_of_gt this]

theorem ltChars_pad2 (a b : Nat) (hb : b < 100) (h : a < b) (r1 r2 : List Char) :
    ltChars (pad2 a ++ r1) (pad2 b ++ r2) = true := by
  simp only [pad2, List.cons_append, List.nil_append, ltChars_digit]
  split_ifs <;> first | rfl | omega

theorem ltChars_pad4 (a b : Nat) (hb : b < 10000) (h : a < b) (r1 r2 : List Char) :
    ltChars (pad4 a ++ r1) (pad4 b ++ r2) = true := by
  simp only [pad4, List.cons_append, List.nil_append, ltChars_digit]
  split_ifs <;> first | rfl | omega

/-- Later days have lexicographically later (year, month, day) triples. -/
theorem civil_lt_of_lt (a b : Int) (h : a < b) :
    yearFromDay a < yearFromDay b ∨
      (yearFromDay a = yearFromDay b ∧ getMonth a < getMonth b) ∨
      (yearFromDay a = yearFromDay b ∧ getMonth a = getMonth b ∧ getDate a < getDate b) := by
  have hy := yearFromDay_mono (le_of_lt h)
  rcases lt_or_eq_of_le hy with hy | hy
  · exact Or.inl hy
  · right
    have hw : dayWithinYear a < dayWithinYear b := by unfold dayWithinYear; rw [hy]; omega
    have ha0 := dayWithinYear_nonneg a
    unfold getDate getMonth
    rw [← hy]
    generalize inLeapYear (yearFromDay a) = leap at *
    generalize dayWithinYear a = wa at *
    generalize dayWithinYear b = wb at *
    rcases monthOfYearDay_cases leap wa with
      ⟨p, pm⟩ | ⟨p, pm⟩ | ⟨p, pm⟩ | ⟨p, pm⟩ | ⟨p, pm⟩ | ⟨p, pm⟩ | ⟨p, pm⟩ | ⟨p, pm⟩ | ⟨p, pm⟩ | ⟨p, pm⟩ | ⟨p, pm⟩ | ⟨p, pm⟩ <;>
    rcases monthOfYearDay_cases leap wb with
      ⟨q, qm⟩ | ⟨q, qm⟩ | ⟨q, qm⟩ | ⟨q, qm⟩ | ⟨q, qm⟩ | ⟨q, qm⟩ | ⟨q, qm⟩ | ⟨q, qm⟩ | ⟨q, qm⟩ | ⟨q, qm⟩ | ⟨q, qm⟩ | ⟨q, qm⟩ <;>
    · rw [pm, qm]
      cases leap <;> simp only [monthStart_false_0, monthStart_false_1, monthStart_false_2, monthStart_false_3, monthStart_false_4, monthStart_false_5, monthStart_false_6, monthStart_false_7, monthStart_false_8, monthStart_false_9, monthStart_false_10, monthStart_false_11, monthStart_false_12, monthStart_true_0, monthStart_true_1, monthStart_true_2, monthStart_true_3, monthStart_true_4, monthStart_true_5, monthStart_true_6, monthStart_true_7, monthStart_true_8, monthStart_true_9, monthStart_true_10, monthStart_true_11, monthStart_true_12, true_and] at p q ⊢ <;> omega

theorem yearFromDay_range (z : Int) (hlo : -719893 ≤ z) (hhi : z ≤ 2932896) :
    -1 ≤ yearFromDay z ∧ yearFromDay z ≤ 9999 := by
  have h1 := yearFromDay_mono hlo
  have h2 := yearFromDay_mono hhi
  have e1 : yearFromDay (-719893) = -1 := by decide
  have e2 : yearFromDay 2932896 = 9999 := by decide
  omega

/-- On the days of the years -1 .. 9999 the order of the ISO texts is the order of the days. -/
theorem ltChars_isoDateChars (a b : Int) (ha : -719893 ≤ a) (hb : b ≤ 2932896) (h : a < b) :
    ltChars (isoDateChars a) (isoDateChars b) = true := by
  obtain ⟨ya1, ya2⟩ := yearFromDay_range a ha (by omega)
  obtain ⟨yb1, yb2⟩ := yearFromDay_range b (by omega) hb
  have hma := getMonth_lt a
  have hmb := getMonth_lt b
  obtain ⟨da1, da2⟩ := getDate_bounds a
  obtain ⟨db1, db2⟩ := getDate_bounds b
  have hdim : daysInMonth (inLeapYear (yearFromDay b)) (getMonth b) ≤ 31 := by
    generalize inLeapYear (yearFromDay b) = leap
    unfold daysInMonth
    cases leap <;> rcases month_cases _ hmb with e | e | e | e | e | e | e | e | e | e | e | e <;>
      rw [e] <;> simp only [monthStart_false_0, monthStart_false_1, monthStart_false_2, monthStart_false_3, monthStart_false_4, monthStart_false_5, monthStart_false_6, monthStart_false_7, monthStart_false_8, monthStart_false_9, monthStart_false_10, monthStart_false_11, monthStart_false_12, monthStart_true_0, monthStart_true_1, monthStart_true_2, monthStart_true_3, monthStart_true_4, monthStart_true_5, monthStart_true_6, monthStart_true_7, monthStart_true_8, monthStart_true_9, monthStart_true_10, monthStart_true_11, monthStart_true_12, Nat.reduceAdd] <;> omega
  unfold isoDateChars
  rcases civil_lt_of_lt a b h with hy | ⟨hy, hm⟩ | ⟨hy, hm, hd⟩
  · -- different years
    unfold isoYear
    by_cases hneg : 0 ≤ yearFromDay a
    · rw [if_pos ⟨hneg, ya2⟩, if_pos ⟨by omega, yb2⟩, List.append_assoc, List.append_assoc]
      exact ltChars_pad4 _ _ (by omega) (by omega) _ _
    · rw [if_neg (by omega), if_neg hneg, if_pos ⟨by omega, yb2⟩]
      simp only [pad4, List.cons_append]
      exact ltChars_cons_lt (minus_lt_digitChar _) _ _
  · rw [hy, List.append_assoc, List.append_assoc, ltChars_append, List.cons_append,
      List.cons_append, ltChars_cons_eq]
    exact ltChars_pad2 _ _ (by omega) (by omega) _ _
  · rw [hy, hm, List.append_assoc, List.append_assoc, ltChars_append, List.cons_append,
      List.cons_append, ltChars_cons_eq, ltChars_append]
    have := ltChars_pad2 (getDate a).toNat (getDate b).toNat (by omega) (by omega) [] []
    simpa using this

/-- The order of `sort()` on ISO texts is the order of the days. -/
theorem jsStrLt_toISODate (a b : Int) (ha1 : -719893 ≤ a) (ha2 : a ≤ 2932896)
    (hb1 : -719893 ≤ b) (hb2 : b ≤ 2932896) :
    jsStrLt (toISODate a) (toISODate b) = true ↔ a < b := by
  unfold jsStrLt toISODate
  simp only
  constructor
  · intro h
    by_contra hn
    rcases lt_or_eq_of_le (not_lt.mp hn) with hlt | heq
    · have := ltChars_isoDateChars b a hb1 ha2 hlt
      rw [ltChars_asymm _ _ h] at this
      exact absurd this (by decide)
    · rw [heq, ltChars_irrefl] at h
      exact absurd h (by decide)
  · exact ltChars_isoDateChars a b ha1 hb2

theorem jsStrLe_toISODate (a b : Int) (ha1 : -719893 ≤ a) (ha2 : a ≤ 2932896)
    (hb1 : -719893 ≤ b) (hb2 : b ≤ 2932896) :
    jsStrLe (toISODate a) (toISODate b) = true ↔ a ≤ b := by
  unfold jsStrLe
  have := jsStrLt_toISODate b a hb1 hb2 ha1 ha2
  cases h : jsStrLt (toISODate b) (toISODate a) with
  | true => simp; exact this.mp h
  | false =>
    simp
    by_contra hn
    have := this.mpr (by omega)
    rw [h] at this
    exact absurd this (by decide)

/-- The day of an ISO date string lies in the years 0000 .. 9999. -/
theorem isISODate_day (s : String) (h : isISODate s = true) :
    ∃ z, newDate s = some z ∧ toISODate z = s ∧ -719528 ≤ z ∧ z ≤ 2932896 := by
  obtain ⟨hlen, z, hz⟩ := (isISODate_iff s).mp h
  obtain ⟨e, y0, y1⟩ := toISODate_of_newDate s z hlen hz
  refine ⟨z, hz, e, ?_, ?_⟩
  · by_contra hn
    have := yearFromDay_mono (show z ≤ -719529 by omega)
    have e : yearFromDay (-719529) = -1 := by decide
    omega
  · by_contra hn
    have := yearFromDay_mono (show 2932897 ≤ z by omega)
    have e : yearFromDay 2932897 = 10000 := by decide
    omega

theorem toISODate_injective (a b : Int) (ha1 : -719893 ≤ a) (ha2 : a ≤ 3000000)
    (hb1 : -719893 ≤ b) (hb2 : b ≤ 3000000) (h : toISODate a = toISODate b) : a = b := by
  have e1 : yearFromDay (-719893) = -1 := by decide
  have e2 : yearFromDay 3000000 = 10183 := by decide
  have a1 := yearFromDay_mono ha1
  have a2 := yearFromDay_mono ha2
  have b1 := yearFromDay_mono hb1
  have b2 := yearFromDay_mono hb2
  have h1 := newDate_toISODate a (by omega) (by omega)
  have h2 := newDate_toISODate b (by omega) (by omega)
  rw [h, h2] at h1
  exact (Option.some.inj h1).symm

/-! ## Plain objects -/

theorem JsObj.get_set_self {α : Type} (o : JsObj α) (k : String) (v : α) :
    JsObj.get (JsObj.set o k v) k = some v := by
  induction o with
  | nil => simp [JsObj.set, JsObj.get]
  | cons p rest ih =>
    obtain ⟨k', v'⟩ := p
    by_cases h : k' = k
    · simp [JsObj.set, JsObj.get, h]
    · simp [JsObj.set, JsObj.get, h, ih]

theorem JsObj.get_set_ne {α : Type} (o : JsObj α) (k k' : String) (v : α) (h : k' ≠ k) :
    JsObj.get (JsObj.set o k v) k' = JsObj.get o k' := by
  induction o with
  | nil => simp [JsObj.set, JsObj.get, Ne.symm h]
  | cons p rest ih =>
    obtain ⟨k1, v1⟩ := p
    by_cases h1 : k1 = k
    · subst h1
      simp [JsObj.set, JsObj.get, Ne.symm h]
    · by_cases h2 : k1 = k'
      · subst h2
        simp [JsObj.set, JsObj.get, h1]
      · simp [JsObj.set, JsObj.get, h1, h2, ih]

theorem JsObj.get_eq_none_iff {α : Type} (o : JsObj α) (k : String) :
    JsObj.get o k = none ↔ k ∉ o.map (fun kv => kv.1) := by
  induction o with
  | nil => simp [JsObj.get]
  | cons p rest ih =>
    obtain ⟨k1, v1⟩ := p
    by_cases h1 : k1 = k
    · simp [JsObj.get, h1]
    · simp [JsObj.get, h1, ih, Ne.symm h1]

theorem JsObj.get_mem {α : Type} (o : JsObj α) (k : String) (v : α) (h : JsObj.get o k = some v) :
    (k, v) ∈ o := by
  induction o with
  | nil => simp [JsObj.get] at h
  | cons p rest ih =>
    obtain ⟨k1, v1⟩ := p
    by_cases h1 : k1 = k
    · simp [JsObj.get, h1] at h; simp [h1, h]
    · simp [JsObj.get, h1] at h
      exact List.mem_cons_of_mem _ (ih h)

theorem JsObj.get_of_mem {α : Type} (o : JsObj α) (hn : (o.map (fun kv => kv.1)).Nodup)
    (k : String) (v : α) (h : (k, v) ∈ o) : JsObj.get o k = some v := by
  induction o with
  | nil => simp at h
  | cons p rest ih =>
    obtain ⟨k1, v1⟩ := p
    simp only [List.map_cons, List.nodup_cons] at hn
    rcases List.mem_cons.mp h with e | e
    · simp only [Prod.mk.injEq] at e
      simp [JsObj.get, e.1, e.2]
    · have : k1 ≠ k := by
        intro e1; subst e1
        exact hn.1 (List.mem_map.mpr ⟨(k1, v), e, rfl⟩)
      simp [JsObj.get, this, ih hn.2 e]

theorem JsObj.keys_set {α : Type} (o : JsObj α) (k : String) (v : α) :
    (JsObj.set o k v).map (fun kv => kv.1)
      = if k ∈ o.map (fun kv => kv.1) then o.map (fun kv => kv.1)
        else o.map (fun kv => kv.1) ++ [k] := by
  induction o with
  | nil => simp [JsObj.set]
  | cons p rest ih =>
    obtain ⟨k1, v1⟩ := p
    by_cases h1 : k1 = k
    · simp [JsObj.set, h1]
    · have h2 : ¬ k = k1 := fun e => h1 e.symm
      simp only [JsObj.set, h1, if_false, List.map_cons, ih, List.mem_cons, h2, false_or]
      split_ifs <;> simp

theorem JsObj.nodup_set {α : Type} (o : JsObj α) (k : String) (v : α)
    (hn : (o.map (fun kv => kv.1)).Nodup) :
    ((JsObj.set o k v).map (fun kv => kv.1)).Nodup := by
  rw [JsObj.keys_set]
  split_ifs with h
  · exact hn
  · exact List.Nodup.append hn (List.nodup_singleton k) (by simpa using h)

theorem JsObj.mem_keys_set {α : Type} (o : JsObj α) (k k' : String) (v : α) :
    k' ∈ (JsObj.set o k v).map (fun kv => kv.1) ↔ k' = k ∨ k' ∈ o.map (fun kv => kv.1) := by
  rw [JsObj.keys_set]
  split_ifs with h
  · constructor
    · exact Or.inr
    · rintro (e | e)
      · rw [e]; exact h
      · exact e
  · simp [or_comm]

theorem filterMap_arrayIndex {α : Type} (o : List (String × α)) :
    (o.filterMap fun kv => (arrayIndex kv.1).map fun n => (n, kv)).map (fun p => p.2)
      = o.filter (fun kv => (arrayIndex kv.1).isSome) := by
  induction o with
  | nil => rfl
  | cons p rest ih =>
    cases h : arrayIndex p.1 with
    | none =>
      simp only [List.filterMap_cons, h, Option.map_none', List.filter_cons, Option.isSome_none]
      exact ih
    | some n =>
      simp only [List.filterMap_cons, h, Option.map_some', List.map_cons, List.filter_cons,
        Option.isSome_some, if_true]
      rw [ih]

/-- Enumeration reorders the own properties, nothing else. -/
theorem JsObj.entries_perm {α : Type} (o : JsObj α) : (JsObj.entries o).Perm o := by
  unfold JsObj.entries
  simp only
  have h1 : ((List.insertionSort (fun a b => a.1 ≤ b.1)
      (o.filterMap fun kv => (arrayIndex kv.1).map fun n => (n, kv))).map (fun p => p.2)).Perm
      (o.filter fun kv => (arrayIndex kv.1).isSome) := by
    have := ((List.perm_insertionSort (fun a b : Nat × String × α => a.1 ≤ b.1)
      (o.filterMap fun kv => (arrayIndex kv.1).map fun n => (n, kv))).map (fun p => p.2))
    rw [filterMap_arrayIndex] at this
    exact this
  refine (h1.append (List.Perm.refl _)).trans ?_
  have := List.filter_append_perm (fun kv : String × α => (arrayIndex kv.1).isSome) o
  refine List.Perm.trans ?_ this
  apply List.Perm.append (List.Perm.refl _)
  apply List.Perm.of_eq
  congr 1
  funext kv
  cases arrayIndex kv.1 <;> rfl

theorem JsObj.keys_perm {α : Type} (o : JsObj α) :
    (JsObj.keys o).Perm (o.map (fun kv => kv.1)) :=
  (JsObj.entries_perm o).map _

theorem JsObj.values_perm {α : Type} (o : JsObj α) :
    (JsObj.values o).Perm (o.map (fun kv => kv.2)) :=
  (JsObj.entries_perm o).map _

theorem JsObj.mem_keys {α : Type} (o : JsObj α) (k : String) :
    k ∈ JsObj.keys o ↔ k ∈ o.map (fun kv => kv.1) :=
  (JsObj.keys_perm o).mem_iff

/-! ## The aggregation by date -/

theorem buildDateMap_append (items : List CalItem) (x : CalItem) :
    buildDateMap (items ++ [x]) = addItem (buildDateMap items) x := by
  unfold buildDateMap
  rw [List.foldl_append]
  rfl

theorem buildDateMap_get (items : List CalItem) (d : String) :
    (buildDateMap items).get d
      = if (items.filter fun i => i.date = d) = [] then none else some (bucketOf items d) := by
  induction items using List.reverseRecOn with
  | nil => simp [buildDateMap, JsObj.get]
  | append_singleton items x ih =>
    rw [buildDateMap_append]
    unfold addItem
    by_cases hd : x.date = d
    · subst hd
      rw [ih]
      by_cases he : (items.filter fun i => i.date = x.date) = []
      · simp only [he, if_true]
        rw [JsObj.get_set_self]
        simp [List.filter_append, he, bucketOf]
      · simp only [he, if_false]
        rw [JsObj.get_set_self]
        simp [List.filter_append, bucketOf]
    · have hset : ∀ b, JsObj.get (JsObj.set (buildDateMap items) x.date b) d
          = JsObj.get (buildDateMap items) d :=
        fun b => JsObj.get_set_ne _ _ _ _ (fun e => hd e.symm)
      have hf : (List.filter (fun i => decide (i.date = d)) (items ++ [x]))
          = List.filter (fun i => decide (i.date = d)) items := by
        simp [List.filter_append, hd]
      cases hg : JsObj.get (buildDateMap items) x.date with
      | none => simp only [hset, ih, hf, bucketOf]
      | some b => simp only [hset, ih, hf, bucketOf]

theorem buildDateMap_nodup (items : List CalItem) :
    ((buildDateMap items).map (fun kv => kv.1)).Nodup := by
  induction items using List.reverseRecOn with
  | nil => simp [buildDateMap]
  | append_singleton items x ih =>
    rw [buildDateMap_append]
    unfold addItem
    cases JsObj.get (buildDateMap items) x.date <;> exact JsObj.nodup_set _ _ _ ih

theorem buildDateMap_mem_keys (items : List CalItem) (d : String) :
    d ∈ (buildDateMap items).map (fun kv => kv.1) ↔ d ∈ items.map (fun i => i.date) := by
  have h := buildDateMap_get items d
  have h2 := JsObj.get_eq_none_iff (buildDateMap items) d
  by_cases he : (items.filter fun i => i.date = d) = []
  · rw [if_pos he] at h
    have : d ∉ items.map (fun i => i.date) := by
      intro hm
      obtain ⟨i, hi, e⟩ := List.mem_map.mp hm
      have : i ∈ items.filter fun i => i.date = d := List.mem_filter.mpr ⟨hi, by simp [e]⟩
      rw [he] at this; simp at this
    exact ⟨fun hm => absurd hm (h2.mp h), fun hm => absurd hm this⟩
  · rw [if_neg he] at h
    have h3 : d ∈ (buildDateMap items).map (fun kv => kv.1) := by
      by_contra hn
      rw [h2.mpr hn] at h
      exact absurd h (by simp)
    obtain ⟨i, hi⟩ := List.exists_mem_of_ne_nil _ he
    obtain ⟨hi1, hi2⟩ := List.mem_filter.mp hi
    exact ⟨fun _ => List.mem_map.mpr ⟨i, hi1, by simpa using hi2⟩, fun _ => h3⟩

/-- Every stored bucket is the bucket of its own key. -/
theorem buildDateMap_mem (items : List CalItem) (k : String) (b : Bucket)
    (h : (k, b) ∈ buildDateMap items) : b = bucketOf items k ∧ k ∈ items.map (fun i => i.date) := by
  have hg := JsObj.get_of_mem _ (buildDateMap_nodup items) k b h
  have hk : k ∈ (buildDateMap items).map (fun kv => kv.1) := List.mem_map.mpr ⟨(k, b), h, rfl⟩
  rw [buildDateMap_get] at hg
  split_ifs at hg with he
  exact ⟨(Option.some.inj hg).symm, (buildDateMap_mem_keys items k).mp hk⟩

theorem calendarData_dates (data : Response) (dates : List String) :
    (calendarData data dates).map (fun i => i.date) = dates := by
  unfold calendarData
  rw [List.map_map]
  have : ((fun i : CalItem => i.date) ∘ fun p : Nat × String =>
      ({ date := p.2, value := ((data.values.get? p.1).join).getD 0,
         paymentInfo := fieldAt data.paymentInfo p.1, magasin := fieldAt data.magasins p.1,
         gender := fieldAt data.genders p.1, age := fieldAt data.ages p.1 } : CalItem))
      = Prod.snd := by
    funext p; rfl
  rw [this]
  exact List.enum_map_snd dates

/-! ## Placing the buckets in week rows -/

theorem emptyWeek_length : emptyWeek.length = 7 := rfl

theorem emptyWeek_getD (i : Nat) : emptyWeek.getD i emptyCell = emptyCell := by
  unfold emptyWeek emptyCell
  by_cases h : i < 7
  · interval_cases i <;> rfl
  · rw [List.getD_eq_default]
    simp; omega

theorem rowSum_emptyWeek : rowSum emptyWeek = 0 := by decide

theorem JsObj.set_set {α : Type} (o : JsObj α) (k : String) (v v' : α) :
    JsObj.set (JsObj.set o k v) k v' = JsObj.set o k v' := by
  induction o with
  | nil => simp [JsObj.set]
  | cons p rest ih =>
    obtain ⟨k1, v1⟩ := p
    by_cases h1 : k1 = k
    · simp [JsObj.set, h1]
    · simp [JsObj.set, h1, ih]

theorem placeBucket_error (w : JsObj (List Cell)) (b : Bucket) (h : newDate b.date = none) :
    placeBucket w b = .error "Invalid time value" := by
  unfold placeBucket; rw [h]

/-- The effect of one placement, as a pure update of the object. -/
theorem placeBucket_ok (w : JsObj (List Cell)) (b : Bucket) (n : Int)
    (h : newDate b.date = some n) :
    placeBucket w b = .ok (JsObj.set w (toISODate (mondayOf n))
      (((w.get (toISODate (mondayOf n))).getD emptyWeek).set (dayIndexOf n) (cellOf b))) := by
  unfold placeBucket
  rw [h]
  simp only
  cases hg : w.get (toISODate (mondayOf n)) with
  | none =>
    simp only [Option.isNone_none, if_true, JsObj.get_set_self, Option.getD_some, Option.getD_none]
    rw [JsObj.set_set]
    rfl
  | some row =>
    simp only [Option.isNone_some, Bool.false_eq_true, if_false, hg, Option.getD_some]
    rfl

theorem buildWeeks_append (bs : List Bucket) (b : Bucket) :
    buildWeeks (bs ++ [b]) = (buildWeeks bs).bind (fun w => placeBucket w b) := by
  unfold buildWeeks
  rw [List.foldlM_append]
  simp only [List.foldlM_cons, List.foldlM_nil, bind, Except.bind]
  cases List.foldlM placeBucket [] bs with
  | error e => rfl
  | ok w => simp only; cases placeBucket w b <;> rfl

/-- With every date parsed, the loop ends normally. -/
theorem buildWeeks_ok (bs : List Bucket) (h : ∀ b ∈ bs, ∃ n, newDate b.date = some n) :
    ∃ w, buildWeeks bs = .ok w := by
  induction bs using List.reverseRecOn with
  | nil => exact ⟨[], rfl⟩
  | append_singleton bs b ih =>
    obtain ⟨w, hw⟩ := ih (fun x hx => h x (List.mem_append_left _ hx))
    obtain ⟨n, hn⟩ := h b (by simp)
    rw [buildWeeks_append, hw]
    exact ⟨_, placeBucket_ok w b n hn⟩

/-- A normal end means that every date was parsed. -/
theorem buildWeeks_parsed (bs : List Bucket) (w : JsObj (List Cell)) (h : buildWeeks bs = .ok w) :
    ∀ b ∈ bs, ∃ n, newDate b.date = some n := by
  induction bs using List.reverseRecOn generalizing w with
  | nil => simp
  | append_singleton bs b ih =>
    rw [buildWeeks_append] at h
    cases hw : buildWeeks bs with
    | error e => rw [hw] at h; simp [Except.bind] at h
    | ok w0 =>
      rw [hw] at h
      simp only [Except.bind] at h
      intro x hx
      rcases List.mem_append.mp hx with hx | hx
      · exact ih w0 hw x hx
      · simp at hx; subst hx
        cases hn : newDate x.date with
        | none => rw [placeBucket_error w0 x hn] at h; simp at h
        | some n => exact ⟨n, rfl⟩

/-- Unfolding the last step of the loop. -/
theorem buildWeeks_snoc (bs : List Bucket) (b : Bucket) (w : JsObj (List Cell))
    (h : buildWeeks (bs ++ [b]) = .ok w) :
    ∃ w0 n, buildWeeks bs = .ok w0 ∧ newDate b.date = some n ∧
      w = JsObj.set w0 (toISODate (mondayOf n))
        (((w0.get (toISODate (mondayOf n))).getD emptyWeek).set (dayIndexOf n) (cellOf b)) := by
  obtain ⟨n, hn⟩ := buildWeeks_parsed _ w h b (by simp)
  rw [buildWeeks_append] at h
  cases hw : buildWeeks bs with
  | error e => rw [hw] at h; simp [Except.bind] at h
  | ok w0 =>
    rw [hw] at h
    simp only [Except.bind] at h
    rw [placeBucket_ok w0 b n hn] at h
    exact ⟨w0, n, rfl, hn, (Except.ok.inj h).symm⟩

theorem buildWeeks_rows (bs : List Bucket) (w : JsObj (List Cell)) (h : buildWeeks bs = .ok w) :
    ∀ k row, w.get k = some row → row.length = 7 := by
  induction bs using List.reverseRecOn generalizing w with
  | nil =>
    simp only [buildWeeks, List.foldlM_nil, pure, Except.pure] at h
    cases h
    intro k row hg
    simp [JsObj.get] at hg
  | append_singleton bs b ih =>
    obtain ⟨w0, n, hw0, hn, e⟩ := buildWeeks_snoc bs b w h
    subst e
    intro k row hg
    by_cases hk : k = toISODate (mondayOf n)
    · subst hk
      rw [JsObj.get_set_self] at hg
      cases hg
      rw [List.length_set]
      cases h0 : w0.get (toISODate (mondayOf n)) with
      | none => rfl
      | some r => exact ih w0 hw0 _ r h0
    · rw [JsObj.get_set_ne _ _ _ _ hk] at hg
      exact ih w0 hw0 k row hg

theorem buildWeeks_nodup (bs : List Bucket) (w : JsObj (List Cell)) (h : buildWeeks bs = .ok w) :
    (w.map fun kv => kv.1).Nodup := by
  induction bs using List.reverseRecOn generalizing w with
  | nil =>
    simp only [buildWeeks, List.foldlM_nil, pure, Except.pure] at h
    cases h
    simp
  | append_singleton bs b ih =>
    obtain ⟨w0, n, hw0, hn, e⟩ := buildWeeks_snoc bs b w h
    subst e
    exact JsObj.nodup_set _ _ _ (ih w0 hw0)

/-- The week keys are the Mondays of the dates placed. -/
theorem buildWeeks_keys (bs : List Bucket) (w : JsObj (List Cell)) (h : buildWeeks bs = .ok w)
    (k : String) :
    k ∈ w.map (fun kv => kv.1) ↔
      ∃ b ∈ bs, ∃ n, newDate b.date = some n ∧ k = toISODate (mondayOf n) := by
  induction bs using List.reverseRecOn generalizing w with
  | nil =>
    simp only [buildWeeks, List.foldlM_nil, pure, Except.pure] at h
    cases h
    simp
  | append_singleton bs b ih =>
    obtain ⟨w0, n, hw0, hn, e⟩ := buildWeeks_snoc bs b w h
    subst e
    rw [JsObj.mem_keys_set, ih w0 hw0]
    constructor
    · rintro (e | ⟨x, hx, m, hm, e⟩)
      · exact ⟨b, by simp, n, hn, e⟩
      · exact ⟨x, List.mem_append_left _ hx, m, hm, e⟩
    · rintro ⟨x, hx, m, hm, e⟩
      rcases List.mem_append.mp hx with hx | hx
      · exact Or.inr ⟨x, hx, m, hm, e⟩
      · simp at hx; subst hx
        rw [hn] at hm; cases hm
        exact Or.inl e

theorem cellAt_set (w : JsObj (List Cell)) (key : String) (idx : Nat) (c : Cell) (k : String)
    (i : Nat) (hidx : idx < 7) (hrows : ∀ k row, w.get k = some row → row.length = 7) :
    cellAt (JsObj.set w key (((w.get key).getD emptyWeek).set idx c)) k i
      = if k = key ∧ i = idx then c else cellAt w k i := by
  unfold cellAt
  by_cases hk : k = key
  · subst hk
    rw [JsObj.get_set_self]
    simp only [Option.getD_some, true_and]
    have hlen : ((w.get k).getD emptyWeek).length = 7 := by
      cases h0 : w.get k with
      | none => rfl
      | some r => exact hrows _ r h0
    by_cases hi : i = idx
    · subst hi
      rw [if_pos rfl, List.getD_eq_getElem?_getD, List.getElem?_set_self (by omega)]
      rfl
    · rw [if_neg hi, List.getD_eq_getElem?_getD, List.getElem?_set_ne (Ne.symm hi),
        ← List.getD_eq_getElem?_getD]
  · rw [JsObj.get_set_ne _ _ _ _ hk]
    simp [hk]

/-- A cell holds the last bucket placed at its position, or is empty. -/
theorem buildWeeks_cellAt (bs : List Bucket) (w : JsObj (List Cell)) (h : buildWeeks bs = .ok w)
    (k : String) (i : Nat) :
    cellAt w k i
      = (((bs.filter fun b => posOf b = some (k, i)).getLast?).map cellOf).getD emptyCell := by
  induction bs using List.reverseRecOn generalizing w with
  | nil =>
    simp only [buildWeeks, List.foldlM_nil, pure, Except.pure] at h
    cases h
    simp only [cellAt, JsObj.get, Option.getD_none, emptyWeek_getD, List.filter_nil,
      List.getLast?_nil, Option.map_none']
  | append_singleton bs b ih =>
    obtain ⟨w0, n, hw0, hn, e⟩ := buildWeeks_snoc bs b w h
    subst e
    rw [cellAt_set w0 _ _ _ k i (dayIndexOf_lt n) (buildWeeks_rows bs w0 hw0), ih w0 hw0]
    have hp : posOf b = some (toISODate (mondayOf n), dayIndexOf n) := by
      unfold posOf; rw [hn]; rfl
    rw [List.filter_append]
    by_cases hki : k = toISODate (mondayOf n) ∧ i = dayIndexOf n
    · obtain ⟨rfl, rfl⟩ := hki
      simp [hp]
    · rw [if_neg hki]
      have : ¬ (posOf b = some (k, i)) := by
        rw [hp]; intro e; simp only [Option.some.injEq, Prod.mk.injEq] at e
        exact hki ⟨e.1.symm, e.2.symm⟩
      simp [this]

/-! ## Sums over objects -/

theorem objSum_set {α : Type} (f : α → Int) (o : JsObj α) (k : String) (v : α) :
    objSum f (JsObj.set o k v) = objSum f o - ((o.get k).map f).getD 0 + f v := by
  induction o with
  | nil => simp [objSum, JsObj.set, JsObj.get]
  | cons p rest ih =>
    obtain ⟨k1, v1⟩ := p
    unfold objSum at ih ⊢
    by_cases h1 : k1 = k
    · simp [JsObj.set, JsObj.get, h1]; omega
    · simp only [JsObj.set, JsObj.get, h1, if_false, List.map_cons, List.sum_cons, ih]; omega

theorem gridSum_eq (w : JsObj (List Cell)) : gridSum w = objSum rowSum w := rfl

theorem rowSum_set (row : List Cell) (i : Nat) (c : Cell) (h : i < row.length) :
    rowSum (row.set i c) = rowSum row - (row.getD i emptyCell).value + c.value := by
  induction row generalizing i with
  | nil => simp at h
  | cons x xs ih =>
    cases i with
    | zero => simp [rowSum]; omega
    | succ j =>
      have := ih j (by simpa using h)
      simp only [rowSum, List.set_cons_succ, List.map_cons, List.sum_cons, List.getD_cons_succ]
        at this ⊢
      omega

theorem buildDateMap_sum (items : List CalItem) :
    objSum (fun b => b.value) (buildDateMap items) = (items.map fun i => i.value).sum := by
  induction items using List.reverseRecOn with
  | nil => rfl
  | append_singleton items x ih =>
    rw [buildDateMap_append]
    unfold addItem
    cases hg : JsObj.get (buildDateMap items) x.date with
    | none => simp [objSum_set, hg, ih]
    | some b => simp [objSum_set, hg, ih]; omega

/-! ## Positions of ISO dates -/

theorem mondayOf_spec (n : Int) :
    mondayOf n ≤ n ∧ n - mondayOf n ≤ 6 ∧ getDay (mondayOf n) = 1 ∧
      n = mondayOf n + dayIndexOf n := by
  have h1 := mondayOf_eq n
  have h2 := dayIndexOf_eq n
  unfold getDay
  omega

/-- Two ISO dates written to the same week row and column are the same date. -/
theorem posOf_injective (b1 b2 : Bucket) (h1 : isISODate b1.date = true)
    (h2 : isISODate b2.date = true) (h : posOf b1 = posOf b2) : b1.date = b2.date := by
  obtain ⟨n1, p1, e1, lo1, hi1⟩ := isISODate_day _ h1
  obtain ⟨n2, p2, e2, lo2, hi2⟩ := isISODate_day _ h2
  unfold posOf at h
  rw [p1, p2] at h
  simp only [Option.map_some', Option.some.injEq, Prod.mk.injEq] at h
  obtain ⟨m1, m2, m3, m4⟩ := mondayOf_spec n1
  obtain ⟨k1, k2, k3, k4⟩ := mondayOf_spec n2
  have := toISODate_injective (mondayOf n1) (mondayOf n2) (by omega) (by omega) (by omega)
    (by omega) h.1
  have hn : n1 = n2 := by
    have := h.2
    omega
  rw [← e1, ← e2, hn]

/-! ## The sum of the grid -/

theorem buildWeeks_gridSum (bs : List Bucket) (w : JsObj (List Cell)) (h : buildWeeks bs = .ok w)
    (hn : (bs.map posOf).Nodup) : gridSum w = (bs.map fun b => b.value).sum := by
  induction bs using List.reverseRecOn generalizing w with
  | nil =>
    simp only [buildWeeks, List.foldlM_nil, pure, Except.pure] at h
    cases h
    rfl
  | append_singleton bs b ih =>
    obtain ⟨w0, n, hw0, hnd, e⟩ := buildWeeks_snoc bs b w h
    subst e
    rw [List.map_append, List.nodup_append] at hn
    obtain ⟨hn1, _, hdis⟩ := hn
    have hp : posOf b = some (toISODate (mondayOf n), dayIndexOf n) := by
      unfold posOf; rw [hnd]; rfl
    have hempty : cellAt w0 (toISODate (mondayOf n)) (dayIndexOf n) = emptyCell := by
      rw [buildWeeks_cellAt bs w0 hw0]
      have : (bs.filter fun x => posOf x = some (toISODate (mondayOf n), dayIndexOf n)) = [] := by
        rw [List.filter_eq_nil_iff]
        intro x hx
        simp only [decide_eq_true_eq]
        intro hpx
        exact hdis (List.mem_map.mpr ⟨x, hx, hpx⟩) (by simp [hp])
      rw [this]; rfl
    have hlen : ((w0.get (toISODate (mondayOf n))).getD emptyWeek).length = 7 := by
      cases h0 : w0.get (toISODate (mondayOf n)) with
      | none => rfl
      | some r => exact buildWeeks_rows bs w0 hw0 _ r h0
    rw [gridSum_eq, objSum_set, rowSum_set _ _ _ (by rw [hlen]; exact dayIndexOf_lt n),
      ← gridSum_eq, ih w0 hw0 hn1]
    unfold cellAt at hempty
    rw [hempty]
    have hrow : ((w0.get (toISODate (mondayOf n))).map rowSum).getD 0
        = rowSum ((w0.get (toISODate (mondayOf n))).getD emptyWeek) := by
      cases w0.get (toISODate (mondayOf n)) with
      | none => simp [rowSum_emptyWeek]
      | some r => rfl
    rw [hrow]
    simp only [List.map_append, List.map_cons, List.map_nil, List.sum_append, List.sum_cons,
      List.sum_nil, cellOf, emptyCell]
    omega

/-! ## From `weeks` to the chart arrays -/

theorem mem_weekKeysOf (w : JsObj (List Cell)) (k : String) :
    k ∈ weekKeysOf w ↔ k ∈ w.map (fun kv => kv.1) := by
  unfold weekKeysOf
  rw [mem_jsSort, JsObj.mem_keys]

theorem weekKeysOf_perm (w : JsObj (List Cell)) : (weekKeysOf w).Perm (w.map fun kv => kv.1) :=
  (jsSort_perm _).trans (JsObj.keys_perm w)

theorem chartOf_z_sum (filters : Filters) (w : JsObj (List Cell))
    (hn : (w.map fun kv => kv.1).Nodup) : matrixSum (chartOf filters w).z = gridSum w := by
  have e1 : (chartOf filters w).z.map List.sum
      = (weekKeysOf w).map (fun key => rowSum ((w.get key).getD [])) := by
    simp [chartOf, sortedWeeksOf, rowSum, List.map_map, Function.comp_def]
  unfold matrixSum
  rw [e1, ((weekKeysOf_perm w).map _).sum_eq, List.map_map]
  unfold gridSum
  congr 1
  apply List.map_congr_left
  intro kv hkv
  have := JsObj.get_of_mem w hn kv.1 kv.2 hkv
  simp [this]

theorem chartOf_shape (filters : Filters) (w : JsObj (List Cell))
    (hrows : ∀ k row, w.get k = some row → row.length = 7) :
    (chartOf filters w).z.length = (weekKeysOf w).length ∧
    (chartOf filters w).text.length = (weekKeysOf w).length ∧
    (chartOf filters w).y.length = (weekKeysOf w).length ∧
    (∀ row ∈ (chartOf filters w).z, row.length = 7) ∧
    (∀ row ∈ (chartOf filters w).text, row.length = 7) ∧
    (chartOf filters w).x.length = 7 := by
  have hrow : ∀ r ∈ sortedWeeksOf w, r.length = 7 := by
    intro r hr
    unfold sortedWeeksOf at hr
    obtain ⟨k, hk, e⟩ := List.mem_map.mp hr
    have hk' := (mem_weekKeysOf w k).mp hk
    cases hg : w.get k with
    | none => exact absurd hk' ((JsObj.get_eq_none_iff w k).mp hg)
    | some row =>
      rw [hg] at e
      simp only [Option.getD_some] at e
      rw [← e]; exact hrows k row hg
  unfold chartOf
  simp only [List.length_map]
  refine ⟨by simp [sortedWeeksOf], by simp [sortedWeeksOf], trivial, ?_, ?_, rfl⟩
  · intro row hr
    obtain ⟨r, hr1, e⟩ := List.mem_map.mp hr
    rw [← e, List.length_map]; exact hrow r hr1
  · intro row hr
    obtain ⟨r, hr1, e⟩ := List.mem_map.mp hr
    rw [← e, List.length_map]; exact hrow r hr1

/-- Reading the matrix `z` at the row of a week key. -/
theorem chartOf_z_get (filters : Filters) (w : JsObj (List Cell)) (r : Nat) (k : String)
    (hk : (weekKeysOf w).get? r = some k) (i : Nat) (hi : i < 7)
    (hrows : ∀ k row, w.get k = some row → row.length = 7) :
    ((chartOf filters w).z.get? r).bind (fun row => row.get? i) = some (cellAt w k i).value ∧
    ((chartOf filters w).text.get? r).bind (fun row => row.get? i)
      = some (tooltip filters (cellAt w k i)) := by
  have hmem : k ∈ weekKeysOf w := List.get?_mem hk
  have hk' := (mem_weekKeysOf w k).mp hmem
  cases hg : w.get k with
  | none => exact absurd hk' ((JsObj.get_eq_none_iff w k).mp hg)
  | some row =>
    have hlen := hrows k row hg
    have hc : row.get? i = some (cellAt w k i) := by
      unfold cellAt
      rw [hg, Option.getD_some, List.getD_eq_getElem?_getD, List.get?_eq_getElem?,
        List.getElem?_eq_getElem (by omega)]
      rfl
    rw [List.get?_eq_getElem?] at hk hc
    unfold chartOf sortedWeeksOf
    simp only [List.get?_eq_getElem?, List.getElem?_map, hk, Option.map_some', hg,
      Option.getD_some, Option.some_bind, hc]
    exact ⟨trivial, trivial⟩

/-! ## The buckets of a response -/

theorem posOf_eq (b : Bucket) : posOf b = datePos b.date := rfl

theorem dateBuckets_perm (data : Response) (dates : List String) :
    (dateBuckets data dates).Perm ((buildDateMap (calendarData data dates)).map fun kv => kv.2) :=
  JsObj.values_perm _

theorem dateBuckets_mem (data : Response) (dates : List String) (b : Bucket)
    (h : b ∈ dateBuckets data dates) :
    b = bucketOf (calendarData data dates) b.date ∧ b.date ∈ dates := by
  have h1 := (dateBuckets_perm data dates).mem_iff.mp h
  obtain ⟨kv, hkv, e⟩ := List.mem_map.mp h1
  obtain ⟨hb, hk⟩ := buildDateMap_mem (calendarData data dates) kv.1 kv.2 hkv
  rw [calendarData_dates] at hk
  rw [e] at hb
  have hd : b.date = kv.1 := by rw [hb]; rfl
  rw [hd]
  exact ⟨hb, hk⟩

theorem mem_dateBuckets (data : Response) (dates : List String) (d : String) (hd : d ∈ dates) :
    bucketOf (calendarData data dates) d ∈ dateBuckets data dates := by
  apply (dateBuckets_perm data dates).mem_iff.mpr
  have hk : d ∈ (buildDateMap (calendarData data dates)).map (fun kv => kv.1) := by
    rw [buildDateMap_mem_keys, calendarData_dates]; exact hd
  obtain ⟨kv, hkv, e⟩ := List.mem_map.mp hk
  obtain ⟨hb, _⟩ := buildDateMap_mem (calendarData data dates) kv.1 kv.2 hkv
  refine List.mem_map.mpr ⟨kv, hkv, ?_⟩
  rw [hb, e]

theorem dateBuckets_dates_nodup (data : Response) (dates : List String) :
    ((dateBuckets data dates).map fun b => b.date).Nodup := by
  have hp := (dateBuckets_perm data dates).map (fun b => b.date)
  rw [hp.nodup_iff, List.map_map]
  have : List.map ((fun b : Bucket => b.date) ∘ fun kv : String × Bucket => kv.2)
      (buildDateMap (calendarData data dates))
      = List.map (fun kv => kv.1) (buildDateMap (calendarData data dates)) := by
    apply List.map_congr_left
    intro kv hkv
    obtain ⟨hb, _⟩ := buildDateMap_mem (calendarData data dates) kv.1 kv.2 hkv
    simp only [Function.comp]
    rw [hb]; rfl
  rw [this]
  exact buildDateMap_nodup _

theorem dateBuckets_sum (data : Response) (dates : List String) :
    ((dateBuckets data dates).map fun b => b.value).sum
      = ((calendarData data dates).map fun i => i.value).sum := by
  have hp := (dateBuckets_perm data dates).map (fun b => b.value)
  rw [hp.sum_eq, List.map_map, ← buildDateMap_sum]
  rfl

/-- Valid ISO dates are written to pairwise distinct cells. -/
theorem dateBuckets_pos_nodup (data : Response) (dates : List String)
    (hv : ∀ d ∈ dates, isISODate d = true) : ((dateBuckets data dates).map posOf).Nodup := by
  have hn := dateBuckets_dates_nodup data dates
  have hinj : ∀ x ∈ dateBuckets data dates, ∀ y ∈ dateBuckets data dates,
      posOf x = posOf y → x = y := by
    intro x hx y hy hxy
    have hd := posOf_injective x y (hv _ (dateBuckets_mem data dates x hx).2)
      (hv _ (dateBuckets_mem data dates y hy).2) hxy
    exact List.inj_on_of_nodup_map hn hx hy hd
  exact List.Nodup.map_on hinj (List.Nodup.of_map _ hn)

theorem dateBuckets_parse (data : Response) (dates : List String)
    (hv : ∀ d ∈ dates, ∃ n, newDate d = some n) :
    ∀ b ∈ dateBuckets data dates, ∃ n, newDate b.date = some n :=
  fun b hb => hv _ (dateBuckets_mem data dates b hb).2

/-- Record `k` carries the value `data.values[k] || 0`. -/
theorem calendarData_get (data : Response) (dates : List String) (k : Nat) (item : CalItem)
    (hk : (calendarData data dates)[k]? = some item) :
    item.value = ((data.values.get? k).join).getD 0 := by
  unfold calendarData at hk
  rw [List.getElem?_map] at hk
  cases he : dates.enum[k]? with
  | none => rw [he] at hk; simp at hk
  | some p =>
    rw [he] at hk
    simp only [Option.map_some', Option.some.injEq] at hk
    have hp : p.1 = k := by
      rw [List.getElem?_enum] at he
      cases hdk : dates[k]? with
      | none => rw [hdk] at he; simp at he
      | some x => rw [hdk] at he; simp at he; rw [← he]
    rw [← hk, hp]

theorem isISODate_parse (d : String) (h : isISODate d = true) : ∃ n, newDate d = some n :=
  ((isISODate_iff d).mp h).2

/-- What `loadCalendarData` does on a successful response with at least one date. -/
theorem loadCalendarData_eq (filters : Filters) (data : Response) (dates : List String)
    (hs : data.success = true) (hd : data.dates = some dates) (hne : dates ≠ []) :
    loadCalendarData filters data
      = match buildWeeks (dateBuckets data dates) with
        | .error e => .error e
        | .ok w => .chart (chartOf filters w) := by
  unfold loadCalendarData
  rw [hs, hd]
  cases dates with
  | nil => exact absurd rfl hne
  | cons d ds =>
    simp only [Bool.true_eq_false, if_false, buildCalendar]
    cases buildWeeks (dateBuckets data (d :: ds)) <;> rfl

/-- A chart is shown exactly when the loop over the buckets ends normally. -/
theorem loadCalendarData_chart (filters : Filters) (data : Response) (c : Chart)
    (h : loadCalendarData filters data = .chart c) :
    ∃ dates w, data.success = true ∧ data.dates = some dates ∧ dates ≠ [] ∧
      buildWeeks (dateBuckets data dates) = .ok w ∧ c = chartOf filters w := by
  unfold loadCalendarData at h
  split_ifs at h with hs
  cases hd : data.dates with
  | none => rw [hd] at h; simp at h
  | some dates =>
    rw [hd] at h
    cases dates with
    | nil => simp at h
    | cons d ds =>
      simp only [buildCalendar] at h
      cases hw : buildWeeks (dateBuckets data (d :: ds)) with
      | error e => rw [hw] at h; simp at h
      | ok w =>
        rw [hw] at h
        simp only [Outcome.chart.injEq] at h
        exact ⟨d :: ds, w, by simpa using hs, rfl, by simp, hw, h.symm⟩

/-- The cell of a valid date holds the bucket of that date. -/
theorem cellAt_of_date (data : Response) (dates : List String) (w : JsObj (List Cell))
    (hw : buildWeeks (dateBuckets data dates) = .ok w)
    (hv : ∀ d ∈ dates, isISODate d = true) (d : String) (hd : d ∈ dates) (n : Int)
    (hn : newDate d = some n) :
    cellAt w (toISODate (mondayOf n)) (dayIndexOf n)
      = cellOf (bucketOf (calendarData data dates) d) := by
  rw [buildWeeks_cellAt _ w hw]
  have hb := mem_dateBuckets data dates d hd
  have hp : posOf (bucketOf (calendarData data dates) d)
      = some (toISODate (mondayOf n), dayIndexOf n) := by
    unfold posOf bucketOf; simp only; rw [hn]; rfl
  have hnd := dateBuckets_pos_nodup data dates hv
  have hf : ((dateBuckets data dates).filter
      fun b => posOf b = some (toISODate (mondayOf n), dayIndexOf n))
      = [bucketOf (calendarData data dates) d] := by
    have hnd' : (dateBuckets data dates).Nodup := List.Nodup.of_map _ hnd
    have hsub : ∀ x, x ∈ ((dateBuckets data dates).filter
        fun b => posOf b = some (toISODate (mondayOf n), dayIndexOf n))
        ↔ x ∈ [bucketOf (calendarData data dates) d] := by
      intro x
      rw [List.mem_filter, List.mem_singleton]
      constructor
      · rintro ⟨hx, hpx⟩
        simp only [decide_eq_true_eq] at hpx
        exact List.inj_on_of_nodup_map hnd hx hb (hpx.trans hp.symm)
      · rintro rfl
        exact ⟨hb, by simp [hp]⟩
    exact List.perm_singleton.mp
      ((List.perm_ext_iff_of_nodup (hnd'.filter _) (List.nodup_singleton _)).mpr hsub)
  rw [hf]
  rfl

/-! ## The layout loop of the component -/

theorem fillRow_eq (m : JsObj Int) (n : Nat) (cur : Int) :
    fillRow m n cur
      = ((List.range n).map (fun c : Nat =>
          (toISODate (cur + c), (m.get (toISODate (cur + c))).getD 0)), cur + n) := by
  induction n generalizing cur with
  | zero =>
    show (([] : List (String × Int)), cur) = _
    simp
  | succ k ih =>
    rw [fillRow]
    rw [setDate_add, ih (cur + 1), List.range_succ_eq_map]
    simp only [List.map_cons, List.map_map, Nat.cast_zero, add_zero, Prod.mk.injEq,
      List.cons.injEq, true_and]
    refine ⟨?_, by push_cast; ring⟩
    apply List.map_congr_left
    intro c _
    simp only [Function.comp, Nat.succ_eq_add_one, Nat.cast_add, Nat.cast_one]
    have : cur + 1 + (c : Int) = cur + ((c : Int) + 1) := by ring
    rw [this]

theorem layoutLoop_eq (m : JsObj Int) (k : Nat) (fuel : Nat) (cur last : Int)
    (hk : last - cur + 1 = 7 * k) (hf : k ≤ fuel) :
    layoutLoop m fuel cur last = some (gridCells m cur k) := by
  induction k generalizing cur fuel with
  | zero =>
    have : ¬ cur ≤ last := by omega
    cases fuel <;> simp [layoutLoop, this, gridCells]
  | succ j ih =>
    cases fuel with
    | zero => omega
    | succ f =>
      have hc : cur ≤ last := by omega
      rw [layoutLoop, if_pos hc]
      simp only
      rw [fillRow_eq, ih f (cur + (7 : Nat)) (by push_cast; push_cast at hk; omega) (by omega)]
      simp only [Option.map_some', Option.some.injEq]
      unfold gridCells
      rw [List.range_succ_eq_map (n := j)]
      simp only [List.map_cons, List.map_map, Nat.cast_zero, mul_zero, add_zero, List.cons.injEq,
        true_and]
      apply List.map_congr_left
      intro r _
      simp only [Function.comp_apply]
      apply List.map_congr_left
      intro c _
      simp only [Nat.succ_eq_add_one, Nat.cast_add, Nat.cast_one, Nat.cast_ofNat]
      have : cur + 7 + 7 * (r : Int) + c = cur + 7 * ((r : Int) + 1) + c := by ring
      rw [this]

theorem gridCells_length (m : JsObj Int) (first : Int) (k : Nat) :
    (gridCells m first k).length = k := by
  simp [gridCells]

theorem gridCells_row_length (m : JsObj Int) (first : Int) (k : Nat) :
    ∀ row ∈ gridCells m first k, row.length = 7 := by
  intro row hr
  unfold gridCells at hr
  obtain ⟨r, _, e⟩ := List.mem_map.mp hr
  rw [← e]; simp

theorem gridCells_get (m : JsObj Int) (first : Int) (k r c : Nat) (hr : r < k) (hc : c < 7) :
    ((gridCells m first k).get? r).bind (fun row => row.get? c)
      = some (toISODate (first + 7 * r + c), (m.get (toISODate (first + 7 * r + c))).getD 0) := by
  unfold gridCells
  simp [List.get?_eq_getElem?, List.getElem?_map, List.getElem?_range hr, List.getElem?_range hc]

theorem gridCells_get_some (m : JsObj Int) (first : Int) (k r c : Nat) (x : String × Int)
    (h : ((gridCells m first k).get? r).bind (fun row => row.get? c) = some x) :
    r < k ∧ c < 7 := by
  cases hrow : (gridCells m first k).get? r with
  | none => rw [hrow] at h; simp at h
  | some row =>
    rw [hrow] at h
    simp only [Option.some_bind] at h
    have h1 : r < (gridCells m first k).length := by
      by_contra hn
      rw [List.get?_eq_none.mpr (by omega)] at hrow
      exact absurd hrow (by simp)
    have h2 : c < row.length := by
      by_contra hn
      rw [List.get?_eq_none.mpr (by omega)] at h
      exact absurd h (by simp)
    rw [gridCells_row_length m first k row (List.get?_mem hrow)] at h2
    rw [gridCells_length] at h1
    exact ⟨h1, h2⟩

/-- The earliest and the latest day of a non-empty list of valid ISO dates, as
`sort()` finds them. -/
theorem sorted_ends (dates : List String) (hne : dates ≠ [])
    (hvalid : ∀ x ∈ dates, isISODate x = true) :
    ∃ lo hi : Int, newDate ((jsSort dates).headD "") = some lo ∧
      newDate ((jsSort dates).getLastD "") = some hi ∧
      (∃ d ∈ dates, newDate d = some lo) ∧ (∃ d ∈ dates, newDate d = some hi) ∧
      (∀ d ∈ dates, ∀ n, newDate d = some n → lo ≤ n ∧ n ≤ hi) ∧
      -719528 ≤ lo ∧ hi ≤ 2932896 := by
  have hsne : jsSort dates ≠ [] := by
    intro e
    have := jsSort_length dates
    rw [e] at this
    exact hne (List.length_eq_zero.mp this.symm)
  have hh : (jsSort dates).headD "" ∈ dates := (mem_jsSort _ _).mp (headD_mem _ hsne _)
  have hl : (jsSort dates).getLastD "" ∈ dates := (mem_jsSort _ _).mp (getLastD_mem _ hsne _)
  obtain ⟨lo, p1, e1, lo1, lo2⟩ := isISODate_day _ (hvalid _ hh)
  obtain ⟨hi, p2, e2, hi1, hi2⟩ := isISODate_day _ (hvalid _ hl)
  refine ⟨lo, hi, p1, p2, ⟨_, hh, p1⟩, ⟨_, hl, p2⟩, ?_, lo1, hi2⟩
  intro d hd n hn
  obtain ⟨n', p3, e3, n1, n2⟩ := isISODate_day _ (hvalid _ hd)
  rw [hn] at p3; cases p3
  have a1 := jsSort_head_le dates d hd ""
  have a2 := jsSort_le_getLast dates d hd ""
  rw [← e1, ← e3] at a1
  rw [← e2, ← e3] at a2
  exact ⟨(jsStrLe_toISODate lo n (by omega) (by omega) (by omega) (by omega)).mp a1,
    (jsStrLe_toISODate n hi (by omega) (by omega) (by omega) (by omega)).mp a2⟩

/-- What `calculateCalendarLayout` returns once its loop has run to the end. -/
theorem calculateCalendarLayout_eq (dates : List String) (counts : List Int) (hne : dates ≠ [])
    (lo hi : Int) (h1 : newDate ((jsSort dates).headD "") = some lo)
    (h2 : newDate ((jsSort dates).getLastD "") = some hi) (hle : lo ≤ hi) (fuel : Nat)
    (hf : ((hi - (lo - getDay lo)) / 7 + 1).toNat ≤ fuel) :
    calculateCalendarLayout fuel (some dates) counts = some
      { cells := gridCells (dateValueMapOf dates counts) (lo - getDay lo)
          ((hi - (lo - getDay lo)) / 7 + 1).toNat
        x := weekdays
        y := (List.range ((hi - (lo - getDay lo)) / 7 + 1).toNat).map
          fun weekIndex => "Semaine " ++ showNum (weekIndex + 1) } := by
  cases dates with
  | nil => exact absurd rfl hne
  | cons d ds =>
    unfold calculateCalendarLayout
    simp only [h1, h2]
    rw [firstDayOf_eq, lastDayOf_eq]
    have e : lo - getDay lo = lo - (lo + 4) % 7 := rfl
    rw [e] at hf ⊢
    rw [layoutLoop_eq _ ((hi - (lo - (lo + 4) % 7)) / 7 + 1).toNat fuel _ _ (by omega) hf]
    simp only [Option.map_some', gridCells_length]

/-! ## Claims on `loadCalendarData` -/

theorem filter_date_eq_singleton (data : Response) (dates : List String) (d : String)
    (hd : d ∈ dates) :
    (dateBuckets data dates).filter (fun b => b.date = d)
      = [bucketOf (calendarData data dates) d] := by
  have hn := dateBuckets_dates_nodup data dates
  have hb := mem_dateBuckets data dates d hd
  apply List.perm_singleton.mp
  refine (List.perm_ext_iff_of_nodup ((List.Nodup.of_map _ hn).filter _)
    (List.nodup_singleton _)).mpr ?_
  intro x
  rw [List.mem_filter, List.mem_singleton]
  constructor
  · rintro ⟨hx, hpx⟩
    simp only [decide_eq_true_eq] at hpx
    exact List.inj_on_of_nodup_map hn hx hb (by rw [hpx]; rfl)
  · rintro rfl
    exact ⟨hb, by simp [bucketOf]⟩

/-- C2: every date of the response has exactly one bucket in `dateMap`; its
value is the sum of the values of the records of that date (a missing value
counting as 0) and its details are those records in input order. -/
theorem dateMap_buckets (data : Response) (dates : List String) (d : String) (hd : d ∈ dates) :
    ((dateBuckets data dates).filter fun b => b.date = d).length = 1 ∧
    (buildDateMap (calendarData data dates)).get d = some
      { date := d
        value := (((calendarData data dates).filter fun i => i.date = d).map fun i => i.value).sum
        details := ((calendarData data dates).filter fun i => i.date = d).map detailOf } ∧
    (calendarData data dates).map (fun i => i.date) = dates ∧
    ∀ (k : Nat) (item : CalItem), (calendarData data dates).get? k = some item →
      item.value = ((data.values.get? k).join).getD 0 := by
  refine ⟨by rw [filter_date_eq_singleton data dates d hd]; rfl, ?_, calendarData_dates data dates,
    ?_⟩
  · rw [buildDateMap_get]
    have : ¬ ((calendarData data dates).filter fun i => i.date = d) = [] := by
      intro he
      have hm : d ∈ (calendarData data dates).map (fun i => i.date) := by
        rw [calendarData_dates]; exact hd
      obtain ⟨i, hi, e⟩ := List.mem_map.mp hm
      have : i ∈ (calendarData data dates).filter fun i => i.date = d :=
        List.mem_filter.mpr ⟨hi, by simp [e]⟩
      rw [he] at this; simp at this
    rw [if_neg this]; rfl
  · intro k item hk
    rw [List.get?_eq_getElem?] at hk
    exact calendarData_get data dates k item hk

/-- Witness of C2 on the records 2024-01-01, 2024-01-01, 2024-01-08. -/
theorem dateMap_buckets_witness :
    "2024-01-01" ∈ ["2024-01-01", "2024-01-01", "2024-01-08"] ∧
    (buildDateMap (calendarData (plainResponse ["2024-01-01", "2024-01-01", "2024-01-08"])
      ["2024-01-01", "2024-01-01", "2024-01-08"])).get "2024-01-01" = some
      { date := "2024-01-01"
        value := (((calendarData (plainResponse ["2024-01-01", "2024-01-01", "2024-01-08"])
          ["2024-01-01", "2024-01-01", "2024-01-08"]).filter
            fun i => i.date = "2024-01-01").map fun i => i.value).sum
        details := ((calendarData (plainResponse ["2024-01-01", "2024-01-01", "2024-01-08"])
          ["2024-01-01", "2024-01-01", "2024-01-08"]).filter
            fun i => i.date = "2024-01-01").map detailOf } :=
  ⟨by decide, (dateMap_buckets (plainResponse ["2024-01-01", "2024-01-01", "2024-01-08"])
    ["2024-01-01", "2024-01-01", "2024-01-08"] "2024-01-01" (by decide)).2.1⟩

/-- C1: with valid ISO dates, the bucket of a date `d` is written into the row
keyed by the ISO date of the Monday on or before `d` (at most 6 days earlier),
in column Monday = 0 .. Sunday = 6, and `z` shows its value there. -/
theorem week_layout_monday_row (filters : Filters) (data : Response) (dates : List String)
    (d : String) (hs : data.success = true) (hdates : data.dates = some dates)
    (hvalid : ∀ x ∈ dates, isISODate x = true) (hd : d ∈ dates) :
    ∃ (n mon : Int) (col : Nat) (w : JsObj (List Cell)),
      newDate d = some n ∧
      buildWeeks (dateBuckets data dates) = .ok w ∧
      loadCalendarData filters data = .chart (chartOf filters w) ∧
      mon ≤ n ∧ n - mon ≤ 6 ∧ getDay mon = 1 ∧ (col : Int) = n - mon ∧
      (col : Int) = (getDay n + 6) % 7 ∧
      cellAt w (toISODate mon) col = cellOf (bucketOf (calendarData data dates) d) ∧
      ∃ r, (weekKeysOf w).get? r = some (toISODate mon) ∧
        ((chartOf filters w).z.get? r).bind (fun row => row.get? col)
          = some (((calendarData data dates).filter fun i => i.date = d).map fun i => i.value).sum := by
  obtain ⟨n, hn⟩ := isISODate_parse d (hvalid d hd)
  obtain ⟨w, hw⟩ := buildWeeks_ok (dateBuckets data dates)
    (dateBuckets_parse data dates (fun x hx => isISODate_parse x (hvalid x hx)))
  have hne : dates ≠ [] := by intro e; rw [e] at hd; simp at hd
  have hload := loadCalendarData_eq filters data dates hs hdates hne
  rw [hw] at hload
  obtain ⟨m1, m2, m3, m4⟩ := mondayOf_spec n
  have hcell := cellAt_of_date data dates w hw hvalid d hd n hn
  have hkey : toISODate (mondayOf n) ∈ weekKeysOf w := by
    rw [mem_weekKeysOf, buildWeeks_keys _ w hw]
    exact ⟨_, mem_dateBuckets data dates d hd, n, hn, rfl⟩
  obtain ⟨r, hr⟩ := List.get?_of_mem hkey
  have hz := (chartOf_z_get filters w r _ hr (dayIndexOf n) (dayIndexOf_lt n)
    (buildWeeks_rows _ w hw)).1
  rw [hcell] at hz
  refine ⟨n, mondayOf n, dayIndexOf n, w, hn, hw, hload, m1, m2, m3, by omega, ?_, hcell, r, hr, hz⟩
  have := dayIndexOf_eq n
  unfold getDay; omega

/-- Witness of C1: the records 2024-01-01, 2024-01-01, 2024-01-08 with value 1
each give exactly two rows, `z = [[2,0,0,0,0,0,0],[1,0,0,0,0,0,0]]`. -/
theorem week_layout_monday_row_witness :
    (∀ x ∈ ["2024-01-01", "2024-01-01", "2024-01-08"], isISODate x = true) ∧
    (∃ (n mon : Int) (col : Nat) (w : JsObj (List Cell)),
      newDate "2024-01-08" = some n ∧
      buildWeeks (dateBuckets (plainResponse ["2024-01-01", "2024-01-01", "2024-01-08"])
        ["2024-01-01", "2024-01-01", "2024-01-08"]) = .ok w ∧
      loadCalendarData noFilters (plainResponse ["2024-01-01", "2024-01-01", "2024-01-08"])
        = .chart (chartOf noFilters w) ∧
      mon ≤ n ∧ n - mon ≤ 6 ∧ getDay mon = 1 ∧ (col : Int) = n - mon ∧
      (col : Int) = (getDay n + 6) % 7 ∧
      cellAt w (toISODate mon) col
        = cellOf (bucketOf (calendarData (plainResponse ["2024-01-01", "2024-01-01", "2024-01-08"])
            ["2024-01-01", "2024-01-01", "2024-01-08"]) "2024-01-08") ∧
      ∃ r, (weekKeysOf w).get? r = some (toISODate mon) ∧
        ((chartOf noFilters w).z.get? r).bind (fun row => row.get? col)
          = some (((calendarData (plainResponse ["2024-01-01", "2024-01-01", "2024-01-08"])
              ["2024-01-01", "2024-01-01", "2024-01-08"]).filter
                fun i => i.date = "2024-01-08").map fun i => i.value).sum) ∧
    (∃ c, loadCalendarData noFilters (plainResponse ["2024-01-01", "2024-01-01", "2024-01-08"])
        = .chart c ∧ c.z = [[2, 0, 0, 0, 0, 0, 0], [1, 0, 0, 0, 0, 0, 0]]) :=
  ⟨by decide,
   week_layout_monday_row noFilters (plainResponse ["2024-01-01", "2024-01-01", "2024-01-08"])
     ["2024-01-01", "2024-01-01", "2024-01-08"] "2024-01-08" rfl rfl (by decide) (by decide),
   ⟨_, rfl, by decide⟩⟩

theorem calendarData_length (data : Response) (dates : List String) :
    (calendarData data dates).length = dates.length := by
  simp [calendarData]

/-- With as many values as dates, the record values are the response values, `null` read as 0. -/
theorem calendarData_values (data : Response) (dates : List String)
    (h : data.values.length = dates.length) :
    (calendarData data dates).map (fun i => i.value) = data.values.map (fun v => v.getD 0) := by
  apply List.ext_getElem?
  intro k
  rw [List.getElem?_map, List.getElem?_map]
  by_cases hk : k < dates.length
  · have h1 : k < (calendarData data dates).length := by rw [calendarData_length]; exact hk
    have h2 : k < data.values.length := by omega
    rw [List.getElem?_eq_getElem h1, List.getElem?_eq_getElem h2]
    simp only [Option.map_some', Option.some.injEq]
    rw [calendarData_get data dates k _ (List.getElem?_eq_getElem h1), List.get?_eq_getElem?,
      List.getElem?_eq_getElem h2]
    rfl
  · have h1 : (calendarData data dates).length ≤ k := by rw [calendarData_length]; omega
    have h2 : data.values.length ≤ k := by omega
    rw [List.getElem?_eq_none h1, List.getElem?_eq_none h2]
    rfl

/-- C3: with valid ISO dates, distinct dates go to distinct (week row, column)
cells, and the entries of `z` add up to the values of the response. -/
theorem grid_partition (filters : Filters) (data : Response) (dates : List String)
    (hs : data.success = true) (hdates : data.dates = some dates) (hne : dates ≠ [])
    (hvalid : ∀ x ∈ dates, isISODate x = true) :
    (∀ d1 ∈ dates, ∀ d2 ∈ dates, d1 ≠ d2 → datePos d1 ≠ datePos d2) ∧
    (∀ d ∈ dates, ∃ p, datePos d = some p ∧ p.2 < 7) ∧
    ∃ c, loadCalendarData filters data = .chart c ∧
      matrixSum c.z = ((calendarData data dates).map fun i => i.value).sum ∧
      (data.values.length = dates.length →
        matrixSum c.z = (data.values.map fun v => v.getD 0).sum) := by
  obtain ⟨w, hw⟩ := buildWeeks_ok (dateBuckets data dates)
    (dateBuckets_parse data dates (fun x hx => isISODate_parse x (hvalid x hx)))
  have hload := loadCalendarData_eq filters data dates hs hdates hne
  rw [hw] at hload
  have hsum : matrixSum (chartOf filters w).z
      = ((calendarData data dates).map fun i => i.value).sum := by
    rw [chartOf_z_sum filters w (buildWeeks_nodup _ w hw),
      buildWeeks_gridSum _ w hw (dateBuckets_pos_nodup data dates hvalid), dateBuckets_sum]
  refine ⟨?_, ?_, chartOf filters w, hload, hsum, ?_⟩
  · intro d1 h1 d2 h2 hne12 hpos
    have := posOf_injective { date := d1, value := 0, details := [] }
      { date := d2, value := 0, details := [] } (hvalid d1 h1) (hvalid d2 h2) hpos
    exact hne12 this
  · intro d hd
    obtain ⟨n, hn⟩ := isISODate_parse d (hvalid d hd)
    exact ⟨_, by unfold datePos; rw [hn]; rfl, dayIndexOf_lt n⟩
  · intro hlen
    rw [hsum, calendarData_values data dates hlen]

/-- Witness of C3 on the records 2024-01-01, 2024-01-01, 2024-01-08. -/
theorem grid_partition_witness :
    (∀ x ∈ ["2024-01-01", "2024-01-01", "2024-01-08"], isISODate x = true) ∧
    ∃ c, loadCalendarData noFilters (plainResponse ["2024-01-01", "2024-01-01", "2024-01-08"])
        = .chart c ∧
      matrixSum c.z = ((calendarData (plainResponse ["2024-01-01", "2024-01-01", "2024-01-08"])
        ["2024-01-01", "2024-01-01", "2024-01-08"]).map fun i => i.value).sum ∧
      ((plainResponse ["2024-01-01", "2024-01-01", "2024-01-08"]).values.length
          = ["2024-01-01", "2024-01-01", "2024-01-08"].length →
        matrixSum c.z = ((plainResponse ["2024-01-01", "2024-01-01", "2024-01-08"]).values.map
          fun v => v.getD 0).sum) :=
  ⟨by decide,
   (grid_partition noFilters (plainResponse ["2024-01-01", "2024-01-01", "2024-01-08"])
     ["2024-01-01", "2024-01-01", "2024-01-08"] rfl rfl (by decide) (by decide)).2.2⟩

/-- C10: for a response with at least one date, `z` and `text` have as many
rows as `y` has labels, every row of `z` and of `text` has 7 entries, and `x`
has 7 labels; the chart exists whenever every date parses. -/
theorem chart_shapes (filters : Filters) (data : Response) (dates : List String)
    (hs : data.success = true) (hdates : data.dates = some dates) (hne : dates ≠ []) :
    (∀ c, loadCalendarData filters data = .chart c →
      c.z.length = c.text.length ∧ c.z.length = c.y.length ∧
      (∀ row ∈ c.z, row.length = 7) ∧ (∀ row ∈ c.text, row.length = 7) ∧ c.x.length = 7) ∧
    ((∀ d ∈ dates, ∃ n, newDate d = some n) → ∃ c, loadCalendarData filters data = .chart c) := by
  constructor
  · intro c hc
    obtain ⟨dates', w, _, hd', _, hw, e⟩ := loadCalendarData_chart filters data c hc
    obtain ⟨h1, h2, h3, h4, h5, h6⟩ := chartOf_shape filters w (buildWeeks_rows _ w hw)
    subst e
    exact ⟨by omega, by omega, h4, h5, h6⟩
  · intro hp
    obtain ⟨w, hw⟩ := buildWeeks_ok (dateBuckets data dates) (dateBuckets_parse data dates hp)
    have hload := loadCalendarData_eq filters data dates hs hdates hne
    rw [hw] at hload
    exact ⟨_, hload⟩

/-- Witness of C10 on the records 2024-01-01, 2024-01-01, 2024-01-08. -/
theorem chart_shapes_witness :
    ["2024-01-01", "2024-01-01", "2024-01-08"] ≠ [] ∧
    ∃ c, loadCalendarData noFilters (plainResponse ["2024-01-01", "2024-01-01", "2024-01-08"])
        = .chart c ∧
      c.z.length = c.text.length ∧ c.z.length = c.y.length ∧
      (∀ row ∈ c.z, row.length = 7) ∧ (∀ row ∈ c.text, row.length = 7) ∧ c.x.length = 7 :=
  ⟨by decide,
   ⟨_, rfl, (chart_shapes noFilters (plainResponse ["2024-01-01", "2024-01-01", "2024-01-08"])
     ["2024-01-01", "2024-01-01", "2024-01-08"] rfl rfl (by decide)).1 _ rfl⟩⟩

/-- The Monday of a valid ISO date prints and parses back. -/
theorem monday_key (d : String) (hv : isISODate d = true) (n : Int) (hn : newDate d = some n) :
    newDate (toISODate (mondayOf n)) = some (mondayOf n) ∧
      -719893 ≤ mondayOf n ∧ mondayOf n ≤ 2932896 := by
  obtain ⟨z, hz, _, lo, hi⟩ := isISODate_day d hv
  rw [hn] at hz; cases hz
  obtain ⟨m1, m2, _, _⟩ := mondayOf_spec n
  obtain ⟨y1, y2⟩ := yearFromDay_range (mondayOf n) (by omega) (by omega)
  exact ⟨newDate_toISODate _ (by omega) (by omega), by omega, by omega⟩

/-- C9: with valid ISO dates of the years 0000-9999, the sorted week keys are
the ISO texts of strictly ascending Mondays, no key occurs twice, and the rows
of `z`, `text` and `y` follow that order. -/
theorem week_rows_ascending (filters : Filters) (data : Response) (dates : List String)
    (hs : data.success = true) (hdates : data.dates = some dates) (hne : dates ≠ [])
    (hvalid : ∀ x ∈ dates, isISODate x = true) :
    ∃ (w : JsObj (List Cell)) (mondays : List Int),
      buildWeeks (dateBuckets data dates) = .ok w ∧
      loadCalendarData filters data = .chart (chartOf filters w) ∧
      weekKeysOf w = mondays.map toISODate ∧
      mondays.Pairwise (fun a b => a < b) ∧
      (∀ m ∈ mondays, getDay m = 1) ∧
      (weekKeysOf w).Pairwise (fun a b => jsStrLt a b = true) ∧
      (weekKeysOf w).Nodup ∧
      (chartOf filters w).z
        = (weekKeysOf w).map (fun k => ((w.get k).getD []).map fun day => day.value) ∧
      (chartOf filters w).text
        = (weekKeysOf w).map (fun k => ((w.get k).getD []).map (tooltip filters)) ∧
      (chartOf filters w).y = (weekKeysOf w).map weekLabel := by
  obtain ⟨w, hw⟩ := buildWeeks_ok (dateBuckets data dates)
    (dateBuckets_parse data dates (fun x hx => isISODate_parse x (hvalid x hx)))
  have hload := loadCalendarData_eq filters data dates hs hdates hne
  rw [hw] at hload
  have hkey : ∀ k ∈ weekKeysOf w, ∃ m, newDate k = some m ∧ toISODate m = k ∧ getDay m = 1 ∧
      -719893 ≤ m ∧ m ≤ 2932896 := by
    intro k hk
    rw [mem_weekKeysOf, buildWeeks_keys _ w hw] at hk
    obtain ⟨b, hb, n, hn, e⟩ := hk
    obtain ⟨p1, p2, p3⟩ := monday_key b.date (hvalid _ (dateBuckets_mem data dates b hb).2) n hn
    rw [e]
    exact ⟨mondayOf n, p1, rfl, (mondayOf_spec n).2.2.1, p2, p3⟩
  have hnodup : (weekKeysOf w).Nodup := by
    rw [(weekKeysOf_perm w).nodup_iff]
    exact buildWeeks_nodup _ w hw
  have hstrict : (weekKeysOf w).Pairwise (fun a b => jsStrLt a b = true) := by
    unfold weekKeysOf
    apply jsSort_strict
    rw [(JsObj.keys_perm w).nodup_iff]
    exact buildWeeks_nodup _ w hw
  refine ⟨w, (weekKeysOf w).map (fun k => (newDate k).getD 0), hw, hload, ?_, ?_, ?_, hstrict,
    hnodup, ?_, ?_, rfl⟩
  · rw [List.map_map]
    conv_lhs => rw [← List.map_id (weekKeysOf w)]
    apply List.map_congr_left
    intro k hk
    obtain ⟨m, h1, h2, _⟩ := hkey k hk
    simp [h1, h2]
  · rw [List.pairwise_map]
    refine hstrict.imp_of_mem ?_
    intro a b ha hb hab
    obtain ⟨ma, a1, a2, _, a4, a5⟩ := hkey a ha
    obtain ⟨mb, b1, b2, _, b4, b5⟩ := hkey b hb
    rw [a1, b1]
    simp only [Option.getD_some]
    rw [← a2, ← b2] at hab
    exact (jsStrLt_toISODate ma mb a4 a5 b4 b5).mp hab
  · intro m hm
    obtain ⟨k, hk, e⟩ := List.mem_map.mp hm
    obtain ⟨m', h1, _, h3, _⟩ := hkey k hk
    rw [h1] at e
    simp only [Option.getD_some] at e
    rw [← e]; exact h3
  · simp [chartOf, sortedWeeksOf]
  · simp [chartOf, sortedWeeksOf]

/-- Witness of C9 on the records 2024-01-15, 2024-01-01. -/
theorem week_rows_ascending_witness :
    (∀ x ∈ ["2024-01-15", "2024-01-01"], isISODate x = true) ∧
    ∃ (w : JsObj (List Cell)) (mondays : List Int),
      buildWeeks (dateBuckets (plainResponse ["2024-01-15", "2024-01-01"])
        ["2024-01-15", "2024-01-01"]) = .ok w ∧
      loadCalendarData noFilters (plainResponse ["2024-01-15", "2024-01-01"])
        = .chart (chartOf noFilters w) ∧
      weekKeysOf w = mondays.map toISODate ∧
      mondays.Pairwise (fun a b => a < b) ∧
      (∀ m ∈ mondays, getDay m = 1) ∧
      (weekKeysOf w).Pairwise (fun a b => jsStrLt a b = true) ∧
      (weekKeysOf w).Nodup ∧
      (chartOf noFilters w).z
        = (weekKeysOf w).map (fun k => ((w.get k).getD []).map fun day => day.value) ∧
      (chartOf noFilters w).text
        = (weekKeysOf w).map (fun k => ((w.get k).getD []).map (tooltip noFilters)) ∧
      (chartOf noFilters w).y = (weekKeysOf w).map weekLabel :=
  ⟨by decide,
   week_rows_ascending noFilters (plainResponse ["2024-01-15", "2024-01-01"])
     ["2024-01-15", "2024-01-01"] rfl rfl (by decide) (by decide)⟩

/-- Counterexample to C8: the records 2024-01-01 and 2024-01-15 give two rows;
the week of Monday 2024-01-08, which lies between them, has no row. -/
theorem week_gap_counterexample :
    ∃ w, buildWeeks (dateBuckets (plainResponse ["2024-01-01", "2024-01-15"])
        ["2024-01-01", "2024-01-15"]) = .ok w ∧
      loadCalendarData noFilters (plainResponse ["2024-01-01", "2024-01-15"])
        = .chart (chartOf noFilters w) ∧
      (chartOf noFilters w).z = [[1, 0, 0, 0, 0, 0, 0], [1, 0, 0, 0, 0, 0, 0]] ∧
      weekKeysOf w = ["2024-01-01", "2024-01-15"] ∧
      newDate "2024-01-01" = some 19723 ∧ newDate "2024-01-15" = some 19737 ∧
      mondayOf 19730 = 19730 ∧ toISODate 19730 = "2024-01-08" ∧
      "2024-01-08" ∉ weekKeysOf w :=
  ⟨_, rfl, rfl, by decide, by decide, by decide, by decide, by decide, by decide, by decide⟩

/-- C8, amended: the grid has one row for each Monday-start week that holds at
least one date of the response, and only for those; the rows are as many as
the distinct week keys. -/
theorem week_rows_are_weeks_with_records (filters : Filters) (data : Response)
    (dates : List String) (hs : data.success = true) (hdates : data.dates = some dates)
    (hne : dates ≠ []) (hparse : ∀ d ∈ dates, ∃ n, newDate d = some n) :
    ∃ w, buildWeeks (dateBuckets data dates) = .ok w ∧
      loadCalendarData filters data = .chart (chartOf filters w) ∧
      (weekKeysOf w).Nodup ∧
      (chartOf filters w).z.length = (weekKeysOf w).length ∧
      ∀ k, k ∈ weekKeysOf w ↔
        ∃ d ∈ dates, ∃ n, newDate d = some n ∧ k = toISODate (mondayOf n) := by
  obtain ⟨w, hw⟩ := buildWeeks_ok (dateBuckets data dates) (dateBuckets_parse data dates hparse)
  have hload := loadCalendarData_eq filters data dates hs hdates hne
  rw [hw] at hload
  refine ⟨w, hw, hload, ?_, (chartOf_shape filters w (buildWeeks_rows _ w hw)).1, ?_⟩
  · rw [(weekKeysOf_perm w).nodup_iff]
    exact buildWeeks_nodup _ w hw
  · intro k
    rw [mem_weekKeysOf, buildWeeks_keys _ w hw]
    constructor
    · rintro ⟨b, hb, n, hn, e⟩
      exact ⟨b.date, (dateBuckets_mem data dates b hb).2, n, hn, e⟩
    · rintro ⟨d, hd, n, hn, e⟩
      exact ⟨_, mem_dateBuckets data dates d hd, n, hn, e⟩

/-- Witness of the amended C8 on the records 2024-01-01 and 2024-01-15. -/
theorem week_rows_are_weeks_with_records_witness :
    (∀ d ∈ ["2024-01-01", "2024-01-15"], ∃ n, newDate d = some n) ∧
    ∃ w, buildWeeks (dateBuckets (plainResponse ["2024-01-01", "2024-01-15"])
        ["2024-01-01", "2024-01-15"]) = .ok w ∧
      loadCalendarData noFilters (plainResponse ["2024-01-01", "2024-01-15"])
        = .chart (chartOf noFilters w) ∧
      (weekKeysOf w).Nodup ∧
      (chartOf noFilters w).z.length = (weekKeysOf w).length ∧
      ∀ k, k ∈ weekKeysOf w ↔
        ∃ d ∈ ["2024-01-01", "2024-01-15"], ∃ n, newDate d = some n ∧
          k = toISODate (mondayOf n) :=
  ⟨by simp [show newDate "2024-01-01" = some 19723 by decide,
      show newDate "2024-01-15" = some 19737 by decide],
   week_rows_are_weeks_with_records noFilters (plainResponse ["2024-01-01", "2024-01-15"])
     ["2024-01-01", "2024-01-15"] rfl rfl (by decide)
     (by simp [show newDate "2024-01-01" = some 19723 by decide,
      show newDate "2024-01-15" = some 19737 by decide])⟩

/-- Counterexample to C5: with the range 2024-02-01 .. 2024-02-29 requested, a
response carrying 2024-01-01 still gets a non-empty cell for that date. -/
theorem date_range_counterexample :
    ∃ w, buildWeeks (dateBuckets (plainResponse ["2024-01-01"]) ["2024-01-01"]) = .ok w ∧
      loadCalendarData februaryFilters (plainResponse ["2024-01-01"])
        = .chart (chartOf februaryFilters w) ∧
      (cellAt w "2024-01-01" 0).date = some "2024-01-01" ∧
      (chartOf februaryFilters w).z = [[1, 0, 0, 0, 0, 0, 0]] ∧
      inRequestedRange februaryFilters "2024-01-01" = false :=
  ⟨_, rfl, rfl, by decide, by decide, by decide⟩

/-- C5, amended: the date range is only sent to the server; the grid is the
same whatever range the filters carry, every non-empty cell holds a date of
the response, and so the cells lie in the requested range when the dates of
the response do. -/
theorem cells_follow_response (filters : Filters) (data : Response) (dates : List String)
    (w : JsObj (List Cell)) (hw : buildWeeks (dateBuckets data dates) = .ok w)
    (hrange : ∀ d ∈ dates, inRequestedRange filters d = true) :
    (∀ k i d, (cellAt w k i).date = some d → d ∈ dates ∧ inRequestedRange filters d = true) ∧
    (∀ s e, loadCalendarData { filters with date_start := s, date_end := e } data
      = loadCalendarData filters data) := by
  constructor
  · intro k i d hc
    rw [buildWeeks_cellAt _ w hw] at hc
    cases hl : ((dateBuckets data dates).filter fun b => posOf b = some (k, i)).getLast? with
    | none => rw [hl] at hc; simp [emptyCell] at hc
    | some b =>
      rw [hl] at hc
      simp only [Option.map_some', Option.getD_some, cellOf, Option.some.injEq] at hc
      have hb : b ∈ dateBuckets data dates :=
        (List.mem_filter.mp (List.mem_of_getLast?_eq_some hl)).1
      have := (dateBuckets_mem data dates b hb).2
      rw [hc] at this
      exact ⟨this, hrange d this⟩
  · intro s e
    rfl

/-- Witness of the amended C5: a February response under a February range. -/
theorem cells_follow_response_witness :
    (∀ d ∈ ["2024-02-05"], inRequestedRange februaryFilters d = true) ∧
    ∃ w, buildWeeks (dateBuckets (plainResponse ["2024-02-05"]) ["2024-02-05"]) = .ok w ∧
      ((∀ k i d, (cellAt w k i).date = some d → d ∈ ["2024-02-05"] ∧
        inRequestedRange februaryFilters d = true) ∧
      (∀ s e, loadCalendarData { februaryFilters with date_start := s, date_end := e }
            (plainResponse ["2024-02-05"])
        = loadCalendarData februaryFilters (plainResponse ["2024-02-05"]))) :=
  ⟨by decide, _, rfl,
   cells_follow_response februaryFilters (plainResponse ["2024-02-05"]) ["2024-02-05"] _ rfl
     (by decide)⟩

/-! ## Claims on the component -/

/-- C4: the list filtered by `formatCalendarData` is a sub-list of the records,
the records themselves for the brand `all`, and otherwise exactly the records
of that brand; the records (2024-01-01, A), (2024-01-01, B), (2024-01-08, A)
filtered by `A` give one purchase on each of the two dates. -/
theorem filteredData_spec (rawData : List Purchase) (b : String) :
    (filteredData rawData b).Sublist rawData ∧
    (b = "all" → filteredData rawData b = rawData) ∧
    (b ≠ "all" → filteredData rawData b = rawData.filter fun r => r.magasin = b) ∧
    (b ≠ "all" → ∀ r, r ∈ filteredData rawData b ↔ r ∈ rawData ∧ r.magasin = b) ∧
    (rawData ≠ [] → formatCalendarData (some rawData) b = some
      ((JsObj.entries (groupByDate (filteredData rawData b))).map (fun e => e.1),
       (JsObj.entries (groupByDate (filteredData rawData b))).map
         (fun e => (e.2.length : Int)))) ∧
    formatCalendarData (some [⟨"2024-01-01", "A"⟩, ⟨"2024-01-01", "B"⟩, ⟨"2024-01-08", "A"⟩]) "A"
      = some (["2024-01-01", "2024-01-08"], [1, 1]) := by
  refine ⟨?_, ?_, ?_, ?_, ?_, by decide⟩
  · unfold filteredData
    split_ifs
    · exact List.Sublist.refl _
    · exact List.filter_sublist _
  · intro h; unfold filteredData; rw [if_pos h]
  · intro h; unfold filteredData; rw [if_neg h]
  · intro h r; unfold filteredData; rw [if_neg h]; simp [List.mem_filter]
  · intro h
    cases rawData with
    | nil => exact absurd rfl h
    | cons r rs => rfl

/-- C6: for a non-empty list of valid ISO dates the loop of
`calculateCalendarLayout` ends, and `z` has ceil((lastDate - firstWeekStart + 1) / 7)
rows of 7 cells each, where `firstWeekStart` is the first day of the row that
holds the earliest date and `lastDate` the latest date. -/
theorem layout_row_count (dates : List String) (counts : List Int) (hne : dates ≠ [])
    (hvalid : ∀ x ∈ dates, isISODate x = true) :
    ∃ lo hi : Int,
      (∃ d ∈ dates, newDate d = some lo) ∧ (∃ d ∈ dates, newDate d = some hi) ∧
      (∀ d ∈ dates, ∀ n, newDate d = some n → lo ≤ n ∧ n ≤ hi) ∧
      firstDayOf lo ≤ lo ∧ lo - firstDayOf lo ≤ 6 ∧
      ∃ fuel0, ∀ fuel, fuel0 ≤ fuel →
        ∃ L, calculateCalendarLayout fuel (some dates) counts = some L ∧
          (L.z.length : Int) = (hi - firstDayOf lo + 1 + 6) / 7 ∧
          7 * ((L.z.length : Int) - 1) < hi - firstDayOf lo + 1 ∧
          hi - firstDayOf lo + 1 ≤ 7 * (L.z.length : Int) ∧
          (∀ row ∈ L.z, row.length = 7) ∧
          ((L.cells.get? 0).bind fun row => row.get? 0)
            = some (toISODate (firstDayOf lo),
                ((dateValueMapOf dates counts).get (toISODate (firstDayOf lo))).getD 0) := by
  obtain ⟨lo, hi, p1, p2, q1, q2, q3, b1, b2⟩ := sorted_ends dates hne hvalid
  have hle : lo ≤ hi := by
    obtain ⟨d, hd, e⟩ := q1
    exact (q3 d hd lo e).2
  have hfd : firstDayOf lo = lo - getDay lo := by rw [firstDayOf_eq]; rfl
  have hgd := getDay_bounds lo
  refine ⟨lo, hi, q1, q2, q3, by omega, by omega,
    ((hi - (lo - getDay lo)) / 7 + 1).toNat, ?_⟩
  intro fuel hf
  refine ⟨_, calculateCalendarLayout_eq dates counts hne lo hi p1 p2 hle fuel hf, ?_, ?_, ?_, ?_, ?_⟩
  · simp only [Layout.z, List.length_map, gridCells_length]
    rw [hfd]; omega
  · simp only [Layout.z, List.length_map, gridCells_length]
    rw [hfd]; omega
  · simp only [Layout.z, List.length_map, gridCells_length]
    rw [hfd]; omega
  · intro row hr
    simp only [Layout.z] at hr
    obtain ⟨r, hr1, e⟩ := List.mem_map.mp hr
    rw [← e, List.length_map]
    exact gridCells_row_length _ _ _ r hr1
  · have := gridCells_get (dateValueMapOf dates counts) (lo - getDay lo)
      ((hi - (lo - getDay lo)) / 7 + 1).toNat 0 0 (by omega) (by omega)
    simp only [Nat.cast_zero, mul_zero, add_zero] at this
    rw [hfd]
    exact this

/-- Witness of C6 on the dates 2024-01-01 and 2024-01-15. -/
theorem layout_row_count_witness :
    (∀ x ∈ ["2024-01-01", "2024-01-15"], isISODate x = true) ∧
    ∃ lo hi : Int,
      (∃ d ∈ ["2024-01-01", "2024-01-15"], newDate d = some lo) ∧
      (∃ d ∈ ["2024-01-01", "2024-01-15"], newDate d = some hi) ∧
      (∀ d ∈ ["2024-01-01", "2024-01-15"], ∀ n, newDate d = some n → lo ≤ n ∧ n ≤ hi) ∧
      firstDayOf lo ≤ lo ∧ lo - firstDayOf lo ≤ 6 ∧
      ∃ fuel0, ∀ fuel, fuel0 ≤ fuel →
        ∃ L, calculateCalendarLayout fuel (some ["2024-01-01", "2024-01-15"]) [5, 3] = some L ∧
          (L.z.length : Int) = (hi - firstDayOf lo + 1 + 6) / 7 ∧
          7 * ((L.z.length : Int) - 1) < hi - firstDayOf lo + 1 ∧
          hi - firstDayOf lo + 1 ≤ 7 * (L.z.length : Int) ∧
          (∀ row ∈ L.z, row.length = 7) ∧
          ((L.cells.get? 0).bind fun row => row.get? 0)
            = some (toISODate (firstDayOf lo),
                ((dateValueMapOf ["2024-01-01", "2024-01-15"] [5, 3]).get
                  (toISODate (firstDayOf lo))).getD 0) :=
  ⟨by decide, layout_row_count ["2024-01-01", "2024-01-15"] [5, 3] (by decide) (by decide)⟩

/-- Counterexample to C7: for the single date 2024-01-01, a Monday, the value
sits in column 1 of the row; column 0 holds Sunday 2023-12-31. -/
theorem monday_column_counterexample :
    calculateCalendarLayout 1 (some ["2024-01-01"]) [5] = some
      { cells := [[("2023-12-31", 0), ("2024-01-01", 5), ("2024-01-02", 0), ("2024-01-03", 0),
          ("2024-01-04", 0), ("2024-01-05", 0), ("2024-01-06", 0)]]
        x := ["Dim", "Lun", "Mar", "Mer", "Jeu", "Ven", "Sam"]
        y := ["Semaine 1"] } ∧
    newDate "2024-01-01" = some 19723 ∧ getDay 19723 = 1 ∧ (19723 + 3) % 7 = (0 : Int) := by
  refine ⟨by decide, by decide, by decide, by decide⟩

/-- C7, amended: for a non-empty list of valid ISO dates, every calendar date
between the earliest and the latest input date has exactly one cell in the
grid of `calculateCalendarLayout`, and the column of that cell is the weekday
counted from Sunday: Sunday is column 0, Monday column 1, Saturday column 6. -/
theorem layout_cells_by_weekday (dates : List String) (counts : List Int) (hne : dates ≠ [])
    (hvalid : ∀ x ∈ dates, isISODate x = true) :
    ∃ lo hi : Int,
      (∃ d ∈ dates, newDate d = some lo) ∧ (∃ d ∈ dates, newDate d = some hi) ∧
      (∀ d ∈ dates, ∀ n, newDate d = some n → lo ≤ n ∧ n ≤ hi) ∧
      ∃ fuel0, ∀ fuel, fuel0 ≤ fuel →
        ∃ L, calculateCalendarLayout fuel (some dates) counts = some L ∧
          ∀ n, lo ≤ n → n ≤ hi → ∃ r c : Nat,
            ((L.cells.get? r).bind fun row => row.get? c)
              = some (toISODate n, ((dateValueMapOf dates counts).get (toISODate n)).getD 0) ∧
            (c : Int) = getDay n ∧
            ∀ (r' c' : Nat) (v : Int),
              ((L.cells.get? r').bind fun row => row.get? c') = some (toISODate n, v) →
              r' = r ∧ c' = c := by
  obtain ⟨lo, hi, p1, p2, q1, q2, q3, b1, b2⟩ := sorted_ends dates hne hvalid
  have hle : lo ≤ hi := by
    obtain ⟨d, hd, e⟩ := q1
    exact (q3 d hd lo e).2
  have hgd : getDay lo = (lo + 4) % 7 := rfl
  refine ⟨lo, hi, q1, q2, q3, ((hi - (lo - getDay lo)) / 7 + 1).toNat, ?_⟩
  intro fuel hf
  refine ⟨_, calculateCalendarLayout_eq dates counts hne lo hi p1 p2 hle fuel hf, ?_⟩
  intro n hn1 hn2
  simp only
  have hr : ((n - (lo - getDay lo)) / 7).toNat < ((hi - (lo - getDay lo)) / 7 + 1).toNat := by
    rw [hgd]; omega
  have hc : ((n - (lo - getDay lo)) % 7).toNat < 7 := by omega
  have hcell := gridCells_get (dateValueMapOf dates counts) (lo - getDay lo)
    ((hi - (lo - getDay lo)) / 7 + 1).toNat _ _ hr hc
  have hn : lo - getDay lo + 7 * (((n - (lo - getDay lo)) / 7).toNat : Int)
      + (((n - (lo - getDay lo)) % 7).toNat : Int) = n := by
    rw [hgd]; omega
  rw [hn] at hcell
  refine ⟨_, _, hcell, by unfold getDay; omega, ?_⟩
  intro r' c' v h'
  obtain ⟨hr', hc'⟩ := gridCells_get_some _ _ _ _ _ _ h'
  rw [gridCells_get _ _ _ _ _ hr' hc'] at h'
  simp only [Option.some.injEq, Prod.mk.injEq] at h'
  have := toISODate_injective _ _ (by rw [hgd]; omega) (by rw [hgd]; omega) (by omega) (by omega)
    h'.1
  rw [hgd] at this
  constructor <;> omega

/-- Witness of the amended C7 on the dates 2024-01-01 and 2024-01-15. -/
theorem layout_cells_by_weekday_witness :
    (∀ x ∈ ["2024-01-01", "2024-01-15"], isISODate x = true) ∧
    ∃ lo hi : Int,
      (∃ d ∈ ["2024-01-01", "2024-01-15"], newDate d = some lo) ∧
      (∃ d ∈ ["2024-01-01", "2024-01-15"], newDate d = some hi) ∧
      (∀ d ∈ ["2024-01-01", "2024-01-15"], ∀ n, newDate d = some n → lo ≤ n ∧ n ≤ hi) ∧
      ∃ fuel0, ∀ fuel, fuel0 ≤ fuel →
        ∃ L, calculateCalendarLayout fuel (some ["2024-01-01", "2024-01-15"]) [5, 3] = some L ∧
          ∀ n, lo ≤ n → n ≤ hi → ∃ r c : Nat,
            ((L.cells.get? r).bind fun row => row.get? c)
              = some (toISODate n,
                  ((dateValueMapOf ["2024-01-01", "2024-01-15"] [5, 3]).get (toISODate n)).getD 0) ∧
            (c : Int) = getDay n ∧
            ∀ (r' c' : Nat) (v : Int),
              ((L.cells.get? r').bind fun row => row.get? c') = some (toISODate n, v) →
              r' = r ∧ c' = c :=
  ⟨by decide, layout_cells_by_weekday ["2024-01-01", "2024-01-15"] [5, 3] (by decide) (by decide)⟩

/-! ## Helpers for the second group of claims -/

theorem dateValueMapOf_snoc (l : List String) (x : String) (counts : List Int) :
    dateValueMapOf (l ++ [x]) counts
      = JsObj.set (dateValueMapOf l counts) x (counts.getD l.length 0) := by
  unfold dateValueMapOf
  rw [List.enum_append, List.foldl_append]
  rfl

/-- The map `dateValueMap` holds, for a date, the count at its last index. -/
theorem dateValueMapOf_get_last (dates : List String) (counts : List Int) (d : String) (i : Nat)
    (hi : dates.get? i = some d) (hlast : ∀ j, i < j → dates.get? j ≠ some d) :
    (dateValueMapOf dates counts).get d = some (counts.getD i 0) := by
  induction dates using List.reverseRecOn generalizing i with
  | nil => simp at hi
  | append_singleton l x ih =>
    rw [dateValueMapOf_snoc]
    rw [List.get?_eq_getElem?] at hi
    by_cases hx : x = d
    · subst hx
      have hil : i = l.length := by
        by_contra hne
        have hlt : i < l.length := by
          have := (List.getElem?_eq_some_iff.mp hi).1
          simp at this
          omega
        have := hlast l.length hlt
        simp [List.get?_eq_getElem?] at this
      rw [hil, JsObj.get_set_self]
    · have hlt : i < l.length := by
        have h1 := (List.getElem?_eq_some_iff.mp hi).1
        simp at h1
        by_contra hne
        have hil : i = l.length := by omega
        rw [hil] at hi
        simp at hi
        exact hx hi
      rw [JsObj.get_set_ne _ _ _ _ (fun e => hx e.symm)]
      apply ih i
      · rw [List.get?_eq_getElem?]
        rw [List.getElem?_append_left hlt] at hi
        exact hi
      · intro j hj hjd
        rw [List.get?_eq_getElem?] at hjd
        have hjl : j < l.length := (List.getElem?_eq_some_iff.mp hjd).1
        have := hlast j hj
        rw [List.get?_eq_getElem?, List.getElem?_append_left hjl] at this
        exact this hjd

/-- Every input date has a cell in the grid, holding what `dateValueMap` has for it. -/
theorem layout_cell_of_date (dates : List String) (counts : List Int) (hne : dates ≠ [])
    (hvalid : ∀ x ∈ dates, isISODate x = true) :
    ∃ fuel0, ∀ fuel, fuel0 ≤ fuel →
      ∃ L, calculateCalendarLayout fuel (some dates) counts = some L ∧
        ∀ d ∈ dates, ∃ r c : Nat,
          ((L.cells.get? r).bind fun row => row.get? c)
            = some (d, ((dateValueMapOf dates counts).get d).getD 0) := by
  obtain ⟨lo, hi, p1, p2, q1, q2, q3, b1, b2⟩ := sorted_ends dates hne hvalid
  have hle : lo ≤ hi := by
    obtain ⟨d, hd, e⟩ := q1
    exact (q3 d hd lo e).2
  have hgd : getDay lo = (lo + 4) % 7 := rfl
  refine ⟨((hi - (lo - getDay lo)) / 7 + 1).toNat, ?_⟩
  intro fuel hf
  refine ⟨_, calculateCalendarLayout_eq dates counts hne lo hi p1 p2 hle fuel hf, ?_⟩
  intro d hd
  obtain ⟨n, hn, e, _, _⟩ := isISODate_day d (hvalid d hd)
  obtain ⟨hn1, hn2⟩ := q3 d hd n hn
  simp only
  have hr : ((n - (lo - getDay lo)) / 7).toNat < ((hi - (lo - getDay lo)) / 7 + 1).toNat := by
    rw [hgd]; omega
  have hc : ((n - (lo - getDay lo)) % 7).toNat < 7 := by omega
  have hcell := gridCells_get (dateValueMapOf dates counts) (lo - getDay lo)
    ((hi - (lo - getDay lo)) / 7 + 1).toNat _ _ hr hc
  have hn' : lo - getDay lo + 7 * (((n - (lo - getDay lo)) / 7).toNat : Int)
      + (((n - (lo - getDay lo)) % 7).toNat : Int) = n := by
    rw [hgd]; omega
  rw [hn', e] at hcell
  exact ⟨_, _, hcell⟩

theorem layout_z_of_cells (L : Layout) (r c : Nat) (x : String × Int)
    (h : ((L.cells.get? r).bind fun row => row.get? c) = some x) :
    ((L.z.get? r).bind fun row => row.get? c) = some x.2 := by
  unfold Layout.z
  cases hrow : L.cells.get? r with
  | none => rw [hrow] at h; simp at h
  | some row =>
    rw [hrow] at h
    simp only [Option.some_bind] at h
    rw [List.get?_eq_getElem?] at hrow h
    simp [List.get?_eq_getElem?, List.getElem?_map, hrow, h]

theorem failureMessage_ne_empty (error : Option String) : failureMessage error ≠ "" := by
  unfold failureMessage truthyStr
  cases error with
  | none => decide
  | some e =>
    by_cases h : e = ""
    · simp only [h, if_true]; decide
    · simp only [h, if_false]; exact h

theorem catchMessage_of_ne (m : String) (h : m ≠ "") : catchMessage m = m := by
  unfold catchMessage; rw [if_neg h]

theorem breakdown_false (header : String) (o : JsObj Int) : breakdown header o false = "" := by
  unfold breakdown
  simp

/-! ## Claims on labels, tooltips and messages -/

/-- C11, the code at a failing input: for one purchase on Monday 2024-01-01 the
value sits in column 0 of `z`, and the label of column 0 in `x` is `Dim`
(Sunday); the labels start on Sunday, the columns on Monday. -/
theorem weekday_labels_start_on_sunday :
    ∃ c, loadCalendarData noFilters (plainResponse ["2024-01-01"]) = .chart c ∧
      c.z = [[1, 0, 0, 0, 0, 0, 0]] ∧
      c.x = ["Dim", "Lun", "Mar", "Mer", "Jeu", "Ven", "Sam"] ∧
      c.x.get? 0 = some "Dim" ∧
      newDate "2024-01-01" = some 19723 ∧ getDay 19723 = 1 ∧ dayIndexOf 19723 = 0 :=
  ⟨_, rfl, by decide, by decide, by decide, by decide, by decide, by decide⟩

/-- C12, the code at a failing input: with the payment method pinned to `CB`
the tooltip still carries the payment breakdown, while the breakdowns of the
store, the gender and the age are empty as soon as their filter is pinned. -/
theorem payment_breakdown_when_pinned :
    cardFilters.payment_method ≠ "all" ∧
    (∃ c, loadCalendarData cardFilters cardResponse = .chart c ∧
      ((c.text.get? 0).bind fun row => row.get? 0) = some
        "<b>Date</b>: 2024-01-01<br><b>Total</b>: 1 achat(s)<br><br><b>Moyens de paiement</b>:<br>- CB: 1 achat(s)<br>") ∧
    (∀ (filters : Filters) (s : Summaries), filters.brand ≠ "all" →
      breakdown storeHeader s.store (filters.brand == "all") = "") ∧
    (∀ (filters : Filters) (s : Summaries), filters.gender ≠ "all" →
      breakdown genderHeader s.gender (filters.gender == "all") = "") ∧
    (∀ (filters : Filters) (s : Summaries), filters.age_range ≠ "all" →
      breakdown ageHeader s.age (filters.age_range == "all") = "") := by
  refine ⟨by decide, ⟨_, rfl, by decide⟩, ?_, ?_, ?_⟩
  · intro filters s h
    have : (filters.brand == "all") = false := by simpa using h
    rw [this, breakdown_false]
  · intro filters s h
    have : (filters.gender == "all") = false := by simpa using h
    rw [this, breakdown_false]
  · intro filters s h
    have : (filters.age_range == "all") = false := by simpa using h
    rw [this, breakdown_false]

/-- C13, the code at a failing input: a bucket whose only record carries the
age 0 gets no age breakdown although every filter is `all`; with the age 5
the breakdown is there. -/
theorem age_zero_has_no_breakdown :
    (agedResponse 0).ages = some [some (.num 0)] ∧
    (∃ c, loadCalendarData noFilters (agedResponse 0) = .chart c ∧
      ((c.text.get? 0).bind fun row => row.get? 0) = some
        "<b>Date</b>: 2024-01-01<br><b>Total</b>: 1 achat(s)<br>") ∧
    (∃ c, loadCalendarData noFilters (agedResponse 5) = .chart c ∧
      ((c.text.get? 0).bind fun row => row.get? 0) = some
        "<b>Date</b>: 2024-01-01<br><b>Total</b>: 1 achat(s)<br><br><b>Répartition par âge</b>:<br>- 0-18 ans: 1 achat(s)<br>") :=
  ⟨rfl, ⟨_, rfl, by decide⟩, ⟨_, rfl, by decide⟩⟩

/-- C14: a record with a positive integer age is counted under exactly one
bracket, with right-inclusive bounds: below 19, 19 to 25, 26 to 35, 36 to 50,
51 and more; 25 falls in 19-25 and 26 in 26-35. -/
theorem age_brackets (n : Int) (hn : 0 < n) (s : Summaries) (d : Detail)
    (hd : d.age = some (.num n)) :
    (summarize s d).age = bump s.age (ageGroup (jsNumber (.num n))) d.value ∧
    (summarize s d).age.get (ageGroup (jsNumber (.num n)))
      = some ((s.age.get (ageGroup (jsNumber (.num n)))).getD 0 + d.value) ∧
    (∀ k, k ≠ ageGroup (jsNumber (.num n)) → (summarize s d).age.get k = s.age.get k) ∧
    (n < 19 → ageGroup (jsNumber (.num n)) = "0-18 ans") ∧
    (19 ≤ n → n ≤ 25 → ageGroup (jsNumber (.num n)) = "19-25 ans") ∧
    (26 ≤ n → n ≤ 35 → ageGroup (jsNumber (.num n)) = "26-35 ans") ∧
    (36 ≤ n → n ≤ 50 → ageGroup (jsNumber (.num n)) = "36-50 ans") ∧
    (51 ≤ n → ageGroup (jsNumber (.num n)) = "51+ ans") ∧
    ageGroup (jsNumber (.num 25)) = "19-25 ans" ∧ ageGroup (jsNumber (.num 26)) = "26-35 ans" := by
  have hne : n ≠ 0 := by omega
  have hsum : (summarize s d).age = bump s.age (ageGroup (jsNumber (.num n))) d.value := by
    unfold summarize
    simp only [hd, truthyAge, hne, if_false]
  refine ⟨hsum, ?_, ?_, ?_, ?_, ?_, ?_, ?_, by decide, by decide⟩
  · rw [hsum]; unfold bump; rw [JsObj.get_set_self]
  · intro k hk
    rw [hsum]; unfold bump; rw [JsObj.get_set_ne _ _ _ _ hk]
  · intro h
    simp only [ageGroup, jsNumber, numLt, numLe, decide_eq_true_eq, h, if_true]
  · intro h1 h2
    simp only [ageGroup, jsNumber, numLt, numLe, decide_eq_true_eq, h2, if_true,
      show ¬ n < 19 by omega, if_false]
  · intro h1 h2
    simp only [ageGroup, jsNumber, numLt, numLe, decide_eq_true_eq, h2, if_true,
      show ¬ n < 19 by omega, show ¬ n ≤ 25 by omega, if_false]
  · intro h1 h2
    simp only [ageGroup, jsNumber, numLt, numLe, decide_eq_true_eq, h2, if_true,
      show ¬ n < 19 by omega, show ¬ n ≤ 25 by omega, show ¬ n ≤ 35 by omega, if_false]
  · intro h1
    simp only [ageGroup, jsNumber, numLt, numLe, decide_eq_true_eq,
      show ¬ n < 19 by omega, show ¬ n ≤ 25 by omega, show ¬ n ≤ 35 by omega,
      show ¬ n ≤ 50 by omega, if_false]

/-- Witness of C14 at the age 25. -/
theorem age_brackets_witness :
    (0 : Int) < 25 ∧
    (summarize { payment := [], store := [], gender := [], age := [] }
      { paymentInfo := none, magasin := none, gender := none, age := some (.num 25),
        value := 1 }).age
      = bump [] (ageGroup (jsNumber (.num 25))) 1 :=
  ⟨by decide,
   (age_brackets 25 (by decide) { payment := [], store := [], gender := [], age := [] }
     { paymentInfo := none, magasin := none, gender := none, age := some (.num 25), value := 1 }
     rfl).1⟩

/-- C15: `calculateCalendarLayout` returns the empty grid for missing or empty
dates, and the component draws the empty grid when there is no record and
when the brand filter leaves no record. -/
theorem empty_input_empty_grid (fuel : Nat) (counts : List Int) (rawData : List Purchase)
    (b : String) (h : filteredData rawData b = []) :
    calculateCalendarLayout fuel none counts = some { cells := [], x := [], y := [] } ∧
    calculateCalendarLayout fuel (some []) counts = some { cells := [], x := [], y := [] } ∧
    componentLayout fuel none b = some { cells := [], x := [], y := [] } ∧
    componentLayout fuel (some []) b = some { cells := [], x := [], y := [] } ∧
    ∃ L, componentLayout fuel (some rawData) b = some L ∧ L.z = [] := by
  refine ⟨rfl, rfl, rfl, rfl, ?_⟩
  cases rawData with
  | nil => exact ⟨_, rfl, rfl⟩
  | cons r rs =>
    refine ⟨{ cells := [], x := [], y := [] }, ?_, rfl⟩
    unfold componentLayout formatCalendarData
    simp only [h]
    rfl

/-- Witness of C15: one record of brand `A` under the brand filter `B`. -/
theorem empty_input_empty_grid_witness :
    filteredData [⟨"2024-01-01", "A"⟩] "B" = [] ∧
    ∃ L, componentLayout 0 (some [⟨"2024-01-01", "A"⟩]) "B" = some L ∧ L.z = [] :=
  ⟨by decide, (empty_input_empty_grid 0 [] [⟨"2024-01-01", "A"⟩] "B" (by decide)).2.2.2.2⟩

/-- C17: in `calculateCalendarLayout` a date string that occurs at several
indices keeps the count of its last index, and that count is what its cell
of the grid holds. -/
theorem last_write_wins (dates : List String) (counts : List Int)
    (hvalid : ∀ x ∈ dates, isISODate x = true) (d : String) (i : Nat)
    (hi : dates.get? i = some d) (hlast : ∀ j, i < j → dates.get? j ≠ some d) :
    (dateValueMapOf dates counts).get d = some (counts.getD i 0) ∧
    ∃ fuel0, ∀ fuel, fuel0 ≤ fuel →
      ∃ (L : Layout) (r c : Nat), calculateCalendarLayout fuel (some dates) counts = some L ∧
        ((L.cells.get? r).bind fun row => row.get? c) = some (d, counts.getD i 0) ∧
        ((L.z.get? r).bind fun row => row.get? c) = some (counts.getD i 0) := by
  have hmap := dateValueMapOf_get_last dates counts d i hi hlast
  have hd : d ∈ dates := List.get?_mem hi
  have hne : dates ≠ [] := by intro e; rw [e] at hd; simp at hd
  obtain ⟨fuel0, hfuel⟩ := layout_cell_of_date dates counts hne hvalid
  refine ⟨hmap, fuel0, ?_⟩
  intro fuel hf
  obtain ⟨L, hL, hcells⟩ := hfuel fuel hf
  obtain ⟨r, c, hrc⟩ := hcells d hd
  rw [hmap] at hrc
  exact ⟨L, r, c, hL, hrc, layout_z_of_cells L r c _ hrc⟩

/-- Witness of C17: 2024-01-01 listed twice, with the counts 5 and then 2. -/
theorem last_write_wins_witness :
    (∀ x ∈ ["2024-01-01", "2024-01-03", "2024-01-01"], isISODate x = true) ∧
    ["2024-01-01", "2024-01-03", "2024-01-01"].get? 2 = some "2024-01-01" ∧
    (dateValueMapOf ["2024-01-01", "2024-01-03", "2024-01-01"] [5, 7, 2]).get "2024-01-01"
      = some (([5, 7, 2] : List Int).getD 2 0) ∧
    ∃ fuel0, ∀ fuel, fuel0 ≤ fuel →
      ∃ (L : Layout) (r c : Nat),
        calculateCalendarLayout fuel (some ["2024-01-01", "2024-01-03", "2024-01-01"]) [5, 7, 2]
          = some L ∧
        ((L.cells.get? r).bind fun row => row.get? c)
          = some ("2024-01-01", ([5, 7, 2] : List Int).getD 2 0) ∧
        ((L.z.get? r).bind fun row => row.get? c) = some (([5, 7, 2] : List Int).getD 2 0) :=
  ⟨by decide, by decide,
   last_write_wins ["2024-01-01", "2024-01-03", "2024-01-01"] [5, 7, 2] (by decide) "2024-01-01" 2
     (by decide) (by
       intro j hj
       have : ["2024-01-01", "2024-01-03", "2024-01-01"].get? j = none :=
         List.get?_eq_none.mpr (by simp; omega)
       rw [this]; simp)⟩

/-- C18: on a response with `success = false` no aggregation and no chart
happen; the message shown is `data.error` when it is non-empty and the
fallback `Erreur lors du chargement des données` otherwise. -/
theorem failure_response_message (filters : Filters) (data : Response)
    (h : data.success = false) :
    loadCalendarData filters data = .error
      (match data.error with
        | some e => if e = "" then "Erreur lors du chargement des données" else e
        | none => "Erreur lors du chargement des données") ∧
    loadCalendarDataFetched filters (.resolved data) = loadCalendarData filters data ∧
    (∀ c, loadCalendarData filters data ≠ .chart c) ∧
    loadCalendarData filters data ≠ .noData := by
  have e1 : loadCalendarData filters data = .error (failureMessage data.error) := by
    unfold loadCalendarData; rw [if_pos h]
  have e2 : failureMessage data.error
      = (match data.error with
        | some e => if e = "" then "Erreur lors du chargement des données" else e
        | none => "Erreur lors du chargement des données") := by
    unfold failureMessage truthyStr
    cases data.error with
    | none => rfl
    | some e => by_cases he : e = "" <;> simp [he]
  refine ⟨by rw [e1, e2], ?_, ?_, ?_⟩
  · unfold loadCalendarDataFetched
    simp only [e1]
    rw [catchMessage_of_ne _ (failureMessage_ne_empty _)]
  · intro c; rw [e1]; simp
  · rw [e1]; simp

/-- Witness of C18: a failed response carrying the message `Base indisponible`. -/
theorem failure_response_message_witness :
    ({ cardResponse with success := false, error := some "Base indisponible" } : Response).success
      = false ∧
    loadCalendarData noFilters { cardResponse with success := false, error := some "Base indisponible" }
      = .error "Base indisponible" :=
  ⟨rfl, (failure_response_message noFilters
    { cardResponse with success := false, error := some "Base indisponible" } rfl).1⟩

/-- Counterexample to C19: in `loadCalendarData` two rejections with different
messages show different texts, each the message of its error. -/
theorem fetch_error_message_counterexample :
    loadCalendarDataFetched noFilters (.rejected "Failed to fetch") = .error "Failed to fetch" ∧
    loadCalendarDataFetched noFilters (.rejected "Load failed") = .error "Load failed" ∧
    loadCalendarDataFetched noFilters (.rejected "Failed to fetch")
      ≠ loadCalendarDataFetched noFilters (.rejected "Load failed") := by
  refine ⟨by decide, by decide, by decide⟩

/-- C19, amended: a rejected fetch is caught by `loadCalendarData`, which shows
the message of the error, and its own generic text only when that message is
empty; no chart is drawn and the no-data text is not shown. -/
theorem fetch_error_is_caught (filters : Filters) (e : String) :
    loadCalendarDataFetched filters (.rejected e) = .error
      (if e = "" then "Une erreur s\x27est produite lors du chargement des données." else e) ∧
    (e ≠ "" → (loadCalendarDataFetched filters (.rejected e)).message = some e) ∧
    (loadCalendarDataFetched filters (.rejected "")).message
      = some "Une erreur s\x27est produite lors du chargement des données." ∧
    (∀ c, loadCalendarDataFetched filters (.rejected e) ≠ .chart c) ∧
    loadCalendarDataFetched filters (.rejected e) ≠ .noData := by
  refine ⟨rfl, ?_, rfl, ?_, ?_⟩
  · intro h
    show some (catchMessage e) = some e
    rw [catchMessage_of_ne e h]
  · intro c h
    cases h
  · intro h
    cases h

/-- C20: a successful response without dates, or with an empty list of dates,
draws no chart and shows `Aucune donnée disponible pour cette sélection`;
nothing is thrown. -/
theorem no_data_message (filters : Filters) (data : Response) (hs : data.success = true)
    (hd : data.dates = none ∨ data.dates = some []) :
    loadCalendarData filters data = .noData ∧
    (loadCalendarData filters data).message
      = some "Aucune donnée disponible pour cette sélection" ∧
    loadCalendarDataFetched filters (.resolved data) = .noData ∧
    (∀ c, loadCalendarData filters data ≠ .chart c) ∧
    (∀ m, loadCalendarData filters data ≠ .error m) := by
  have e1 : loadCalendarData filters data = .noData := by
    unfold loadCalendarData
    rw [hs]
    rcases hd with hd | hd <;> rw [hd] <;> rfl
  refine ⟨e1, by rw [e1]; rfl, by unfold loadCalendarDataFetched; simp only [e1], ?_, ?_⟩
  · intro c; rw [e1]; simp
  · intro m; rw [e1]; simp

/-- Witness of C20: a successful response with an empty list of dates. -/
theorem no_data_message_witness :
    (plainResponse []).success = true ∧
    ((plainResponse []).dates = none ∨ (plainResponse []).dates = some []) ∧
    loadCalendarData noFilters (plainResponse []) = .noData ∧
    (loadCalendarData noFilters (plainResponse [])).message
      = some "Aucune donnée disponible pour cette sélection" :=
  ⟨rfl, Or.inr rfl, (no_data_message noFilters (plainResponse []) rfl (Or.inr rfl)).1,
   (no_data_message noFilters (plainResponse []) rfl (Or.inr rfl)).2.1⟩

/-! ## Claims on tooltips (age), the dashboard, tables, selects and cluster ids -/

/-- C21, the code at a failing input: of two records with the ages 0 and 30
and one purchase each, only the second is counted; the age summary holds one
purchase under `26-35 ans` while the bucket totals two, and the age 0 is in no
bracket. -/
theorem age_zero_is_not_counted :
    (List.foldl summarize { payment := [], store := [], gender := [], age := [] }
      [{ paymentInfo := none, magasin := none, gender := none, age := some (.num 0), value := 1 },
       { paymentInfo := none, magasin := none, gender := none, age := some (.num 30),
         value := 1 }]).age = [("26-35 ans", 1)] ∧
    (summarize { payment := [], store := [], gender := [], age := [] }
      { paymentInfo := none, magasin := none, gender := none, age := some (.num 0),
        value := 1 }).age = [] ∧
    ageGroup (jsNumber (.num 0)) = "0-18 ans" ∧
    (∃ c, loadCalendarData noFilters (agedResponse 0) = .chart c ∧
      c.z = [[1, 0, 0, 0, 0, 0, 0]] ∧
      ((c.text.get? 0).bind fun row => row.get? 0) = some
        "<b>Date</b>: 2024-01-01<br><b>Total</b>: 1 achat(s)<br>") :=
  ⟨by decide, by decide, by decide, ⟨_, rfl, by decide, by decide⟩⟩

/-- C30, the code at a failing input: an age that does not convert to a number
(`abc`) fails every comparison of the chain and is counted under `51+ ans`. -/
theorem nan_age_counts_as_51_plus :
    jsNumber (.str "abc") = none ∧
    ageGroup (jsNumber (.str "abc")) = "51+ ans" ∧
    (summarize { payment := [], store := [], gender := [], age := [] }
      { paymentInfo := none, magasin := none, gender := none, age := some (.str "abc"),
        value := 1 }).age = [("51+ ans", 1)] ∧
    (∀ (age : Option Int), ageGroup age = "51+ ans" →
      age = none ∨ ∃ a, age = some a ∧ 50 < a) := by
  refine ⟨by decide, by decide, by decide, ?_⟩
  intro age h
  cases age with
  | none => exact Or.inl rfl
  | some a =>
    refine Or.inr ⟨a, rfl, ?_⟩
    by_contra hn
    unfold ageGroup numLt numLe at h
    simp only [decide_eq_true_eq] at h
    split_ifs at h <;> first | (exact absurd h (by decide)) | omega

/-- C23: a record is in `filteredData` exactly when it is in `data` and passes
every selected filter (`all`, or the field equals the value); the order of
`data` is kept, and with every filter on `all`, or none set, `filteredData`
is `data`. -/
theorem dashboard_filteredData_spec (data : List Item) (selectedFilters : JsObj String) :
    (∀ item, item ∈ ProfessionalDashboard.filteredData data selectedFilters ↔
      item ∈ data ∧ ∀ kv ∈ selectedFilters, kv.2 = "all" ∨ item.get kv.1 = some (.str kv.2)) ∧
    (ProfessionalDashboard.filteredData data selectedFilters).Sublist data ∧
    ((∀ kv ∈ selectedFilters, kv.2 = "all") →
      ProfessionalDashboard.filteredData data selectedFilters = data) ∧
    ProfessionalDashboard.filteredData data [] = data := by
  have hall : ∀ item : Item,
      ((JsObj.entries selectedFilters).all fun kv =>
        kv.2 = "all" || item.get kv.1 = some (.str kv.2)) = true ↔
      ∀ kv ∈ selectedFilters, kv.2 = "all" ∨ item.get kv.1 = some (.str kv.2) := by
    intro item
    rw [List.all_eq_true]
    constructor
    · intro h kv hkv
      have := h kv ((JsObj.entries_perm selectedFilters).mem_iff.mpr hkv)
      simpa using this
    · intro h kv hkv
      have := h kv ((JsObj.entries_perm selectedFilters).mem_iff.mp hkv)
      simpa using this
  refine ⟨?_, List.filter_sublist _, ?_, ?_⟩
  · intro item
    unfold ProfessionalDashboard.filteredData
    rw [List.mem_filter, hall]
  · intro h
    unfold ProfessionalDashboard.filteredData
    rw [List.filter_eq_self]
    intro item _
    exact (hall item).mpr (fun kv hkv => Or.inl (h kv hkv))
  · unfold ProfessionalDashboard.filteredData
    rw [List.filter_eq_self]
    intro item _
    rfl

/-- C24, the code at a failing input: the handler removes `data-sort-direction`
from every header before it reads it back, so the stored direction is `asc`
after every click; of three clicks on one header the second and the third
both sort ascending. -/
theorem sort_direction_stuck_on_asc :
    (∀ (attrs : List (Option String)) (header : Nat), header < attrs.length →
      (clickHeader attrs header).2.getD header none = some "asc") ∧
    (clickHeader [none] 0).1 = false ∧
    (clickHeader (clickHeader [none] 0).2 0).1 = true ∧
    (clickHeader (clickHeader (clickHeader [none] 0).2 0).2 0).1 = true := by
  refine ⟨?_, by decide, by decide, by decide⟩
  intro attrs header h
  unfold clickHeader
  simp only
  have hnone : (attrs.map fun _ => (none : Option String)).getD header none = none := by
    rw [List.getD_eq_getElem?_getD, List.getElem?_map]
    cases attrs[header]? <;> rfl
  rw [hnone]
  simp only [show ¬ ((none : Option String) = some "asc") by simp, if_false]
  rw [List.getD_eq_getElem?_getD, List.getElem?_set_self (by simpa using h)]
  rfl

/-- C26: after `updateSelectOptions` the option values are the default value
followed by the non-empty entries of `options` in order, and the selected
value is the one selected before when it is among them, the default value
otherwise. -/
theorem updateSelectOptions_spec (selectElement : SelectEl) (options : List (Option String))
    (defaultValue defaultText : String) :
    (updateSelectOptions selectElement options defaultValue defaultText).options.map (fun o => o.1)
      = defaultValue :: options.filterMap truthyStr ∧
    (updateSelectOptions selectElement options defaultValue defaultText).value
      = if selectElement.value ∈ defaultValue :: options.filterMap truthyStr
        then selectElement.value else defaultValue := by
  have hmap : ((defaultValue, defaultText) ::
      options.filterMap fun option => (truthyStr option).map fun v => (v, v)).map (fun o => o.1)
      = defaultValue :: options.filterMap truthyStr := by
    simp only [List.map_cons, List.cons.injEq, true_and]
    rw [List.map_filterMap]
    congr 1
    funext o
    cases truthyStr o <;> rfl
  have hany : (((defaultValue, defaultText) ::
      options.filterMap fun option => (truthyStr option).map fun v => (v, v)).any
        (fun option => option.1 = selectElement.value)) = true
      ↔ selectElement.value ∈ defaultValue :: options.filterMap truthyStr := by
    rw [← hmap, List.any_eq_true, List.mem_map]
    constructor
    · rintro ⟨o, ho, e⟩
      exact ⟨o, ho, by simpa using e⟩
    · rintro ⟨o, ho, e⟩
      exact ⟨o, ho, by simpa using e⟩
  unfold updateSelectOptions
  simp only
  by_cases hc : selectElement.value = defaultValue
  · simp only [hc, ne_eq, not_true_eq_false, if_false, hmap, List.mem_cons, true_or, if_true,
      and_self]
  · simp only [ne_eq, hc, not_false_eq_true, if_true]
    by_cases hm : selectElement.value ∈ defaultValue :: options.filterMap truthyStr
    · rw [if_pos (hany.mpr hm), if_pos hm]
      exact ⟨hmap, rfl⟩
    · have : ¬ (((defaultValue, defaultText) ::
          options.filterMap fun option => (truthyStr option).map fun v => (v, v)).any
            (fun option => option.1 = selectElement.value)) = true := fun h => hm (hany.mp h)
      rw [if_neg this, if_neg hm]
      exact ⟨hmap, rfl⟩

theorem splitChars_ne_nil (sep : Char) (l : List Char) : splitChars sep l ≠ [] := by
  cases l with
  | nil => simp [splitChars]
  | cons c cs =>
    unfold splitChars
    split_ifs
    · simp
    · split <;> simp

theorem splitChars_of_not_mem (sep : Char) (l : List Char) (h : sep ∉ l) :
    splitChars sep l = [l] := by
  induction l with
  | nil => rfl
  | cons c cs ih =>
    have hc : ¬ c = sep := fun e => h (by simp [e])
    have hcs : sep ∉ cs := fun e => h (List.mem_cons_of_mem _ e)
    unfold splitChars
    rw [if_neg hc, ih hcs]

/-- The last segment of a split is what follows the last separator. -/
theorem splitChars_getLastD (sep : Char) (p c : List Char) (h : sep ∉ c) :
    (splitChars sep (p ++ sep :: c)).getLastD [] = c := by
  induction p with
  | nil =>
    simp only [List.nil_append]
    unfold splitChars
    rw [if_pos rfl, splitChars_of_not_mem sep c h]
    rfl
  | cons x xs ih =>
    simp only [List.cons_append]
    unfold splitChars
    have hne := splitChars_ne_nil sep (xs ++ sep :: c)
    split_ifs with hx
    · cases hs : splitChars sep (xs ++ sep :: c) with
      | nil => exact absurd hs hne
      | cons seg rest =>
        rw [hs] at ih
        simp only [List.getLastD_cons] at ih ⊢
        exact ih
    · cases hs : splitChars sep (xs ++ sep :: c) with
      | nil => exact absurd hs hne
      | cons seg rest =>
        rw [hs] at ih
        simp only
        cases rest with
        | nil =>
          -- a single segment cannot end the split of a list that contains the separator
          exfalso
          have : ∀ l : List Char, sep ∈ l → 2 ≤ (splitChars sep l).length := by
            intro l hl
            induction l with
            | nil => simp at hl
            | cons y ys ihl =>
              unfold splitChars
              by_cases hy : y = sep
              · rw [if_pos hy]
                have := splitChars_ne_nil sep ys
                cases hq : splitChars sep ys with
                | nil => exact absurd hq this
                | cons a b => simp
              · rw [if_neg hy]
                have hys : sep ∈ ys := by
                  rcases List.mem_cons.mp hl with e | e
                  · exact absurd e.symm hy
                  · exact e
                have := ihl hys
                cases hq : splitChars sep ys with
                | nil => rw [hq] at this; simp at this
                | cons a b => rw [hq] at this; simpa using this
          have h2 := this (xs ++ sep :: c) (by simp)
          rw [hs] at h2
          simp at h2
        | cons r rs =>
          simp only [List.getLastD_cons] at ih ⊢
          exact ih

/-- Counterexample to C27: for the cluster id `-1` the handlers read `1`, and
for `a-b` they read `b`. -/
theorem cluster_id_counterexample :
    clusterIdOf (offerTypeId "-1") = "1" ∧ clusterIdOf (actionTypeId "-1") = "1" ∧
    clusterIdOf (offerTypeId "a-b") = "b" ∧
    clusterIdOf (offerTypeId "-1") ≠ "-1" := by
  refine ⟨by decide, by decide, by decide, by decide⟩

/-- C27, amended: for every cluster id without the character `-`, the last
`-`-separated segment of `offer-type-<c>` and of `action-type-<c>` is `c`. -/
theorem cluster_id_recovered (c : String) (h : '-' ∉ c.data) :
    clusterIdOf (offerTypeId c) = c ∧ clusterIdOf (actionTypeId c) = c := by
  obtain ⟨cs⟩ := c
  constructor
  · unfold clusterIdOf offerTypeId
    have : ("offer-type-" ++ String.mk cs).data = "offer-type".data ++ '-' :: cs := rfl
    rw [this, splitChars_getLastD '-' _ cs h]
  · unfold clusterIdOf actionTypeId
    have : ("action-type-" ++ String.mk cs).data = "action-type".data ++ '-' :: cs := rfl
    rw [this, splitChars_getLastD '-' _ cs h]

/-- Witness of the amended C27 at the cluster id `12`. -/
theorem cluster_id_recovered_witness :
    '-' ∉ ("12" : String).data ∧
    clusterIdOf (offerTypeId "12") = "12" ∧ clusterIdOf (actionTypeId "12") = "12" :=
  ⟨by decide, cluster_id_recovered "12" (by decide)⟩

open Finset in
theorem list_sum_range (f : Nat → Int) (n : Nat) :
    ((List.range n).map f).sum = ∑ i in Finset.range n, f i := by
  induction n with
  | zero => simp
  | succ k ih => rw [List.range_succ, List.map_append, List.sum_append, ih, Finset.sum_range_succ]; simp

open Finset in
theorem sum_rows_of_seven (h : Nat → Int) (k : Nat) :
    ∑ r in Finset.range k, ∑ c in Finset.range 7, h (7 * r + c)
      = ∑ j in Finset.range (7 * k), h j := by
  induction k with
  | zero => simp
  | succ n ih =>
    rw [Finset.sum_range_succ, ih, show 7 * (n + 1) = 7 * n + 7 by ring, Finset.sum_range_add]

open Finset in
theorem sum_indicator (v : Int) (n j0 : Nat) (h : j0 < n) :
    ∑ j in Finset.range n, (if j = j0 then v else 0) = v := by
  rw [Finset.sum_ite_eq' (Finset.range n) j0 (fun _ => v)]
  simp [h]

/-- The sum of the grid is the sum of the map, when every key of the map is the
ISO text of a day of the grid and no key occurs twice. -/
theorem sum_lookup_range (m : JsObj Int) (first : Int) (n : Nat)
    (hlo : -719893 ≤ first) (hhi : first + n ≤ 3000000)
    (hnd : (m.map fun kv => kv.1).Nodup)
    (hkeys : ∀ k ∈ m.map (fun kv => kv.1), ∃ z, k = toISODate z ∧ first ≤ z ∧ z < first + n) :
    ∑ j in Finset.range n, ((m.get (toISODate (first + (j : Nat)))).getD 0)
      = objSum (fun v => v) m := by
  induction m with
  | nil => simp [JsObj.get, objSum]
  | cons p rest ih =>
    obtain ⟨k, v⟩ := p
    simp only [List.map_cons, List.nodup_cons] at hnd
    obtain ⟨z, hz, z1, z2⟩ := hkeys k (by simp)
    have hrest := ih hnd.2 (fun k' hk' => hkeys k' (List.mem_cons_of_mem _ hk'))
    have hnone : JsObj.get rest k = none := (JsObj.get_eq_none_iff rest k).mpr hnd.1
    have hpoint : ∀ j ∈ Finset.range n,
        (JsObj.get ((k, v) :: rest) (toISODate (first + (j : Nat)))).getD 0
          = (if j = (z - first).toNat then v else 0)
            + (JsObj.get rest (toISODate (first + (j : Nat)))).getD 0 := by
      intro j hj
      have hjn : j < n := Finset.mem_range.mp hj
      by_cases hjz : j = (z - first).toNat
      · have e : first + (j : Int) = z := by omega
        rw [if_pos hjz, e, ← hz]
        simp [JsObj.get, hnone]
      · rw [if_neg hjz]
        have hne : ¬ k = toISODate (first + (j : Nat)) := by
          intro e
          rw [hz] at e
          have := toISODate_injective z (first + (j : Nat)) (by omega) (by omega) (by omega)
            (by omega) e
          omega
        simp [JsObj.get, hne]
    rw [Finset.sum_congr rfl hpoint, Finset.sum_add_distrib, hrest,
      sum_indicator v n (z - first).toNat (by omega)]
    simp [objSum]

theorem matrixSum_gridCells (m : JsObj Int) (first : Int) (k : Nat) :
    matrixSum ((gridCells m first k).map fun row => row.map fun c => c.2)
      = ∑ j in Finset.range (7 * k), ((m.get (toISODate (first + (j : Nat)))).getD 0) := by
  unfold matrixSum gridCells
  simp only [List.map_map]
  rw [← sum_rows_of_seven (fun j => (m.get (toISODate (first + (j : Nat)))).getD 0) k,
    ← list_sum_range]
  congr 1
  apply List.map_congr_left
  intro r _
  simp only [Function.comp_apply, List.map_map]
  rw [← list_sum_range]
  congr 1
  apply List.map_congr_left
  intro c _
  simp only [Function.comp_apply]
  have : first + 7 * (r : Int) + (c : Int) = first + ((7 * r + c : Nat) : Int) := by
    push_cast; ring
  rw [this]

/-- With distinct dates, `dateValueMap` has the dates as keys, in order, and the
counts as values. -/
theorem dateValueMapOf_nodup (dates : List String) (counts : List Int) (hn : dates.Nodup) :
    (dateValueMapOf dates counts).map (fun kv => kv.1) = dates ∧
    objSum (fun v => v) (dateValueMapOf dates counts)
      = ((List.range dates.length).map fun i => counts.getD i 0).sum := by
  induction dates using List.reverseRecOn with
  | nil => exact ⟨rfl, rfl⟩
  | append_singleton l x ih =>
    rw [List.nodup_append] at hn
    obtain ⟨hl, _, hdis⟩ := hn
    obtain ⟨ih1, ih2⟩ := ih hl
    have hx : x ∉ l := fun h => hdis h (by simp)
    rw [dateValueMapOf_snoc]
    constructor
    · rw [JsObj.keys_set, ih1, if_neg hx]
    · have hnone : (dateValueMapOf l counts).get x = none := by
        rw [JsObj.get_eq_none_iff, ih1]; exact hx
      rw [objSum_set, hnone, ih2, List.length_append, List.length_singleton, List.range_succ,
        List.map_append, List.sum_append]
      simp

theorem sum_getD_range (counts : List Int) :
    ((List.range counts.length).map fun i => counts.getD i 0).sum = counts.sum := by
  congr 1
  apply List.ext_getElem
  · simp
  · intro i h1 h2
    simp [List.getD_eq_getElem?_getD, List.getElem?_eq_getElem h2]

/-! ## Grouping by date -/

theorem groupByDate_append (l : List Purchase) (x : Purchase) :
    groupByDate (l ++ [x]) = groupStep (groupByDate l) x := by
  unfold groupByDate
  rw [List.foldl_append]
  rfl

theorem groupByDate_spec (l : List Purchase) :
    ((groupByDate l).map fun kv => kv.1).Nodup ∧
    (∀ k ∈ (groupByDate l).map (fun kv => kv.1), ∃ p ∈ l, p.date_achat = k) ∧
    objSum (fun items => (items.length : Int)) (groupByDate l) = l.length := by
  induction l using List.reverseRecOn with
  | nil => exact ⟨by simp [groupByDate], by simp [groupByDate], rfl⟩
  | append_singleton l x ih =>
    obtain ⟨h1, h2, h3⟩ := ih
    rw [groupByDate_append]
    unfold groupStep
    cases hg : (groupByDate l).get x.date_achat with
    | none =>
      simp only
      refine ⟨JsObj.nodup_set _ _ _ h1, ?_, ?_⟩
      · intro k hk
        rcases (JsObj.mem_keys_set _ _ _ _).mp hk with e | e
        · exact ⟨x, by simp, e.symm⟩
        · obtain ⟨p, hp, e'⟩ := h2 k e
          exact ⟨p, List.mem_append_left _ hp, e'⟩
      · rw [objSum_set, hg, h3]
        simp
    | some items =>
      simp only
      refine ⟨JsObj.nodup_set _ _ _ h1, ?_, ?_⟩
      · intro k hk
        rcases (JsObj.mem_keys_set _ _ _ _).mp hk with e | e
        · exact ⟨x, by simp, e.symm⟩
        · obtain ⟨p, hp, e'⟩ := h2 k e
          exact ⟨p, List.mem_append_left _ hp, e'⟩
      · rw [objSum_set, hg, h3]
        simp
        omega

/-- The dates and counts handed over by `formatCalendarData`. -/
theorem formatted_spec (l : List Purchase) :
    ((JsObj.entries (groupByDate l)).map fun e => e.1).Nodup ∧
    (∀ k ∈ (JsObj.entries (groupByDate l)).map (fun e => e.1), ∃ p ∈ l, p.date_achat = k) ∧
    ((JsObj.entries (groupByDate l)).map fun e => (e.2.length : Int)).sum = l.length ∧
    ((JsObj.entries (groupByDate l)).map fun e => (e.2.length : Int)).length
      = ((JsObj.entries (groupByDate l)).map fun e => e.1).length := by
  obtain ⟨h1, h2, h3⟩ := groupByDate_spec l
  have hp := JsObj.entries_perm (groupByDate l)
  refine ⟨?_, ?_, ?_, by simp⟩
  · rw [(hp.map _).nodup_iff]; exact h1
  · intro k hk
    exact h2 k ((hp.map _).mem_iff.mp hk)
  · rw [(hp.map _).sum_eq]; exact h3

/-- The list kept by `formatCalendarData`, as one filter: a record stays when
the brand filter is `all` or its `magasin` is the brand. -/
theorem filteredData_eq_filter (data : List Purchase) (b : String) :
    filteredData data b = data.filter fun p => decide (b = "all" ∨ p.magasin = b) := by
  unfold filteredData
  by_cases h : b = "all"
  · rw [if_pos h]
    symm
    rw [List.filter_eq_self]
    intro p _
    simp [h]
  · rw [if_neg h]
    congr 1
    funext p
    simp [h]

/-- For records with valid ISO dates the loop ends and the entries of `z` add
up to the length of the list that `formatCalendarData` groups. -/
theorem component_sum_filtered (data : List Purchase) (b : String)
    (hvalid : ∀ p ∈ data, isISODate p.date_achat = true) :
    ∃ fuel0, ∀ fuel, fuel0 ≤ fuel →
      ∃ L, componentLayout fuel (some data) b = some L ∧
        matrixSum L.z = ((filteredData data b).length : Int) := by
  cases data with
  | nil =>
    refine ⟨0, fun fuel _ => ⟨{ cells := [], x := [], y := [] }, rfl, ?_⟩⟩
    unfold filteredData
    split_ifs <;> rfl
  | cons p ps =>
    obtain ⟨g1, g2, g3, g4⟩ := formatted_spec (filteredData (p :: ps) b)
    have hfmt : formatCalendarData (some (p :: ps)) b = some
        ((JsObj.entries (groupByDate (filteredData (p :: ps) b))).map (fun e => e.1),
         (JsObj.entries (groupByDate (filteredData (p :: ps) b))).map
           (fun e => (e.2.length : Int))) := rfl
    generalize hdates : (JsObj.entries (groupByDate (filteredData (p :: ps) b))).map
      (fun e => e.1) = dates at *
    generalize hcounts : (JsObj.entries (groupByDate (filteredData (p :: ps) b))).map
      (fun e => (e.2.length : Int)) = counts at *
    have hsub : ∀ x ∈ filteredData (p :: ps) b, x ∈ p :: ps := by
      intro x hx
      unfold filteredData at hx
      split_ifs at hx
      · exact hx
      · exact (List.mem_filter.mp hx).1
    have hv : ∀ x ∈ dates, isISODate x = true := by
      intro x hx
      obtain ⟨q, hq, e⟩ := g2 x hx
      rw [← e]
      exact hvalid q (hsub q hq)
    by_cases hne : dates = []
    · refine ⟨0, fun fuel _ => ⟨{ cells := [], x := [], y := [] }, ?_, ?_⟩⟩
      · unfold componentLayout
        rw [hfmt]
        simp only [hne]
        rfl
      · rw [hne] at g4
        have : counts = [] := List.length_eq_zero.mp g4
        rw [this] at g3
        rw [← g3]
        rfl
    · obtain ⟨lo, hi, p1, p2, q1, q2, q3, b1, b2⟩ := sorted_ends dates hne hv
      have hle : lo ≤ hi := by
        obtain ⟨d, hd, e⟩ := q1
        exact (q3 d hd lo e).2
      have hgd : getDay lo = (lo + 4) % 7 := rfl
      refine ⟨((hi - (lo - getDay lo)) / 7 + 1).toNat, ?_⟩
      intro fuel hf
      have hcalc := calculateCalendarLayout_eq dates counts hne lo hi p1 p2 hle fuel hf
      have hcomp : componentLayout fuel (some (p :: ps)) b
          = calculateCalendarLayout fuel (some dates) counts := by
        unfold componentLayout
        rw [hfmt]
      rw [hcomp, hcalc]
      refine ⟨_, rfl, ?_⟩
      · obtain ⟨k1, k2⟩ := dateValueMapOf_nodup dates counts g1
        simp only [Layout.z]
        rw [matrixSum_gridCells, sum_lookup_range _ _ _ (by rw [hgd]; omega)
          (by rw [hgd]; push_cast; omega) (by rw [k1]; exact g1), k2, ← g4, sum_getD_range, g3]
        intro k hk
        rw [k1] at hk
        obtain ⟨n, hn, e, _, _⟩ := isISODate_day k (hv k hk)
        obtain ⟨n1, n2⟩ := q3 k hk n hn
        exact ⟨n, e.symm, by rw [hgd]; omega, by rw [hgd]; push_cast; omega⟩

/-- C22: for records with valid ISO dates and any brand filter, the entries of
the `z` drawn by the component add up to the number of records that survive
the filter: all the records for the brand `all`, and otherwise the records
whose `magasin` is the brand. -/
theorem component_counts_every_record (data : List Purchase) (b : String)
    (hvalid : ∀ p ∈ data, isISODate p.date_achat = true) :
    ∃ fuel0, ∀ fuel, fuel0 ≤ fuel →
      ∃ L, componentLayout fuel (some data) b = some L ∧
        matrixSum L.z = (data.countP fun p => decide (b = "all" ∨ p.magasin = b)) ∧
        (b = "all" → matrixSum L.z = data.length) ∧
        (b ≠ "all" → matrixSum L.z = (data.countP fun p => decide (p.magasin = b))) := by
  obtain ⟨fuel0, h⟩ := component_sum_filtered data b hvalid
  refine ⟨fuel0, fun fuel hf => ?_⟩
  obtain ⟨L, hL, hsum⟩ := h fuel hf
  rw [filteredData_eq_filter, ← List.countP_eq_length_filter] at hsum
  refine ⟨L, hL, hsum, ?_, ?_⟩
  · intro hb
    rw [hsum]
    congr 1
    rw [List.countP_eq_length]
    intro p _
    simp [hb]
  · intro hb
    rw [hsum]
    congr 2
    funext p
    simp [hb]

/-- Witness of C22 on the records (2024-01-01, A), (2024-01-01, B), (2024-01-08, A)
and the brand `A`: two of the three records are counted. -/
theorem component_counts_every_record_witness :
    (∀ p ∈ ([⟨"2024-01-01", "A"⟩, ⟨"2024-01-01", "B"⟩, ⟨"2024-01-08", "A"⟩] : List Purchase),
      isISODate p.date_achat = true) ∧
    List.countP (fun p : Purchase => decide (("A" : String) = "all" ∨ p.magasin = "A"))
      [⟨"2024-01-01", "A"⟩, ⟨"2024-01-01", "B"⟩, ⟨"2024-01-08", "A"⟩] = 2 ∧
    ∃ fuel0, ∀ fuel, fuel0 ≤ fuel →
      ∃ L, componentLayout fuel
          (some [⟨"2024-01-01", "A"⟩, ⟨"2024-01-01", "B"⟩, ⟨"2024-01-08", "A"⟩]) "A" = some L ∧
        matrixSum L.z = (List.countP (fun p : Purchase => decide (("A" : String) = "all" ∨
          p.magasin = "A"))
          [⟨"2024-01-01", "A"⟩, ⟨"2024-01-01", "B"⟩, ⟨"2024-01-08", "A"⟩]) ∧
        (("A" : String) = "all" → matrixSum L.z
          = ([⟨"2024-01-01", "A"⟩, ⟨"2024-01-01", "B"⟩, ⟨"2024-01-08", "A"⟩] :
            List Purchase).length) ∧
        (("A" : String) ≠ "all" → matrixSum L.z = (List.countP
          (fun p : Purchase => decide (p.magasin = "A"))
          [⟨"2024-01-01", "A"⟩, ⟨"2024-01-01", "B"⟩, ⟨"2024-01-08", "A"⟩])) :=
  ⟨by decide, by decide,
   component_counts_every_record
     [⟨"2024-01-01", "A"⟩, ⟨"2024-01-01", "B"⟩, ⟨"2024-01-08", "A"⟩] "A" (by decide)⟩

/-! ## Sorting a table -/

theorem pairwise_orderedInsert_on {α : Type} (r : α → α → Prop) [DecidableRel r] (a : α)
    (l : List α) (htot : ∀ x ∈ a :: l, ∀ y ∈ a :: l, r x y ∨ r y x)
    (htr : ∀ x ∈ a :: l, ∀ y ∈ a :: l, ∀ z ∈ a :: l, r x y → r y z → r x z)
    (hs : l.Pairwise r) : (l.orderedInsert r a).Pairwise r := by
  induction l with
  | nil => simp
  | cons b l ih =>
    obtain ⟨hb, hl⟩ := List.pairwise_cons.mp hs
    simp only [List.orderedInsert]
    split_ifs with hab
    · refine List.pairwise_cons.mpr ⟨?_, hs⟩
      intro x hx
      rcases List.mem_cons.mp hx with e | e
      · rw [e]; exact hab
      · exact htr a (by simp) b (by simp) x (by simp [e]) hab (hb x e)
    · have hba : r b a := by
        rcases htot a (by simp) b (by simp) with h | h
        · exact absurd h hab
        · exact h
      refine List.pairwise_cons.mpr ⟨?_, ?_⟩
      · intro x hx
        rcases List.mem_cons.mp ((List.perm_orderedInsert r a l).mem_iff.mp hx) with e | e
        · rw [e]; exact hba
        · exact hb x e
      · apply ih
        · intro x hx y hy
          exact htot x (by
            rcases List.mem_cons.mp hx with e | e
            · simp [e]
            · simp [e]) y (by
            rcases List.mem_cons.mp hy with e | e
            · simp [e]
            · simp [e])
        · intro x hx y hy z hz
          exact htr x (by
            rcases List.mem_cons.mp hx with e | e
            · simp [e]
            · simp [e]) y (by
            rcases List.mem_cons.mp hy with e | e
            · simp [e]
            · simp [e]) z (by
            rcases List.mem_cons.mp hz with e | e
            · simp [e]
            · simp [e])
        · exact hl

/-- Insertion sort yields a sorted list as soon as the relation is total and
transitive on the elements sorted. -/
theorem pairwise_insertionSort_on {α : Type} (r : α → α → Prop) [DecidableRel r] (l : List α)
    (htot : ∀ x ∈ l, ∀ y ∈ l, r x y ∨ r y x)
    (htr : ∀ x ∈ l, ∀ y ∈ l, ∀ z ∈ l, r x y → r y z → r x z) :
    (l.insertionSort r).Pairwise r := by
  induction l with
  | nil => simp
  | cons a l ih =>
    simp only [List.insertionSort]
    have hmem : ∀ x, x ∈ a :: List.insertionSort r l → x ∈ a :: l := by
      intro x hx
      rcases List.mem_cons.mp hx with e | e
      · simp [e]
      · exact List.mem_cons_of_mem _ ((List.perm_insertionSort r l).mem_iff.mp e)
    apply pairwise_orderedInsert_on
    · intro x hx y hy
      exact htot x (hmem x hx) y (hmem y hy)
    · intro x hx y hy z hz
      exact htr x (hmem x hx) y (hmem y hy) z (hmem z hz)
    · exact ih (fun x hx y hy => htot x (List.mem_cons_of_mem _ hx) y (List.mem_cons_of_mem _ hy))
        (fun x hx y hy z hz => htr x (List.mem_cons_of_mem _ hx) y (List.mem_cons_of_mem _ hy) z
          (List.mem_cons_of_mem _ hz))

theorem compareRows_numeric {ν : Type} [LinearOrder ν] (parseFloat : String → Option ν)
    (localeCompare : String → String → Int) (column : Nat) (ascending : Bool)
    (a b : List String) (x y : ν) (ha : (a.get? column).bind parseFloat = some x)
    (hb : (b.get? column).bind parseFloat = some y) :
    compareRows parseFloat localeCompare column ascending a b ≤ 0
      ↔ if ascending = true then x ≤ y else y ≤ x := by
  have ha' : parseFloat ((a.get? column).getD "") = some x := by
    cases h : a.get? column with
    | none => rw [h] at ha; simp at ha
    | some s => rw [h] at ha; simpa using ha
  have hb' : parseFloat ((b.get? column).getD "") = some y := by
    cases h : b.get? column with
    | none => rw [h] at hb; simp at hb
    | some s => rw [h] at hb; simpa using hb
  unfold compareRows
  simp only [ha', hb']
  cases ascending with
  | true =>
    simp only [if_true]
    rcases lt_trichotomy x y with h | h | h
    · simp [h, le_of_lt h]
    · simp [h]
    · simp [h, not_lt_of_gt h, ne_of_gt h, not_le_of_gt h]
  | false =>
    simp only [Bool.false_eq_true, if_false]
    rcases lt_trichotomy y x with h | h | h
    · simp [h, le_of_lt h]
    · simp [h]
    · simp [h, not_lt_of_gt h, ne_of_gt h, not_le_of_gt h]

/-- C25: the rows after `sortTable` are a permutation of the rows before, and
when every cell of the column parses as a number they are in non-decreasing
numeric order for `ascending`, in non-increasing order otherwise. -/
theorem sortTable_spec {ν : Type} [LinearOrder ν] (parseFloat : String → Option ν)
    (localeCompare : String → String → Int) (rows : List (List String)) (column : Nat)
    (ascending : Bool) :
    (sortTable parseFloat localeCompare rows column ascending).Perm rows ∧
    ((∀ row ∈ rows, ∃ x, (row.get? column).bind parseFloat = some x) →
      (sortTable parseFloat localeCompare rows column ascending).Pairwise fun a b =>
        ∀ x y, (a.get? column).bind parseFloat = some x →
          (b.get? column).bind parseFloat = some y →
          if ascending = true then x ≤ y else y ≤ x) := by
  constructor
  · unfold sortTable
    split_ifs
    · exact List.Perm.refl _
    · exact List.perm_insertionSort _ _
  · intro hnum
    have hcol : ¬ (2 ≤ rows.length ∧ ∃ row ∈ rows, row.length ≤ column) := by
      rintro ⟨_, row, hrow, hlen⟩
      obtain ⟨x, hx⟩ := hnum row hrow
      rw [List.get?_eq_none.mpr hlen] at hx
      simp at hx
    unfold sortTable
    rw [if_neg hcol]
    have hsorted := pairwise_insertionSort_on
      (fun a b => compareRows parseFloat localeCompare column ascending a b ≤ 0) rows
      (by
        intro a ha b hb
        obtain ⟨x, hx⟩ := hnum a ha
        obtain ⟨y, hy⟩ := hnum b hb
        simp only
        rw [compareRows_numeric parseFloat localeCompare column ascending a b x y hx hy,
          compareRows_numeric parseFloat localeCompare column ascending b a y x hy hx]
        cases ascending
        · simp only [Bool.false_eq_true, if_false]; exact le_total y x
        · simp only [if_true]; exact le_total x y)
      (by
        intro a ha b hb c hc
        obtain ⟨x, hx⟩ := hnum a ha
        obtain ⟨y, hy⟩ := hnum b hb
        obtain ⟨z, hz⟩ := hnum c hc
        simp only
        rw [compareRows_numeric parseFloat localeCompare column ascending a b x y hx hy,
          compareRows_numeric parseFloat localeCompare column ascending b c y z hy hz,
          compareRows_numeric parseFloat localeCompare column ascending a c x z hx hz]
        cases ascending
        · simp only [Bool.false_eq_true, if_false]; exact fun h1 h2 => le_trans h2 h1
        · simp only [if_true]; exact fun h1 h2 => le_trans h1 h2)
    refine hsorted.imp_of_mem ?_
    intro a b ha hb hab x y hx hy
    exact (compareRows_numeric parseFloat localeCompare column ascending a b x y hx hy).mp hab

/-! ## The average of `QuickStats` -/

theorem sumField_fold (list : List Item) (key : String) (profits : List Int) (a : Int)
    (h : list.map (fun item => numField item key) = profits.map some) :
    list.foldl (fun sum item => sum.bind fun s => (numField item key).map fun v => s + v) (some a)
      = some (a + profits.sum) := by
  induction list generalizing a profits with
  | nil =>
    cases profits with
    | nil => simp
    | cons p ps => simp at h
  | cons item rest ih =>
    cases profits with
    | nil => simp at h
    | cons p ps =>
      simp only [List.map_cons, List.cons.injEq] at h
      simp only [List.foldl_cons, Option.some_bind, h.1, Option.map_some']
      rw [ih ps (a + p) h.2, List.sum_cons]
      congr 1
      ring

/-- Counterexample to C28: before any data is loaded, and when the filters match
no record, `filteredData` is empty and the division is evaluated with the
divisor 0; the result is `NaN`. -/
theorem average_profit_unguarded_counterexample :
    (ProfessionalDashboard.filteredData [] []).length = 0 ∧
    QuickStats.averageProfit (ProfessionalDashboard.filteredData [] []) = some .nan ∧
    (ProfessionalDashboard.filteredData
      [[("profit", .num 1600), ("region", .str "Nord")]] [("region", "Sud")]).length = 0 ∧
    QuickStats.averageProfit (ProfessionalDashboard.filteredData
      [[("profit", .num 1600), ("region", .str "Nord")]] [("region", "Sud")]) = some .nan := by
  refine ⟨by decide, rfl, by decide, rfl⟩

/-- C28, amended: when `filteredData` is not empty and every record has a
numeric profit, `averageProfit` is the sum of the profits divided by their
number, and the divisor is not zero. -/
theorem average_profit_mean (data : List Item) (selectedFilters : JsObj String)
    (profits : List Int)
    (hne : ProfessionalDashboard.filteredData data selectedFilters ≠ [])
    (hp : (ProfessionalDashboard.filteredData data selectedFilters).map
      (fun item => numField item "profit") = profits.map some) :
    QuickStats.averageProfit (ProfessionalDashboard.filteredData data selectedFilters)
      = some (.val ((profits.sum : ℚ) / (profits.length : ℚ))) ∧
    (ProfessionalDashboard.filteredData data selectedFilters).length ≠ 0 ∧
    profits.length = (ProfessionalDashboard.filteredData data selectedFilters).length := by
  have hlen : profits.length
      = (ProfessionalDashboard.filteredData data selectedFilters).length := by
    have := congrArg List.length hp
    simpa using this.symm
  have hpos : (ProfessionalDashboard.filteredData data selectedFilters).length ≠ 0 := by
    intro h
    exact hne (List.length_eq_zero.mp h)
  refine ⟨?_, hpos, hlen⟩
  unfold QuickStats.averageProfit sumField
  rw [sumField_fold _ _ profits 0 hp]
  simp only [Option.map_some', if_neg hpos, zero_add, hlen]

/-- Witness of the amended C28 on one record with the profit 1600. -/
theorem average_profit_mean_witness :
    ProfessionalDashboard.filteredData [[("profit", .num 1600), ("region", .str "Nord")]]
      [("region", "Nord")] ≠ [] ∧
    QuickStats.averageProfit (ProfessionalDashboard.filteredData
      [[("profit", .num 1600), ("region", .str "Nord")]] [("region", "Nord")])
      = some (.val ((([1600] : List Int).sum : ℚ) / (([1600] : List Int).length : ℚ))) :=
  ⟨by decide,
   (average_profit_mean [[("profit", .num 1600), ("region", .str "Nord")]] [("region", "Nord")]
     [1600] (by decide) (by decide)).1⟩

/-! ## Week labels -/

theorem showNum_data (n : Nat) (h : n < 100) :
    (showNum (n : Int)).data
      = if n < 10 then [digitChar n] else [digitChar (n / 10), digitChar n] := by
  interval_cases n <;> decide

theorem digitChar_ne_slash (n : Nat) : digitChar n ≠ '/' := by
  unfold digitChar
  have hx := Nat.mod_lt n (show 10 > 0 by decide)
  generalize n % 10 = a at *
  interval_cases a <;> decide

theorem digitChar_inj (a b : Nat) (ha : a < 10) (hb : b < 10) (h : digitChar a = digitChar b) :
    a = b := by
  interval_cases a <;> interval_cases b <;> first | rfl | (exact absurd h (by decide))

theorem digits_inj (a b : Nat) (ha : a < 100) (hb : b < 100) (r1 r2 : List Char)
    (h : (showNum (a : Int)).data ++ '/' :: r1 = (showNum (b : Int)).data ++ '/' :: r2) :
    a = b ∧ r1 = r2 := by
  rw [showNum_data a ha, showNum_data b hb] at h
  by_cases h1 : a < 10 <;> by_cases h2 : b < 10
  · rw [if_pos h1, if_pos h2] at h
    simp only [List.cons_append, List.nil_append, List.cons.injEq, true_and] at h
    exact ⟨digitChar_inj a b h1 h2 h.1, h.2⟩
  · rw [if_pos h1, if_neg h2] at h
    simp only [List.cons_append, List.nil_append, List.cons.injEq] at h
    exact absurd h.2.1.symm (digitChar_ne_slash b)
  · rw [if_neg h1, if_pos h2] at h
    simp only [List.cons_append, List.nil_append, List.cons.injEq] at h
    exact absurd h.2.1 (digitChar_ne_slash a)
  · rw [if_neg h1, if_neg h2] at h
    simp only [List.cons_append, List.nil_append, List.cons.injEq, true_and] at h
    have e1 := digitChar_inj (a / 10) (b / 10) (by omega) (by omega) h.1
    have e2 := digitChar_inj (a % 10) (b % 10) (by omega) (by omega)
      (by rw [digitChar_mod, digitChar_mod]; exact h.2.1)
    exact ⟨by omega, h.2.2⟩

/-- Two Mondays with the same label have the same day of the month and the same month. -/
theorem weekLabel_inj (k1 k2 : String) (m1 m2 : Int) (h1 : newDate k1 = some m1)
    (h2 : newDate k2 = some m2) (h : weekLabel k1 = weekLabel k2) :
    getDate m1 = getDate m2 ∧ getMonth m1 = getMonth m2 := by
  unfold weekLabel at h
  rw [h1, h2] at h
  simp only at h
  have hd := congrArg String.data h
  simp only [String.data_append] at hd
  have hd' : (showNum (getDate m1)).data ++ '/' :: (showNum ((getMonth m1 + 1 : Nat) : Int)).data
      = (showNum (getDate m2)).data ++ '/' :: (showNum ((getMonth m2 + 1 : Nat) : Int)).data := by
    have e : ∀ (a b : String), "Semaine du ".data ++ a.data ++ "/".data ++ b.data
        = "Semaine du ".data ++ (a.data ++ '/' :: b.data) := by
      intro a b
      simp [List.append_assoc]
    rw [e, e] at hd
    exact List.append_cancel_left hd
  obtain ⟨a1, a2⟩ := getDate_bounds m1
  obtain ⟨b1, b2⟩ := getDate_bounds m2
  have c1 := getMonth_lt m1
  have c2 := getMonth_lt m2
  have dim : ∀ (leap : Bool) (m : Nat), m < 12 → daysInMonth leap m ≤ 31 := by
    intro leap m hm
    unfold daysInMonth
    cases leap <;> rcases month_cases m hm with e | e | e | e | e | e | e | e | e | e | e | e <;>
      rw [e] <;> decide
  have d1 := dim (inLeapYear (yearFromDay m1)) (getMonth m1) c1
  have d2 := dim (inLeapYear (yearFromDay m2)) (getMonth m2) c2
  have e1 : getDate m1 = ((getDate m1).toNat : Int) := by omega
  have e2 : getDate m2 = ((getDate m2).toNat : Int) := by omega
  rw [e1, e2] at hd'
  obtain ⟨r1, r2⟩ := digits_inj (getDate m1).toNat (getDate m2).toNat (by omega) (by omega) _ _ hd'
  have hm := digits_inj (getMonth m1 + 1) (getMonth m2 + 1) (by omega) (by omega) [] []
    (by rw [r2])
  exact ⟨by omega, by omega⟩

/-- Counterexample to C29: 2018-01-01 and 2024-01-01 are Mondays of two
different weeks and both rows are labelled `Semaine du 1/1`. -/
theorem week_label_counterexample :
    ∃ c, loadCalendarData noFilters (plainResponse ["2018-01-01", "2024-01-01"]) = .chart c ∧
      c.y = ["Semaine du 1/1", "Semaine du 1/1"] ∧
      c.z = [[1, 0, 0, 0, 0, 0, 0], [1, 0, 0, 0, 0, 0, 0]] ∧
      weekLabel "2018-01-01" = weekLabel "2024-01-01" ∧
      ("2018-01-01" : String) ≠ "2024-01-01" :=
  ⟨_, rfl, by decide, by decide, by decide, by decide⟩

/-- C29, amended: with valid ISO dates, two different week rows whose Mondays
fall in the same calendar year have different labels in `y`. -/
theorem week_labels_distinct_within_year (filters : Filters) (data : Response)
    (dates : List String) (hs : data.success = true) (hdates : data.dates = some dates)
    (hne : dates ≠ []) (hvalid : ∀ x ∈ dates, isISODate x = true) :
    ∃ w, buildWeeks (dateBuckets data dates) = .ok w ∧
      loadCalendarData filters data = .chart (chartOf filters w) ∧
      (chartOf filters w).y = (weekKeysOf w).map weekLabel ∧
      ∀ k1 ∈ weekKeysOf w, ∀ k2 ∈ weekKeysOf w, ∀ m1 m2,
        newDate k1 = some m1 → newDate k2 = some m2 → yearFromDay m1 = yearFromDay m2 →
        weekLabel k1 = weekLabel k2 → k1 = k2 := by
  obtain ⟨w, hw⟩ := buildWeeks_ok (dateBuckets data dates)
    (dateBuckets_parse data dates (fun x hx => isISODate_parse x (hvalid x hx)))
  have hload := loadCalendarData_eq filters data dates hs hdates hne
  rw [hw] at hload
  have hkey : ∀ k ∈ weekKeysOf w, ∃ m, newDate k = some m ∧ toISODate m = k := by
    intro k hk
    rw [mem_weekKeysOf, buildWeeks_keys _ w hw] at hk
    obtain ⟨b, hb, n, hn, e⟩ := hk
    obtain ⟨p1, _, _⟩ := monday_key b.date (hvalid _ (dateBuckets_mem data dates b hb).2) n hn
    rw [e]
    exact ⟨mondayOf n, p1, rfl⟩
  refine ⟨w, hw, hload, rfl, ?_⟩
  intro k1 hk1 k2 hk2 m1 m2 h1 h2 hy hl
  obtain ⟨n1, a1, a2⟩ := hkey k1 hk1
  obtain ⟨n2, b1, b2⟩ := hkey k2 hk2
  rw [h1] at a1; cases a1
  rw [h2] at b1; cases b1
  obtain ⟨hd, hm⟩ := weekLabel_inj k1 k2 m1 m2 h1 h2 hl
  have e1 := makeDay_getDate m1
  have e2 := makeDay_getDate m2
  rw [hy, hm, hd, e2] at e1
  rw [← a2, ← b2, e1]

/-- Witness of the amended C29 on the dates 2024-01-01 and 2024-01-15. -/
theorem week_labels_distinct_within_year_witness :
    (∀ x ∈ ["2024-01-01", "2024-01-15"], isISODate x = true) ∧
    ∃ w, buildWeeks (dateBuckets (plainResponse ["2024-01-01", "2024-01-15"])
        ["2024-01-01", "2024-01-15"]) = .ok w ∧
      loadCalendarData noFilters (plainResponse ["2024-01-01", "2024-01-15"])
        = .chart (chartOf noFilters w) ∧
      (chartOf noFilters w).y = (weekKeysOf w).map weekLabel ∧
      ∀ k1 ∈ weekKeysOf w, ∀ k2 ∈ weekKeysOf w, ∀ m1 m2,
        newDate k1 = some m1 → newDate k2 = some m2 → yearFromDay m1 = yearFromDay m2 →
        weekLabel k1 = weekLabel k2 → k1 = k2 :=
  ⟨by decide,
   week_labels_distinct_within_year noFilters (plainResponse ["2024-01-01", "2024-01-15"])
     ["2024-01-01", "2024-01-15"] rfl rfl (by decide) (by decide)⟩

/-! ## The pipeline on hosts away from UTC -/

theorem zoned_localDay_instantOf (tz d : Int) (h0 : 0 ≤ tz) (h1 : tz < 1440) :
    Zoned.localDay tz (Zoned.instantOf d) = d := by
  simp only [Zoned.localDay, Zoned.instantOf, minutesPerDay]
  omega

theorem zoned_utcDay_setDate (tz d n : Int) (h0 : 0 ≤ tz) (h1 : tz < 1440) :
    Zoned.utcDay (Zoned.setDate tz (Zoned.instantOf d) n) = setDate d n := by
  unfold Zoned.setDate
  rw [zoned_localDay_instantOf tz d h0 h1]
  simp only [Zoned.utcDay, Zoned.instantOf, minutesPerDay]
  generalize Teasy.setDate d n = x
  omega

theorem zoned_utcDay_mondayOf (tz d : Int) (h0 : 0 ≤ tz) (h1 : tz < 1440) :
    Zoned.utcDay (Zoned.mondayOf tz (Zoned.instantOf d)) = mondayOf d := by
  unfold Zoned.mondayOf mondayOf
  simp only [zoned_localDay_instantOf tz d h0 h1]
  exact zoned_utcDay_setDate tz d _ h0 h1

theorem zoned_dayIndexOf_instantOf (tz d : Int) (h0 : 0 ≤ tz) (h1 : tz < 1440) :
    Zoned.dayIndexOf tz (Zoned.instantOf d) = dayIndexOf d := by
  unfold Zoned.dayIndexOf dayIndexOf
  simp only [zoned_localDay_instantOf tz d h0 h1]

theorem zoned_placeBucket_eq (tz : Int) (h0 : 0 ≤ tz) (h1 : tz < 1440) :
    Zoned.placeBucket tz = placeBucket := by
  funext weeks item
  unfold Zoned.placeBucket placeBucket
  cases newDate item.date with
  | none => rfl
  | some d =>
    simp only [zoned_utcDay_mondayOf tz d h0 h1, zoned_dayIndexOf_instantOf tz d h0 h1]

theorem zoned_weekLabel_eq (tz : Int) (h0 : 0 ≤ tz) (h1 : tz < 1440) :
    Zoned.weekLabel tz = weekLabel := by
  funext week
  unfold Zoned.weekLabel weekLabel
  cases newDate week with
  | none => rfl
  | some d => simp only [zoned_localDay_instantOf tz d h0 h1]

/-- On a host at UTC or ahead of it by less than a day the run is the run in UTC. -/
theorem zoned_loadCalendarData_eq (tz : Int) (h0 : 0 ≤ tz) (h1 : tz < 1440) (filters : Filters)
    (data : Response) : Zoned.loadCalendarData tz filters data = loadCalendarData filters data := by
  unfold Zoned.loadCalendarData loadCalendarData Zoned.buildCalendar buildCalendar
    Zoned.buildWeeks buildWeeks Zoned.chartOf chartOf
  rw [zoned_placeBucket_eq tz h0 h1, zoned_weekLabel_eq tz h0 h1] <;> rfl

/-- The run reads the filters `brand`, `gender` and `age_range` only. -/
theorem loadCalendarData_filters_congr (f1 f2 : Filters) (data : Response)
    (hb : f1.brand = f2.brand) (hg : f1.gender = f2.gender)
    (ha : f1.age_range = f2.age_range) :
    loadCalendarData f1 data = loadCalendarData f2 data := by
  obtain ⟨b1, p1, g1, a1, r1, s1, e1⟩ := f1
  obtain ⟨b2, p2, g2, a2, r2, s2, e2⟩ := f2
  simp only at hb hg ha
  subst hb hg ha
  rfl

/-- Counterexample to C16: the same response and the same filters give another
grid on a host five hours behind UTC than on a host in UTC.  The purchase of
Monday 2024-01-01 is drawn in the last column of the row `Semaine du 25/12`
there, and in the first column of the row `Semaine du 1/1` in UTC. -/
theorem host_offset_counterexample :
    (∃ c, Zoned.loadCalendarData (-300) noFilters (plainResponse ["2024-01-01"]) = .chart c ∧
      c.z = [[0, 0, 0, 0, 0, 0, 1]] ∧ c.y = ["Semaine du 25/12"]) ∧
    (∃ c, Zoned.loadCalendarData 0 noFilters (plainResponse ["2024-01-01"]) = .chart c ∧
      c.z = [[1, 0, 0, 0, 0, 0, 0]] ∧ c.y = ["Semaine du 1/1"]) ∧
    Zoned.loadCalendarData (-300) noFilters (plainResponse ["2024-01-01"])
      ≠ Zoned.loadCalendarData 0 noFilters (plainResponse ["2024-01-01"]) := by
  refine ⟨⟨_, rfl, by decide, by decide⟩, ⟨_, rfl, by decide, by decide⟩, by decide⟩

/-- C16, amended: on hosts at UTC or ahead of it by less than a day, two runs
on the same response with filters that agree on `brand`, `gender` and
`age_range` give the same outcome, whatever the two offsets, and it is the
outcome of the run in UTC. -/
theorem pipeline_deterministic_east_of_utc (tz1 tz2 : Int) (f1 f2 : Filters) (data : Response)
    (h1 : 0 ≤ tz1 ∧ tz1 < 1440) (h2 : 0 ≤ tz2 ∧ tz2 < 1440)
    (hb : f1.brand = f2.brand) (hg : f1.gender = f2.gender)
    (ha : f1.age_range = f2.age_range) :
    Zoned.loadCalendarData tz1 f1 data = Zoned.loadCalendarData tz2 f2 data ∧
    Zoned.loadCalendarData tz1 f1 data = loadCalendarData f2 data := by
  rw [zoned_loadCalendarData_eq tz1 h1.1 h1.2, zoned_loadCalendarData_eq tz2 h2.1 h2.2,
    loadCalendarData_filters_congr f1 f2 data hb hg ha]
  exact ⟨rfl, rfl⟩

/-- Witness of the amended C16: hosts at UTC+1 and UTC+9, the filters of
February and the untouched form; both draw the grid of the run in UTC. -/
theorem pipeline_deterministic_east_of_utc_witness :
    februaryFilters.brand = noFilters.brand ∧
    Zoned.loadCalendarData 60 februaryFilters cardResponse
      = Zoned.loadCalendarData 540 noFilters cardResponse ∧
    Zoned.loadCalendarData 60 februaryFilters cardResponse
      = loadCalendarData noFilters cardResponse ∧
    (∃ c, loadCalendarData noFilters cardResponse = .chart c ∧ c.z = [[1, 0, 0, 0, 0, 0, 0]]) :=
  ⟨rfl, (pipeline_deterministic_east_of_utc 60 540 februaryFilters noFilters cardResponse
      (by decide) (by decide) rfl rfl rfl).1,
    (pipeline_deterministic_east_of_utc 60 540 februaryFilters noFilters cardResponse
      (by decide) (by decide) rfl rfl rfl).2,
    ⟨_, rfl, by decide⟩⟩

end Teasy
